import Mathlib

/-!
# Spooky Study Dashboard: timer state machine and temporal analytics

A shallow embedding of `src/hooks/useTimer.js`, `src/utils/calculations.js`,
`src/constants/achievements.js`, `src/utils/achievements.js`, the session callback of
`src/context/AppContext.jsx`, `src/hooks/useMetrics.js` (`getDailyStudyTime`),
`src/hooks/useAchievements.js`, `src/utils/storage.js` and `formatTime` of
`src/components/Timer/TimerDisplay.jsx`.

Modelling conventions.

* JavaScript numbers are modelled by `JSNumber`: a finite value carried as an exact
  rational, or one of `NaN`, `+Infinity`, `-Infinity`.  Arithmetic on finite values is
  exact rational arithmetic.
* `Date.now()` is an explicit argument (integer milliseconds since the epoch).
* The React hook `useTimer` is modelled by explicit state passing: `TimerState` holds the
  seven `useState` cells and the two timestamp refs; every control function maps a state to
  the next state.  The interval of the tick effect exists exactly while `isActive` holds,
  so a tick is a function `tick s now` which does nothing on a paused machine.
* The two injected callbacks are modelled by the list of `TimerEvent`s a step emits.
* A session's `startTime` is the instant its ISO 8601 string denotes, in integer
  milliseconds.  The local time zone of the runtime, through which `Date` computes calendar
  fields and local midnights, is a parameter `TimeZone` of the analytics functions.
* An achievement state object is the list of its own properties in `Object.keys` order;
  `unlockedAt` is the instant its ISO string denotes.  The clock read by
  `checkAchievements` (for `unlockedAt` and for the trailing window) is one argument `now`.
* The values `storage.js` saves and loads are `JSData` (null, booleans, numbers, strings,
  arrays, objects, `undefined`).  `JSON.stringify` and `JSON.parse` follow the ECMAScript
  operations on JSON documents; a JSON text is identified with the document it denotes.
-/

namespace SpookyStudy

/-! ## JavaScript values -/

/-- A JavaScript number: finite (exact rational), `NaN`, or a signed infinity. -/
inductive JSNumber where
  | fin (q : ℚ)
  | nan
  | posInf
  | negInf
  deriving DecidableEq

/-- A JavaScript value, by `typeof` class. -/
inductive JSValue where
  | undefined
  | null
  | boolean (b : Bool)
  | number (n : JSNumber)
  | string (s : String)
  | object
  deriving DecidableEq

/-- The comparison `x >= c` of a JS number against a finite constant. -/
def JSNumber.geConst : JSNumber → ℚ → Bool
  | .fin q, c => decide (c ≤ q)
  | .nan, _ => false
  | .posInf, _ => true
  | .negInf, _ => false

/-- The comparison `x <= c` of a JS number against a finite constant. -/
def JSNumber.leConst : JSNumber → ℚ → Bool
  | .fin q, c => decide (q ≤ c)
  | .nan, _ => false
  | .posInf, _ => false
  | .negInf, _ => true

/-- The function `Number.isInteger`. -/
def JSNumber.isInteger : JSNumber → Bool
  | .fin q => decide (q.den = 1)
  | _ => false

/-- The numeric content of a value that has passed one of the validators
(a finite number); `0` on anything else. -/
def JSValue.toRat : JSValue → ℚ
  | .number (.fin q) => q
  | _ => 0

/-- A default parameter `x = d` of a destructured argument: used when `x` is `undefined`. -/
def JSValue.orDefault (v : JSValue) (d : ℚ) : JSValue :=
  match v with
  | .undefined => .number (.fin d)
  | w => w

/-! ## `useTimer.js` -/

/-- The validator `isValidStudyDuration`:
`typeof duration === 'number' && duration >= 25 && duration <= 90`. -/
def isValidStudyDuration : JSValue → Bool
  | .number n => n.geConst 25 && n.leConst 90
  | _ => false

/-- The validator `isValidRestDuration`:
`typeof duration === 'number' && duration >= 5 && duration <= 20`. -/
def isValidRestDuration : JSValue → Bool
  | .number n => n.geConst 5 && n.leConst 20
  | _ => false

/-- The validator `isValidCycleCount`:
`typeof count === 'number' && count >= 1 && count <= 4 && Number.isInteger(count)`. -/
def isValidCycleCount : JSValue → Bool
  | .number n => n.geConst 1 && n.leConst 4 && n.isInteger
  | _ => false

/-- The two session types. -/
inductive SessionType where
  | study
  | rest
  deriving DecidableEq, Repr

/-- The state of the hook: the `useState` cells and the two timestamp refs. -/
structure TimerState where
  studyDuration : ℚ
  restDuration : ℚ
  currentTime : ℚ
  isActive : Bool
  sessionType : SessionType
  cyclesPlanned : ℚ
  cyclesCompleted : ℕ
  startTimeRef : Option ℤ
  pausedTimeRef : Option ℚ
  deriving DecidableEq

/-- The configuration object passed to `useTimer` (callbacks are modelled by events). -/
structure TimerConfig where
  initialStudyDuration : JSValue
  initialRestDuration : JSValue
  initialCyclesPlanned : JSValue

/-- The result object of a validated setter: `{ success, error? }`. -/
structure SetResult where
  success : Bool
  error : Option String
  deriving DecidableEq

/-- A callback invocation. -/
inductive TimerEvent where
  | sessionComplete (sessionType : SessionType) (duration : ℚ) (timestamp : ℤ)
  | cycleComplete (cyclesCompleted : ℕ) (timestamp : ℤ)
  deriving DecidableEq

/-- The first render of `useTimer`: validation of the initial values and initial state. -/
def useTimer (cfg : TimerConfig) : TimerState :=
  let initialStudyDuration := cfg.initialStudyDuration.orDefault 25
  let initialRestDuration := cfg.initialRestDuration.orDefault 5
  let initialCyclesPlanned := cfg.initialCyclesPlanned.orDefault 1
  let validatedStudyDuration : ℚ :=
    if isValidStudyDuration initialStudyDuration then initialStudyDuration.toRat else 25
  let validatedRestDuration : ℚ :=
    if isValidRestDuration initialRestDuration then initialRestDuration.toRat else 5
  let validatedCyclesPlanned : ℚ :=
    if isValidCycleCount initialCyclesPlanned then initialCyclesPlanned.toRat else 1
  { studyDuration := validatedStudyDuration
    restDuration := validatedRestDuration
    currentTime := validatedStudyDuration * 60
    isActive := false
    sessionType := .study
    cyclesPlanned := validatedCyclesPlanned
    cyclesCompleted := 0
    startTimeRef := none
    pausedTimeRef := none }

/-- The setter `setStudyDurationWithValidation`, exported as `setStudyDuration`. -/
def setStudyDuration (s : TimerState) (minutes : JSValue) : TimerState × SetResult :=
  if !isValidStudyDuration minutes then
    (s, ⟨false, some "Study duration must be between 25 and 90 minutes"⟩)
  else
    let s1 := { s with studyDuration := minutes.toRat }
    let s2 :=
      if s.sessionType = .study && !s.isActive then
        { s1 with currentTime := minutes.toRat * 60 }
      else s1
    (s2, ⟨true, none⟩)

/-- The setter `setRestDurationWithValidation`, exported as `setRestDuration`. -/
def setRestDuration (s : TimerState) (minutes : JSValue) : TimerState × SetResult :=
  if !isValidRestDuration minutes then
    (s, ⟨false, some "Rest duration must be between 5 and 20 minutes"⟩)
  else
    let s1 := { s with restDuration := minutes.toRat }
    let s2 :=
      if s.sessionType = .rest && !s.isActive then
        { s1 with currentTime := minutes.toRat * 60 }
      else s1
    (s2, ⟨true, none⟩)

/-- The setter `setCyclesPlannedWithValidation`, exported as `setCyclesPlanned`. -/
def setCyclesPlanned (s : TimerState) (count : JSValue) : TimerState × SetResult :=
  if !isValidCycleCount count then
    (s, ⟨false, some "Please select between 1 and 4 cycles"⟩)
  else
    ({ s with cyclesPlanned := count.toRat }, ⟨true, none⟩)

/-- The control `start`, called when `Date.now()` reads `now`. -/
def start (s : TimerState) (now : ℤ) : TimerState :=
  if !s.isActive then
    { s with isActive := true, startTimeRef := some now, pausedTimeRef := some s.currentTime }
  else s

/-- The control `pause`. -/
def pause (s : TimerState) : TimerState :=
  if s.isActive then { s with isActive := false } else s

/-- The control `reset`. -/
def reset (s : TimerState) : TimerState :=
  { s with
    isActive := false
    sessionType := .study
    currentTime := s.studyDuration * 60
    cyclesCompleted := 0
    startTimeRef := none
    pausedTimeRef := none }

/-- The transition `transitionToRest`, at wall-clock `now`. -/
def transitionToRest (s : TimerState) (now : ℤ) : TimerState × List TimerEvent :=
  ({ s with sessionType := .rest, currentTime := s.restDuration * 60, isActive := false },
   [.sessionComplete .study s.studyDuration now])

/-- The transition `completeRestSession`, at wall-clock `now`. -/
def completeRestSession (s : TimerState) (now : ℤ) : TimerState × List TimerEvent :=
  let newCyclesCompleted := s.cyclesCompleted + 1
  let s1 := { s with cyclesCompleted := newCyclesCompleted }
  let ev := TimerEvent.sessionComplete .rest s.restDuration now
  if s.cyclesPlanned ≤ (newCyclesCompleted : ℚ) then
    ({ s1 with isActive := false, sessionType := .study, currentTime := s.studyDuration * 60 },
     [ev, .cycleComplete newCyclesCompleted now])
  else
    ({ s1 with sessionType := .study, currentTime := s.studyDuration * 60, isActive := false },
     [ev])

/-- One firing of the interval callback of the tick effect, when `Date.now()` reads `now`.
A `null` ref enters the arithmetic as `0`, as in JavaScript. -/
def tick (s : TimerState) (now : ℤ) : TimerState × List TimerEvent :=
  if s.isActive then
    let elapsed : ℤ := (now - s.startTimeRef.getD 0) / 1000
    let newTime : ℚ := s.pausedTimeRef.getD 0 - (elapsed : ℚ)
    if newTime ≤ 0 then
      if s.sessionType = .study then transitionToRest s now
      else completeRestSession s now
    else
      ({ s with currentTime := newTime }, [])
  else (s, [])

/-- The derived value `remainingCycles`. -/
def remainingCycles (s : TimerState) : ℚ :=
  s.cyclesPlanned - (s.cyclesCompleted : ℚ)

/-- The derived value `progress`. -/
def progress (s : TimerState) : ℚ :=
  if s.sessionType = .study then 1 - s.currentTime / (s.studyDuration * 60)
  else 1 - s.currentTime / (s.restDuration * 60)

/-- An operation on the timer, with the wall-clock time at which it happens. -/
inductive TimerOp where
  | setStudyDuration (minutes : JSValue)
  | setRestDuration (minutes : JSValue)
  | setCyclesPlanned (count : JSValue)
  | start
  | pause
  | reset
  | tick

/-- Applying one operation at wall-clock `now`. -/
def applyOp (s : TimerState) (op : TimerOp) (now : ℤ) : TimerState :=
  match op with
  | .setStudyDuration m => (setStudyDuration s m).1
  | .setRestDuration m => (setRestDuration s m).1
  | .setCyclesPlanned c => (setCyclesPlanned s c).1
  | .start => start s now
  | .pause => pause s
  | .reset => reset s
  | .tick => (tick s now).1

/-- Runs of the machine under a step guard: `runGuarded ok s t ops` applies the timed
operations `ops` in order, starting from state `s`; `t` is the wall-clock time of the latest
operation so far.  The result is `none` when a time stamp lies before the previous one, or
when the guard `ok` rejects a step. -/
def runGuarded (ok : TimerState → TimerOp → ℤ → Bool) (s : TimerState) (t : ℤ) :
    List (TimerOp × ℤ) → Option TimerState
  | [] => some s
  | (op, now) :: rest =>
      if t ≤ now ∧ ok s op now = true then runGuarded ok (applyOp s op now) now rest else none

/-- Unrestricted runs: any operations, at non-decreasing wall-clock times. -/
def run (s : TimerState) (t : ℤ) (ops : List (TimerOp × ℤ)) : Option TimerState :=
  runGuarded (fun _ _ _ => true) s t ops

/-- The bound of the countdown: the duration of the current session type, in seconds. -/
def sessionSeconds (s : TimerState) : ℚ :=
  (if s.sessionType = .study then s.studyDuration else s.restDuration) * 60

/-- Step guard: a duration setter is not applied to the session type that is running
(the application disables the configuration form while the timer is active). -/
def notRetunedWhileRunning (s : TimerState) (op : TimerOp) (_now : ℤ) : Bool :=
  match op with
  | .setStudyDuration _ => !(s.isActive && decide (s.sessionType = .study))
  | .setRestDuration _ => !(s.isActive && decide (s.sessionType = .rest))
  | _ => true

/-- Step guard: no rest session completes once `cyclesCompleted` has reached
`cyclesPlanned`, and `setCyclesPlanned` does not go below `cyclesCompleted`. -/
def withinPlannedCycles (s : TimerState) (op : TimerOp) (now : ℤ) : Bool :=
  match op with
  | .setCyclesPlanned c =>
      !isValidCycleCount c || decide ((s.cyclesCompleted : ℚ) ≤ c.toRat)
  | .tick =>
      !(s.isActive && decide (s.sessionType = .rest) &&
        decide (s.pausedTimeRef.getD 0 - (((now - s.startTimeRef.getD 0) / 1000 : ℤ) : ℚ) ≤ 0) &&
        decide (s.cyclesPlanned ≤ (s.cyclesCompleted : ℚ)))
  | _ => true

/-- The invariant behind the bound on `currentTime`, at wall-clock `t`: durations in range,
`currentTime` positive and at most the length of the current session, and, while active,
the start stamp not in the future and the baseline within the same bound. -/
def TimeInvariant (s : TimerState) (t : ℤ) : Prop :=
  (25 ≤ s.studyDuration ∧ s.studyDuration ≤ 90) ∧
  (5 ≤ s.restDuration ∧ s.restDuration ≤ 20) ∧
  0 < s.currentTime ∧
  s.currentTime ≤ sessionSeconds s ∧
  (s.isActive = true → ∃ t0 p, s.startTimeRef = some t0 ∧ t0 ≤ t ∧
      s.pausedTimeRef = some p ∧ p ≤ sessionSeconds s)

/-- The invariant behind the bound on `cyclesCompleted`: `cyclesPlanned` is an integer and
`cyclesCompleted` does not exceed it. -/
def CycleInvariant (s : TimerState) (_t : ℤ) : Prop :=
  (∃ k : ℤ, s.cyclesPlanned = (k : ℚ)) ∧ (s.cyclesCompleted : ℚ) ≤ s.cyclesPlanned

/-! ## `calculations.js` -/

/-- A session record of the history.  `startTime` is the instant denoted by the stored
ISO 8601 string, in milliseconds since the epoch. -/
structure Session where
  id : String
  startTime : ℤ
  duration : ℚ
  completed : Bool
  ghostEmotion : String
  sessionType : SessionType
  deriving DecidableEq

/-- The local time zone of the JavaScript runtime, as far as `calculations.js` reads it.
`dayOf t` is the local calendar day of the instant `t` (what `getFullYear`, `getMonth`,
`getDate` determine), counted in days; `midnight d` is the instant at which local day `d`
begins (`new Date(year, month, date).getTime()`); `hourOf t` is the local hour of day of
`t` (`getHours()`); `minusDays t n` is the instant `setDate(getDate() - n)` moves a date
at `t` to: the same local wall-clock time `n` calendar days earlier. -/
structure TimeZone where
  dayOf : ℤ → ℤ
  midnight : ℤ → ℤ
  hourOf : ℤ → ℤ
  minusDays : ℤ → ℤ → ℤ

/-- Milliseconds in 24 hours: `1000 * 60 * 60 * 24`. -/
def msPerDay : ℤ := 1000 * 60 * 60 * 24

/-- A zone at a fixed offset (in milliseconds) from UTC: no daylight-saving transitions. -/
def fixedOffsetZone (offset : ℤ) : TimeZone where
  dayOf t := (t + offset) / msPerDay
  midnight d := d * msPerDay - offset
  hourOf t := ((t + offset) % msPerDay) / 3600000
  minusDays t n := t - n * msPerDay

/-- The offset of the London clock from UTC around the start of summer time in 2025, at
the instant `t`. -/
def londonOffset (t : ℤ) : ℤ := if t < 1743296400000 then 0 else 3600000

/-- The instant of a London local time (given as a local millisecond count) around the
start of summer time in 2025; a local time skipped by the transition is read with the
offset before it. -/
def londonLocalToInstant (localTime : ℤ) : ℤ :=
  if 1743296400000 ≤ localTime - 3600000 then localTime - 3600000 else localTime

/-- The clock of Europe/London around the start of summer time in 2025: offset 0 before
2025-03-30T01:00:00Z (epoch 1743296400000) and one hour from then on.  Local day 20177 is
30 March 2025; local days after it begin one hour before the UTC day. -/
def londonSpring2025 : TimeZone where
  dayOf t := (t + (if t < 1743296400000 then 0 else 3600000)) / msPerDay
  midnight d := if d ≤ 20177 then d * msPerDay else d * msPerDay - 3600000
  hourOf t := ((t + londonOffset t) % msPerDay) / 3600000
  minusDays t n := londonLocalToInstant (t + londonOffset t - n * msPerDay)

/-- Zones in which every local day begins exactly 24 hours after the previous one. -/
def TimeZone.Regular (tz : TimeZone) : Prop :=
  ∀ d : ℤ, tz.midnight (d + 1) = tz.midnight d + msPerDay

/-- The midnight-normalised date of a session:
`new Date(date.getFullYear(), date.getMonth(), date.getDate()).getTime()`. -/
def localMidnight (tz : TimeZone) (startTime : ℤ) : ℤ :=
  tz.midnight (tz.dayOf startTime)

/-- The filter `(date, index, self) => self.indexOf(date) === index`:
keeps the first occurrence of every value. -/
def removeDuplicates (self : List ℤ) : List ℤ :=
  (self.enum.filter (fun p => decide (self.indexOf p.2 = p.1))).map Prod.snd

/-- The sort `(a, b) => b - a`: descending. -/
def sortDescending (l : List ℤ) : List ℤ :=
  l.insertionSort (fun a b => b ≤ a)

/-- The loop of `hasConsecutiveDays` over adjacent pairs of `sessionDates`, from the current
position on, with the current `consecutiveCount`; the last clause is the `return` after
the loop. -/
def consecutiveScan (days : ℤ) : List ℤ → ℤ → Bool
  | currentDate :: nextDate :: rest, consecutiveCount =>
      let dayDifference : ℚ := ((currentDate - nextDate : ℤ) : ℚ) / ((msPerDay : ℤ) : ℚ)
      if dayDifference = 1 then
        if days ≤ consecutiveCount + 1 then true
        else consecutiveScan days (nextDate :: rest) (consecutiveCount + 1)
      else consecutiveScan days (nextDate :: rest) 1
  | _, consecutiveCount => decide (days ≤ consecutiveCount)

/-- The array `sessionDates` of `hasConsecutiveDays`. -/
def sessionDates (tz : TimeZone) (sessionHistory : List Session) : List ℤ :=
  sortDescending (removeDuplicates
    ((sessionHistory.filter (fun session => session.completed)).map
      (fun session => localMidnight tz session.startTime)))

/-- The function `hasConsecutiveDays(sessionHistory, days)`. -/
def hasConsecutiveDays (tz : TimeZone) (sessionHistory : List Session) (days : ℤ) : Bool :=
  if sessionHistory.length = 0 ∨ days ≤ 0 then false
  else if ((sessionDates tz sessionHistory).length : ℤ) < days then false
  else consecutiveScan days (sessionDates tz sessionHistory) 1

/-- The function `Math.round` on an exact value: the nearest integer, halves going up. -/
def mathRound (x : ℚ) : ℤ := ⌊x + 1 / 2⌋

/-- The loop `for (days = 1; days <= 7; days++)` of `calculateProductivityScore` with its
`break`, as a scan with `remaining` iterations left, loop variable `days` and the
current `maxConsecutiveDays`; `p days` is the test `hasConsecutiveDays(history, days)`. -/
def consistencyScan (p : ℕ → Bool) : (remaining : ℕ) → (days : ℕ) → (maxConsecutiveDays : ℕ) → ℕ
  | 0, _, maxConsecutiveDays => maxConsecutiveDays
  | remaining + 1, days, maxConsecutiveDays =>
      if p days then consistencyScan p remaining (days + 1) days else maxConsecutiveDays

/-- The value of `score` just before the final rounding and cap. -/
def rawScore (tz : TimeZone) (sessionHistory : List Session) : ℚ :=
  let completedSessions := (sessionHistory.filter (fun s => s.completed)).length
  let totalSessions := sessionHistory.length
  let completionRate : ℚ :=
    if 0 < totalSessions then (completedSessions : ℚ) / (totalSessions : ℚ) else 0
  let score := completionRate * 50
  let maxConsecutiveDays :=
    consistencyScan (fun days => hasConsecutiveDays tz sessionHistory days) 7 1 0
  let consistencyBonus : ℚ := min ((maxConsecutiveDays : ℚ) * 10) 30
  let score := score + consistencyBonus
  let hasLongSession := sessionHistory.any (fun session =>
    session.completed && decide (45 ≤ session.duration))
  if hasLongSession then score + 20 else score

/-- The function `calculateProductivityScore(sessionHistory)`. -/
def calculateProductivityScore (tz : TimeZone) (sessionHistory : List Session) : ℤ :=
  if sessionHistory.length = 0 then 0
  else min (mathRound (rawScore tz sessionHistory)) 100

/-- The function `getSessionsInLastNDays(sessionHistory, days)`, called when `new Date()`
reads `now`. -/
def getSessionsInLastNDays (tz : TimeZone) (now : ℤ) (sessionHistory : List Session)
    (days : ℤ) : ℕ :=
  if sessionHistory.length = 0 ∨ days ≤ 0 then 0
  else
    let cutoffDate := tz.minusDays now days
    (sessionHistory.filter (fun session =>
      if !session.completed then false
      else decide (cutoffDate ≤ session.startTime))).length

/-- The function `hasSessionInTimeRange(sessionHistory, startHour, endHour)`. -/
def hasSessionInTimeRange (tz : TimeZone) (sessionHistory : List Session)
    (startHour endHour : ℤ) : Bool :=
  if sessionHistory.length = 0 then false
  else
    sessionHistory.any (fun session =>
      if !session.completed then false
      else
        let hour := tz.hourOf session.startTime
        if startHour ≤ endHour then decide (startHour ≤ hour) && decide (hour < endHour)
        else decide (startHour ≤ hour) || decide (hour < endHour))

/-- The function `countSessionsByEmotion(sessionHistory, emotion)`. -/
def countSessionsByEmotion (sessionHistory : List Session) (emotion : String) : ℕ :=
  if sessionHistory.length = 0 then 0
  else
    (sessionHistory.filter (fun session =>
      session.completed && decide (session.ghostEmotion = emotion))).length

/-! ## `constants/achievements.js` and `utils/achievements.js` -/

/-- The `condition` name of an achievement together with its `conditionParams`;
`unknown` stands for any name the `switch` of `checkAchievementCondition` does not list. -/
inductive Condition where
  | hasConsecutiveDays (days : ℤ)
  | getSessionsInLastNDays (sessions : ℤ) (days : ℤ)
  | hasSessionInTimeRange (startHour : ℤ) (endHour : ℤ)
  | countSessionsByEmotion (emotion : String) (count : ℤ)
  | mischiefCount (count : ℤ)
  | unknown (name : String)

/-- An achievement definition (the display fields `name`, `description`, `icon` carry no
logic and are left out). -/
structure Achievement where
  id : String
  condition : Condition

/-- The catalog `Object.values(ACHIEVEMENTS)`, in its iteration order. -/
def ACHIEVEMENTS : List Achievement :=
  [ ⟨"cursed-consistency", .hasConsecutiveDays 7⟩,
    ⟨"demon-discipline", .getSessionsInLastNDays 10 7⟩,
    ⟨"witching-hour", .hasSessionInTimeRange 0 3⟩,
    ⟨"sleepy-survivor", .countSessionsByEmotion "sleepy" 3⟩,
    ⟨"mischievous-master", .mischiefCount 5⟩ ]

/-- The list `ACHIEVEMENT_IDS`. -/
def ACHIEVEMENT_IDS : List String := ACHIEVEMENTS.map (fun a => a.id)

/-- The object `appData`. -/
structure AppData where
  sessionHistory : List Session
  mischiefCount : ℤ

/-- One entry of the achievement state: `unlockedAt` is the instant the stored ISO string
denotes, or `null`. -/
structure AchievementEntry where
  unlocked : Bool
  unlockedAt : Option ℤ
  deriving DecidableEq

/-- An achievement state object: its own properties with their values, in the order
`Object.keys` lists them (insertion order; the keys are not array indices). -/
abbrev AchievementState := List (String × AchievementEntry)

/-- The property read `state[id]`: `none` is `undefined`. -/
def getEntry : AchievementState → String → Option AchievementEntry
  | [], _ => none
  | (k, v) :: rest, id => if k = id then some v else getEntry rest id

/-- The property write `state[id] = entry`: an existing key keeps its place, a new key is
appended. -/
def setEntry : AchievementState → String → AchievementEntry → AchievementState
  | [], id, entry => [(id, entry)]
  | (k, v) :: rest, id, entry =>
      if k = id then (k, entry) :: rest else (k, v) :: setEntry rest id entry

/-- The list `Object.keys(state)`. -/
def objectKeys (state : AchievementState) : List String := state.map Prod.fst

/-- The truthiness of `state[id]?.unlocked`. -/
def isUnlocked (state : AchievementState) (id : String) : Bool :=
  ((getEntry state id).map (fun entry => entry.unlocked)).getD false

/-- The function `checkAchievementCondition(achievement, appData)`; `now` is the reading
of the clock during the call. -/
def checkAchievementCondition (tz : TimeZone) (now : ℤ) (achievement : Achievement)
    (appData : AppData) : Bool :=
  match achievement.condition with
  | .hasConsecutiveDays days => hasConsecutiveDays tz appData.sessionHistory days
  | .getSessionsInLastNDays sessions days =>
      decide (sessions ≤ (getSessionsInLastNDays tz now appData.sessionHistory days : ℤ))
  | .hasSessionInTimeRange startHour endHour =>
      hasSessionInTimeRange tz appData.sessionHistory startHour endHour
  | .countSessionsByEmotion emotion count =>
      decide (count ≤ (countSessionsByEmotion appData.sessionHistory emotion : ℤ))
  | .mischiefCount count => decide (count ≤ appData.mischiefCount)
  | .unknown _ => false

/-- The body of the `forEach` of `checkAchievements` for one achievement. -/
def checkOne (tz : TimeZone) (now : ℤ) (appData : AppData)
    (updatedAchievements : AchievementState) (achievement : Achievement) :
    AchievementState :=
  let achievementId := achievement.id
  if isUnlocked updatedAchievements achievementId then updatedAchievements
  else
    let shouldUnlock := checkAchievementCondition tz now achievement appData
    if shouldUnlock then
      setEntry updatedAchievements achievementId ⟨true, some now⟩
    else if (getEntry updatedAchievements achievementId).isNone then
      setEntry updatedAchievements achievementId ⟨false, none⟩
    else updatedAchievements

/-- The function `checkAchievements(appData, currentAchievementState)`, run when the clock
reads `now`; the default argument is the empty object `[]`. -/
def checkAchievements (tz : TimeZone) (now : ℤ) (appData : AppData)
    (currentAchievementState : AchievementState) : AchievementState :=
  ACHIEVEMENTS.foldl (checkOne tz now appData) currentAchievementState

/-- The function `getNewlyUnlockedAchievements(oldState, newState)`. -/
def getNewlyUnlockedAchievements (oldState newState : AchievementState) : List String :=
  (objectKeys newState).filter (fun achievementId =>
    let wasUnlocked := isUnlocked oldState achievementId
    let isNowUnlocked := isUnlocked newState achievementId
    !wasUnlocked && isNowUnlocked)

/-! ## `context/AppContext.jsx` -/

/-- The callback `handleSessionComplete(sessionData)` applied to the history `prev`:
`id` is the generated identifier, `ghostEmotion` the emotion selected at that moment, and
the three last arguments are the fields of `sessionData`. -/
def handleSessionComplete (id ghostEmotion : String) (prev : List Session)
    (sessionType : SessionType) (duration : ℚ) (timestamp : ℤ) : List Session :=
  prev ++ [{ id := id, startTime := timestamp, duration := duration, completed := true,
             ghostEmotion := ghostEmotion, sessionType := sessionType }]

/-- The wiring of the two timer callbacks in `AppProvider`: a session completion goes to
`handleSessionComplete`, a cycle completion only logs. -/
def onTimerEvent (id ghostEmotion : String) (prev : List Session) : TimerEvent → List Session
  | .sessionComplete sessionType duration timestamp =>
      handleSessionComplete id ghostEmotion prev sessionType duration timestamp
  | .cycleComplete _ _ => prev

/-! ## Specification-side definitions -/

/-- The streak length of the specification of the score: the largest `d` in `1..7` such that
`hasConsecutiveDays(history, d')` holds for every `d'` with `1 ≤ d' ≤ d`; `0` if none. -/
def specStreak (tz : TimeZone) (history : List Session) : ℕ :=
  ((List.range 8).filter (fun d => decide (1 ≤ d) &&
    (List.range d).all (fun i => hasConsecutiveDays tz history ((i + 1 : ℕ) : ℤ)))).foldl max 0

/-- The score formula of the specification, before rounding and clamping. -/
def specFormula (tz : TimeZone) (history : List Session) : ℚ :=
  (((history.filter (fun s => s.completed)).length : ℚ) / (history.length : ℚ)) * 50
    + min (10 * (specStreak tz history : ℚ)) 30
    + (if ∃ s ∈ history, s.completed = true ∧ 45 ≤ s.duration then 20 else 0)

/-- Calendar day `d` bears a completed session of the history. -/
def dayBearsSession (tz : TimeZone) (history : List Session) (d : ℤ) : Prop :=
  ∃ s ∈ history, s.completed = true ∧ tz.dayOf s.startTime = d

/-- The history has completed sessions on `n` consecutive calendar days `D, ..., D+n-1`. -/
def hasStreak (tz : TimeZone) (history : List Session) (n : ℤ) : Prop :=
  ∃ D : ℤ, ∀ i : ℤ, 0 ≤ i → i < n → dayBearsSession tz history (D + i)

/-- A run of `n` instants spaced exactly 24 hours apart, starting at some `M`, all of
which satisfy `S`. -/
def HasRun (S : ℤ → Prop) (n : ℤ) : Prop :=
  ∃ M : ℤ, ∀ i : ℤ, 0 ≤ i → i < n → S (M + i * msPerDay)

/-- The dates the scan of `hasConsecutiveDays` has accounted for when it stands at head
`a` of the remaining list `l` with `consecutiveCount = c`: the members of `l`, and the
`c - 1` dates counted before `a`, which lie 24, 48, ... hours after `a`. -/
def Counted (l : List ℤ) (a c : ℤ) (x : ℤ) : Prop :=
  x ∈ l ∨ ∃ j : ℤ, 1 ≤ j ∧ j < c ∧ x = a + j * msPerDay

/-- The entry the specification prescribes for one catalog id after an evaluation pass at
`now`, from the prior entry (`none` when absent) and the value of the id's predicate: an
unlocked entry is passed through; otherwise a true predicate gives `(true, now)` and a
false one keeps the prior entry, or initialises an absent one to `(false, null)`. -/
def expectedEntry (prior : Option AchievementEntry) (predicate : Bool) (now : ℤ) :
    Option AchievementEntry :=
  match prior with
  | some entry =>
      if entry.unlocked then some entry
      else if predicate then some ⟨true, some now⟩ else some entry
  | none => if predicate then some ⟨true, some now⟩ else some ⟨false, none⟩

/-- The predicate table of the specification, by achievement id. -/
def specPredicate (tz : TimeZone) (now : ℤ) (appData : AppData) (id : String) : Bool :=
  if id = "cursed-consistency" then hasConsecutiveDays tz appData.sessionHistory 7
  else if id = "demon-discipline" then
    decide (10 ≤ getSessionsInLastNDays tz now appData.sessionHistory 7)
  else if id = "witching-hour" then hasSessionInTimeRange tz appData.sessionHistory 0 3
  else if id = "sleepy-survivor" then
    decide (3 ≤ countSessionsByEmotion appData.sessionHistory "sleepy")
  else if id = "mischievous-master" then decide (5 ≤ appData.mischiefCount)
  else false

/-- The number of completed sessions of a history. -/
def completedCount (history : List Session) : ℕ :=
  history.countP (fun s => s.completed)

/-- The history has at least ten completed sessions within some period of seven days
(`7 * 24` hours starting at some instant `t0`). -/
def tenWithinSevenDays (history : List Session) : Prop :=
  ∃ t0 : ℤ, 10 ≤ history.countP (fun s =>
    s.completed && decide (t0 ≤ s.startTime) && decide (s.startTime < t0 + 7 * msPerDay))

/-- Ten completed sessions on 1 January 2024, one per hour from 10:00 UTC. -/
def tenSessionsInOneDay : List Session :=
  [⟨"s0", 1704103200000, 25, true, "mischievous", .study⟩,
   ⟨"s1", 1704106800000, 25, true, "mischievous", .study⟩,
   ⟨"s2", 1704110400000, 25, true, "mischievous", .study⟩,
   ⟨"s3", 1704114000000, 25, true, "mischievous", .study⟩,
   ⟨"s4", 1704117600000, 25, true, "mischievous", .study⟩,
   ⟨"s5", 1704121200000, 25, true, "mischievous", .study⟩,
   ⟨"s6", 1704124800000, 25, true, "mischievous", .study⟩,
   ⟨"s7", 1704128400000, 25, true, "mischievous", .study⟩,
   ⟨"s8", 1704132000000, 25, true, "mischievous", .study⟩,
   ⟨"s9", 1704135600000, 25, true, "mischievous", .study⟩]

/-- Seven completed sessions at noon UTC on the seven days 27 March to 2 April 2025. -/
def sevenDaysAcrossSpring : List Session :=
  [⟨"d0", 1743076800000, 25, true, "sleepy", .study⟩,
   ⟨"d1", 1743163200000, 25, true, "sleepy", .study⟩,
   ⟨"d2", 1743249600000, 25, true, "sleepy", .study⟩,
   ⟨"d3", 1743336000000, 25, true, "sleepy", .study⟩,
   ⟨"d4", 1743422400000, 25, true, "sleepy", .study⟩,
   ⟨"d5", 1743508800000, 25, true, "sleepy", .study⟩,
   ⟨"d6", 1743595200000, 25, true, "sleepy", .study⟩]

/-- Three completed `sleepy` sessions at 10:00 UTC on 1, 2 and 3 January 2024. -/
def threeSleepySessions : List Session :=
  [⟨"a", 1704103200000, 45, true, "sleepy", .study⟩,
   ⟨"b", 1704189600000, 30, true, "sleepy", .study⟩,
   ⟨"c", 1704276000000, 30, true, "sleepy", .study⟩]

/-! ## `hooks/useMetrics.js` -/

/-- The function `getDailyStudyTime(date)` of `useMetrics(sessionHistory)`; `date` is the
instant of the `Date` passed in.  Equality of `getFullYear`, `getMonth` and `getDate` is
equality of the local calendar day; `session.duration || 0` is the duration itself. -/
def getDailyStudyTime (tz : TimeZone) (sessionHistory : List Session) (date : ℤ) : ℚ :=
  if sessionHistory.length = 0 then 0
  else
    ((sessionHistory.filter (fun session =>
        if !session.completed then false
        else decide (tz.dayOf session.startTime = tz.dayOf date))).map
      (fun session => if session.duration = 0 then 0 else session.duration)).foldl
      (fun total d => total + d) 0

/-! ## `components/Timer/TimerDisplay.jsx` -/

/-- The method `padStart(targetLength, padChar)` of a string. -/
def padStart (s : String) (targetLength : ℕ) (padChar : Char) : String :=
  String.mk (List.replicate (targetLength - s.length) padChar) ++ s

/-- The function `formatTime(seconds)` on a non-negative integer number of seconds;
`String(n)` is the decimal representation of `n`. -/
def formatTime (seconds : ℕ) : String :=
  let mins := seconds / 60
  let secs := seconds % 60
  padStart (toString mins) 2 '0' ++ ":" ++ padStart (toString secs) 2 '0'

/-! ## `utils/storage.js` -/

/-- A JavaScript value as `storage.js` handles it: what `saveToStorage` is given and what
`JSON.parse` returns.  An array is the list of its elements; an object is the list of its
own enumerable properties in `Object.keys` order (insertion order; property names that are
array indices are outside this model). -/
inductive JSData where
  | undefined
  | null
  | boolean (b : Bool)
  | number (n : JSNumber)
  | string (s : String)
  | array (items : List JSData)
  | object (properties : List (String × JSData))

/-- A JSON document: what a JSON text denotes.  The members of an object are in the order
of the text, and a name may occur more than once. -/
inductive Json where
  | null
  | boolean (b : Bool)
  | number (q : ℚ)
  | string (s : String)
  | array (elements : List Json)
  | object (members : List (String × Json))

mutual
/-- The operation `SerializeJSONProperty` of `JSON.stringify`: `none` is the result
`undefined`.  A number that is not finite is written `null`. -/
def serializeJSONProperty : JSData → Option Json
  | .undefined => none
  | .null => some .null
  | .boolean b => some (.boolean b)
  | .number (.fin q) => some (.number q)
  | .number _ => some .null
  | .string s => some (.string s)
  | .array items => some (.array (serializeJSONArray items))
  | .object properties => some (.object (serializeJSONObject properties))
/-- The operation `SerializeJSONArray`: an element that serialises to `undefined` is
written `null`. -/
def serializeJSONArray : List JSData → List Json
  | [] => []
  | value :: rest => (serializeJSONProperty value).getD .null :: serializeJSONArray rest
/-- The operation `SerializeJSONObject`: a property that serialises to `undefined` is
left out. -/
def serializeJSONObject : List (String × JSData) → List (String × Json)
  | [] => []
  | (key, value) :: rest =>
      match serializeJSONProperty value with
      | some document => (key, document) :: serializeJSONObject rest
      | none => serializeJSONObject rest
end

/-- The function `JSON.stringify(data)`: the document of the JSON text it returns, or
`none` when it returns `undefined`. -/
def jsonStringify (data : JSData) : Option Json := serializeJSONProperty data

/-- The operation `CreateDataProperty(obj, key, value)`: an existing property keeps its
place and takes the new value, a new property is appended. -/
def createDataProperty : List (String × JSData) → String → JSData → List (String × JSData)
  | [], key, value => [(key, value)]
  | (k, v) :: rest, key, value =>
      if k = key then (k, value) :: rest else (k, v) :: createDataProperty rest key value

mutual
/-- The value `JSON.parse` builds for a document: the members of an object become its
properties one after the other, by `CreateDataProperty`. -/
def internalize : Json → JSData
  | .null => .null
  | .boolean b => .boolean b
  | .number q => .number (.fin q)
  | .string s => .string s
  | .array elements => .array (internalizeElements elements)
  | .object members =>
      .object ((internalizeMembers members).foldl
        (fun obj member => createDataProperty obj member.1 member.2) [])
/-- The values of the elements of an array document. -/
def internalizeElements : List Json → List JSData
  | [] => []
  | document :: rest => internalize document :: internalizeElements rest
/-- The values of the members of an object document, in the order of the text. -/
def internalizeMembers : List (String × Json) → List (String × JSData)
  | [] => []
  | (key, document) :: rest => (key, internalize document) :: internalizeMembers rest
end

/-- A string held by `localStorage`, as far as `JSON.parse` tells strings apart: a JSON
text, identified with the document it denotes (white space, escapes and the spelling of
numbers are not modelled), or a string that is not a JSON text. -/
inductive StoredText where
  | json (document : Json)
  | notJson

/-- The function `JSON.parse(item)`: `none` when it throws a `SyntaxError`. -/
def jsonParse : StoredText → Option JSData
  | .json document => some (internalize document)
  | .notJson => none

/-- The string that `localStorage.setItem(key, JSON.stringify(data))` stores: the JSON
text, or the string `undefined`, which is not a JSON text, when `JSON.stringify` returns
`undefined`. -/
def serializedText (data : JSData) : StoredText :=
  match jsonStringify data with
  | some document => .json document
  | none => .notJson

/-- The content of `localStorage`: the string stored under each key (`none` is `null`). -/
abbrev LocalStorage := String → Option StoredText

/-- The runtime services `saveToStorage` calls besides `JSON`: `localStorage.setItem`
(`none` when it throws a `QuotaExceededError`) and the time value of `new Date(value)`
(`none` for an invalid date). -/
structure Browser where
  setItem : LocalStorage → String → StoredText → Option LocalStorage
  newDate : JSData → Option ℤ

/-- Writing one key of a map. -/
def mapSet (store : LocalStorage) (key : String) (value : StoredText) : LocalStorage :=
  fun k => if k = key then some value else store k

/-- A browser whose store is a plain string-keyed map, without quota: `setItem` always
succeeds. -/
def mapBrowser (newDate : JSData → Option ℤ) : Browser where
  setItem store key value := some (mapSet store key value)
  newDate := newDate

/-- The function `loadFromStorage(key, defaultValue)`. -/
def loadFromStorage (store : LocalStorage) (key : String) (defaultValue : JSData) : JSData :=
  match store key with
  | none => defaultValue
  | some item =>
      match jsonParse item with
      | some parsed => parsed
      | none => defaultValue

/-- The property read `session.startTime`: `none` when it throws a `TypeError` (on
`undefined` and `null`), `undefined` when there is no such property. -/
def startTimeOf : JSData → Option JSData
  | .undefined => none
  | .null => none
  | .object properties => some ((properties.lookup "startTime").getD .undefined)
  | _ => some .undefined

/-- The array `recentSessions` of the quota clean-up of `saveToStorage`: the sessions whose
date is not before `thirtyDaysAgo` (an invalid date compares false); `none` when the
callback of `filter` throws. -/
def recentSessions (b : Browser) (tz : TimeZone) (now : ℤ) : List JSData → Option (List JSData)
  | [] => some []
  | session :: rest =>
      let thirtyDaysAgo := tz.minusDays now 30
      match startTimeOf session with
      | none => none
      | some startTime =>
          let keep : Bool :=
            match b.newDate startTime with
            | some sessionDate => decide (thirtyDaysAgo ≤ sessionDate)
            | none => false
          (recentSessions b tz now rest).map
            (fun kept => if keep then session :: kept else kept)

/-- The function `saveToStorage(key, data)`: the new store, or the message of the error it
throws.  `now` is the clock read by the clean-up.  In the clean-up every exception (the
explicit one, or a `TypeError` on a stored history that is not an array of objects) is
replaced by the same error. -/
def saveToStorage (b : Browser) (tz : TimeZone) (now : ℤ) (store : LocalStorage)
    (key : String) (data : JSData) : Except String LocalStorage :=
  let serialized := serializedText data
  match b.setItem store key serialized with
  | some saved => .ok saved
  | none =>
      match loadFromStorage store "sessionHistory" (.array []) with
      | .array sessionHistory =>
          if 0 < sessionHistory.length then
            match recentSessions b tz now sessionHistory with
            | some recent =>
                match b.setItem store "sessionHistory" (serializedText (.array recent)) with
                | some trimmed =>
                    match b.setItem trimmed key serialized with
                    | some saved => .ok saved
                    | none => .error "Storage limit reached. Some history may not be saved."
                | none => .error "Storage limit reached. Some history may not be saved."
            | none => .error "Storage limit reached. Some history may not be saved."
          else .error "Storage limit reached. Some history may not be saved."
      | _ => .error "Storage limit reached. Some history may not be saved."

/-! ## The persisted values -/

/-- The object stored under the key `preferences`. -/
structure Preferences where
  studyDuration : ℚ
  restDuration : ℚ
  cyclesPlanned : ℚ
  theme : String
  ghostVariant : String

/-- The preferences object as a JavaScript value. -/
def Preferences.toJS (p : Preferences) : JSData :=
  .object [("studyDuration", .number (.fin p.studyDuration)),
    ("restDuration", .number (.fin p.restDuration)),
    ("cyclesPlanned", .number (.fin p.cyclesPlanned)),
    ("theme", .string p.theme),
    ("ghostVariant", .string p.ghostVariant)]

/-- The string of a session type. -/
def SessionType.toJS : SessionType → JSData
  | .study => .string "study"
  | .rest => .string "rest"

/-- A session record as a JavaScript value; `toISOString` gives the ISO 8601 string of an
instant. -/
def Session.toJS (toISOString : ℤ → String) (session : Session) : JSData :=
  .object [("id", .string session.id),
    ("startTime", .string (toISOString session.startTime)),
    ("duration", .number (.fin session.duration)),
    ("completed", .boolean session.completed),
    ("ghostEmotion", .string session.ghostEmotion),
    ("sessionType", session.sessionType.toJS)]

/-- The session history array as a JavaScript value. -/
def sessionHistoryToJS (toISOString : ℤ → String) (sessionHistory : List Session) : JSData :=
  .array (sessionHistory.map (Session.toJS toISOString))

/-- One entry of the achievement state as a JavaScript value: `unlockedAt` is an ISO 8601
string or `null`. -/
def AchievementEntry.toJS (toISOString : ℤ → String) (entry : AchievementEntry) : JSData :=
  .object [("unlocked", .boolean entry.unlocked),
    ("unlockedAt",
      match entry.unlockedAt with
      | some t => .string (toISOString t)
      | none => .null)]

/-- The achievement state object as a JavaScript value. -/
def achievementStateToJS (toISOString : ℤ → String) (state : AchievementState) : JSData :=
  .object (state.map (fun p => (p.1, p.2.toJS toISOString)))

mutual
/-- The well-formed values: `null`, booleans, finite numbers, strings, and arrays and
objects of well-formed values, the property names of an object being distinct. -/
def JSData.wellFormed : JSData → Bool
  | .undefined => false
  | .null => true
  | .boolean _ => true
  | .number (.fin _) => true
  | .number _ => false
  | .string _ => true
  | .array items => wellFormedItems items
  | .object properties =>
      wellFormedProperties properties && decide ((properties.map Prod.fst).Nodup)
/-- Every element is well-formed. -/
def wellFormedItems : List JSData → Bool
  | [] => true
  | value :: rest => value.wellFormed && wellFormedItems rest
/-- Every property value is well-formed. -/
def wellFormedProperties : List (String × JSData) → Bool
  | [] => true
  | (_, value) :: rest => value.wellFormed && wellFormedProperties rest
end

/-- The round trip of the specification: `saveToStorage(key, X)` returns normally, changes
no other key, and `loadFromStorage(key, d)` on the store it leaves returns `X`. -/
def RoundTrips (b : Browser) (tz : TimeZone) (now : ℤ) (store : LocalStorage) (key : String)
    (d X : JSData) : Prop :=
  ∃ saved : LocalStorage, saveToStorage b tz now store key X = .ok saved ∧
    loadFromStorage saved key d = X ∧ ∀ k : String, k ≠ key → saved k = store k

/-! ## `hooks/useAchievements.js` -/

/-- The state of `useAchievements`: the persisted achievement state and the list of newly
unlocked ids awaiting dismissal. -/
structure AchievementsHook where
  achievementState : AchievementState
  newlyUnlocked : List String

/-- The list `newUnlocks` computed by `checkAndUpdateAchievements`. -/
def newUnlocks (tz : TimeZone) (now : ℤ) (sessionHistory : List Session) (mischiefCount : ℤ)
    (hook : AchievementsHook) : List String :=
  getNewlyUnlockedAchievements hook.achievementState
    (checkAchievements tz now ⟨sessionHistory, mischiefCount⟩ hook.achievementState)

/-- The function `checkAndUpdateAchievements`, run when the clock reads `now`. -/
def checkAndUpdateAchievements (tz : TimeZone) (now : ℤ) (sessionHistory : List Session)
    (mischiefCount : ℤ) (hook : AchievementsHook) : AchievementsHook :=
  let appData : AppData := ⟨sessionHistory, mischiefCount⟩
  let updatedAchievements := checkAchievements tz now appData hook.achievementState
  let newUnlocks := getNewlyUnlockedAchievements hook.achievementState updatedAchievements
  if 0 < newUnlocks.length then
    { achievementState := updatedAchievements
      newlyUnlocked := hook.newlyUnlocked ++ newUnlocks }
  else hook

/-- The function `clearNotification(achievementId)`. -/
def clearNotification (hook : AchievementsHook) (achievementId : String) : AchievementsHook :=
  { hook with
    newlyUnlocked := hook.newlyUnlocked.filter (fun id => decide (id ≠ achievementId)) }

/-- The function `clearAllNotifications()`. -/
def clearAllNotifications (hook : AchievementsHook) : AchievementsHook :=
  { hook with newlyUnlocked := [] }

/-- One step of the hook: an evaluation pass on the current inputs at clock `now`, or a
dismissal. -/
inductive HookStep where
  | evaluate (sessionHistory : List Session) (mischiefCount : ℤ) (now : ℤ)
  | clearNotification (achievementId : String)
  | clearAllNotifications

/-- Applying one step. -/
def applyHookStep (tz : TimeZone) (hook : AchievementsHook) : HookStep → AchievementsHook
  | .evaluate sessionHistory mischiefCount now =>
      checkAndUpdateAchievements tz now sessionHistory mischiefCount hook
  | .clearNotification achievementId => clearNotification hook achievementId
  | .clearAllNotifications => clearAllNotifications hook

/-- Running a list of steps. -/
def runHook (tz : TimeZone) (hook : AchievementsHook) (steps : List HookStep) :
    AchievementsHook :=
  steps.foldl (applyHookStep tz) hook

/-- The ids one step appends to `newlyUnlocked`. -/
def addedBy (tz : TimeZone) (hook : AchievementsHook) : HookStep → List String
  | .evaluate sessionHistory mischiefCount now =>
      newUnlocks tz now sessionHistory mischiefCount hook
  | _ => []

/-- All the ids appended to `newlyUnlocked` along a run, in order. -/
def addedAlong (tz : TimeZone) : AchievementsHook → List HookStep → List String
  | _, [] => []
  | hook, step :: rest =>
      addedBy tz hook step ++ addedAlong tz (applyHookStep tz hook step) rest

/-! ## Further specification-side definitions -/

/-- A sequence of ticks at the given wall-clock times, with the events they emit. -/
def runTicks (s : TimerState) : List ℤ → TimerState × List TimerEvent
  | [] => (s, [])
  | t :: rest =>
      ((runTicks (tick s t).1 rest).1, (tick s t).2 ++ (runTicks (tick s t).1 rest).2)

/-- Step guard: the duration setters are given whole numbers of minutes (or values they
reject). -/
def wholeMinutes (_s : TimerState) (op : TimerOp) (_now : ℤ) : Bool :=
  match op with
  | .setStudyDuration m => decide (m.toRat.den = 1) || !isValidStudyDuration m
  | .setRestDuration m => decide (m.toRat.den = 1) || !isValidRestDuration m
  | _ => true

/-- The invariant of runs with whole-minute durations, at wall-clock `t`: the durations are
integers in range, `currentTime` is a positive integer of at most `5400` seconds, and,
while active, the start stamp is not in the future and the baseline is such an integer. -/
def WholeInvariant (s : TimerState) (t : ℤ) : Prop :=
  (∃ k : ℤ, s.studyDuration = (k : ℚ) ∧ 25 ≤ k ∧ k ≤ 90) ∧
  (∃ k : ℤ, s.restDuration = (k : ℚ) ∧ 5 ≤ k ∧ k ≤ 20) ∧
  (∃ n : ℤ, s.currentTime = (n : ℚ) ∧ 0 < n ∧ n ≤ 5400) ∧
  (s.isActive = true → ∃ t0 : ℤ, ∃ n : ℤ, s.startTimeRef = some t0 ∧ t0 ≤ t ∧
      s.pausedTimeRef = some (n : ℚ) ∧ n ≤ 5400)

/-- The display string `MM:SS` of the specification: minutes `floor(s/60)` and seconds
`s mod 60`, each as two decimal digits. -/
def mmss (s : ℕ) : String :=
  String.mk [Nat.digitChar (s / 60 / 10), Nat.digitChar (s / 60 % 10), ':',
    Nat.digitChar (s % 60 / 10), Nat.digitChar (s % 60 % 10)]

/-- The largest `d` in `1..7` for which the test `p d` holds; `0` if there is none. -/
def largestStreak (p : ℕ → Bool) : ℕ :=
  ((List.range 8).filter (fun d => decide (1 ≤ d) && p d)).foldl max 0

/-- Zones in which a later local day begins more than 12 hours after an earlier one, for
the local days on which instants fall (so two local midnights exactly 24 hours apart have
no local midnight between them). -/
def TimeZone.Orderly (tz : TimeZone) : Prop :=
  ∀ t u : ℤ, tz.dayOf t < tz.dayOf u →
    tz.midnight (tz.dayOf t) + 43200000 < tz.midnight (tz.dayOf u)

/-- A list of dates in strictly descending order in which two dates exactly 24 hours
apart have no date of the list between them. -/
def GapsAdjacent (l : List ℤ) : Prop :=
  l.Pairwise (fun x y => y < x) ∧
  ∀ x ∈ l, ∀ z ∈ l, x - msPerDay ∈ l → ¬ (x - msPerDay < z ∧ z < x)

/-- The daily study time of the specification: the sum of the durations of the completed
study sessions whose `startTime` falls on the local calendar day of `date`. -/
def specDailyStudyTime (tz : TimeZone) (history : List Session) (date : ℤ) : ℚ :=
  ((history.filter (fun s => s.completed && decide (s.sessionType = .study) &&
      decide (tz.dayOf s.startTime = tz.dayOf date))).map (fun s => s.duration)).sum

/-- The history the application records when a 25-minute study session completes at
10:25 UTC on 1 January 2024 and the 5-minute rest after it at 10:30. -/
def studyThenRest : List Session :=
  onTimerEvent "s2" "sleepy"
    (onTimerEvent "s1" "sleepy" [] (.sessionComplete .study 25 1704104700000))
    (.sessionComplete .rest 5 1704105000000)

/-! ## Theorems: the timer state machine -/

/-- A rational has denominator one exactly when it is an integer. -/
theorem den_eq_one_iff_int (q : ℚ) : q.den = 1 ↔ ∃ k : ℤ, q = (k : ℚ) := by
  constructor
  · intro h
    exact ⟨q.num, (Rat.coe_int_num_of_den_eq_one h).symm⟩
  · rintro ⟨k, rfl⟩
    exact Rat.den_intCast k

/-- Validity of a study duration, in terms of the number. -/
theorem isValidStudyDuration_number (d : JSNumber) :
    isValidStudyDuration (.number d) = true ↔ ∃ q : ℚ, d = .fin q ∧ 25 ≤ q ∧ q ≤ 90 := by
  cases d <;> simp [isValidStudyDuration, JSNumber.geConst, JSNumber.leConst]

/-- Validity of a rest duration, in terms of the number. -/
theorem isValidRestDuration_number (d : JSNumber) :
    isValidRestDuration (.number d) = true ↔ ∃ q : ℚ, d = .fin q ∧ 5 ≤ q ∧ q ≤ 20 := by
  cases d <;> simp [isValidRestDuration, JSNumber.geConst, JSNumber.leConst]

/-- Validity of a cycle count, in terms of the number. -/
theorem isValidCycleCount_number (d : JSNumber) :
    isValidCycleCount (.number d) = true ↔
      ∃ k : ℤ, d = .fin (k : ℚ) ∧ 1 ≤ k ∧ k ≤ 4 := by
  cases d with
  | fin q =>
    simp only [isValidCycleCount, JSNumber.geConst, JSNumber.leConst, JSNumber.isInteger,
      Bool.and_eq_true, decide_eq_true_eq, JSNumber.fin.injEq]
    constructor
    · rintro ⟨⟨h1, h4⟩, hd⟩
      obtain ⟨k, rfl⟩ := (den_eq_one_iff_int q).1 hd
      exact ⟨k, rfl, by exact_mod_cast h1, by exact_mod_cast h4⟩
    · rintro ⟨k, rfl, h1, h4⟩
      exact ⟨⟨by exact_mod_cast h1, by exact_mod_cast h4⟩, Rat.den_intCast k⟩
  | nan => simp [isValidCycleCount, JSNumber.geConst]
  | posInf => simp [isValidCycleCount, JSNumber.leConst]
  | negInf => simp [isValidCycleCount, JSNumber.geConst]

/-- C1: each validated setter succeeds exactly on the documented range (study 25..90,
rest 5..20, cycles an integer 1..4); on success the field holds the given number; on
failure the result is the fixed error object and the state is returned unchanged. -/
theorem setters_validate (d : JSNumber) (s : TimerState) :
    ((setStudyDuration s (.number d)).2.success = true ↔
        ∃ q : ℚ, d = .fin q ∧ 25 ≤ q ∧ q ≤ 90) ∧
    ((setRestDuration s (.number d)).2.success = true ↔
        ∃ q : ℚ, d = .fin q ∧ 5 ≤ q ∧ q ≤ 20) ∧
    ((setCyclesPlanned s (.number d)).2.success = true ↔
        ∃ k : ℤ, d = .fin (k : ℚ) ∧ 1 ≤ k ∧ k ≤ 4) ∧
    (if (setStudyDuration s (.number d)).2.success = true then
        JSNumber.fin (setStudyDuration s (.number d)).1.studyDuration = d ∧
        (setStudyDuration s (.number d)).2 = ⟨true, none⟩
      else setStudyDuration s (.number d) =
        (s, ⟨false, some "Study duration must be between 25 and 90 minutes"⟩)) ∧
    (if (setRestDuration s (.number d)).2.success = true then
        JSNumber.fin (setRestDuration s (.number d)).1.restDuration = d ∧
        (setRestDuration s (.number d)).2 = ⟨true, none⟩
      else setRestDuration s (.number d) =
        (s, ⟨false, some "Rest duration must be between 5 and 20 minutes"⟩)) ∧
    (if (setCyclesPlanned s (.number d)).2.success = true then
        JSNumber.fin (setCyclesPlanned s (.number d)).1.cyclesPlanned = d ∧
        (setCyclesPlanned s (.number d)).2 = ⟨true, none⟩
      else setCyclesPlanned s (.number d) =
        (s, ⟨false, some "Please select between 1 and 4 cycles"⟩)) := by
  refine ⟨?_, ?_, ?_, ?_, ?_, ?_⟩
  · rw [← isValidStudyDuration_number]
    by_cases h : isValidStudyDuration (.number d) = true <;> simp [setStudyDuration, h]
  · rw [← isValidRestDuration_number]
    by_cases h : isValidRestDuration (.number d) = true <;> simp [setRestDuration, h]
  · rw [← isValidCycleCount_number]
    by_cases h : isValidCycleCount (.number d) = true <;> simp [setCyclesPlanned, h]
  · by_cases h : isValidStudyDuration (.number d) = true
    · obtain ⟨q, rfl, -, -⟩ := (isValidStudyDuration_number d).1 h
      by_cases hc : s.sessionType = .study && !s.isActive <;>
        simp [setStudyDuration, h, hc, JSValue.toRat]
    · simp [setStudyDuration, h]
  · by_cases h : isValidRestDuration (.number d) = true
    · obtain ⟨q, rfl, -, -⟩ := (isValidRestDuration_number d).1 h
      by_cases hc : s.sessionType = .rest && !s.isActive <;>
        simp [setRestDuration, h, hc, JSValue.toRat]
    · simp [setRestDuration, h]
  · by_cases h : isValidCycleCount (.number d) = true
    · obtain ⟨k, rfl, -, -⟩ := (isValidCycleCount_number d).1 h
      simp [setCyclesPlanned, h, JSValue.toRat]
    · simp [setCyclesPlanned, h]

/-- Validity of an initial study duration, for an arbitrary value. -/
theorem isValidStudyDuration_iff (v : JSValue) :
    isValidStudyDuration v = true ↔ ∃ q : ℚ, v = .number (.fin q) ∧ 25 ≤ q ∧ q ≤ 90 := by
  cases v with
  | number d => simpa using isValidStudyDuration_number d
  | _ => simp [isValidStudyDuration]

/-- Validity of an initial rest duration, for an arbitrary value. -/
theorem isValidRestDuration_iff (v : JSValue) :
    isValidRestDuration v = true ↔ ∃ q : ℚ, v = .number (.fin q) ∧ 5 ≤ q ∧ q ≤ 20 := by
  cases v with
  | number d => simpa using isValidRestDuration_number d
  | _ => simp [isValidRestDuration]

/-- Validity of an initial cycle count, for an arbitrary value. -/
theorem isValidCycleCount_iff (v : JSValue) :
    isValidCycleCount v = true ↔
      ∃ k : ℤ, v = .number (.fin (k : ℚ)) ∧ 1 ≤ k ∧ k ≤ 4 := by
  cases v with
  | number d => simpa using isValidCycleCount_number d
  | _ => simp [isValidCycleCount]

/-- C4: from a fresh machine with valid durations, started at `t0`, a tick at a time `t`
whose whole elapsed seconds reach `studyDuration*60` moves to the paused rest session with
`currentTime = restDuration*60`, keeps `cyclesCompleted`, and emits exactly one event:
the completion of a study session of length `studyDuration` (no cycle completion). -/
theorem study_completion (sd rd : ℚ) (c : JSValue) (t0 t : ℤ)
    (hs : 25 ≤ sd ∧ sd ≤ 90) (hr : 5 ≤ rd ∧ rd ≤ 20)
    (helapsed : sd * 60 ≤ (((t - t0) / 1000 : ℤ) : ℚ)) :
    (tick (start (useTimer ⟨.number (.fin sd), .number (.fin rd), c⟩) t0) t).2
        = [TimerEvent.sessionComplete .study sd t] ∧
    (tick (start (useTimer ⟨.number (.fin sd), .number (.fin rd), c⟩) t0) t).1.sessionType
        = .rest ∧
    (tick (start (useTimer ⟨.number (.fin sd), .number (.fin rd), c⟩) t0) t).1.currentTime
        = rd * 60 ∧
    (tick (start (useTimer ⟨.number (.fin sd), .number (.fin rd), c⟩) t0) t).1.isActive
        = false ∧
    (tick (start (useTimer ⟨.number (.fin sd), .number (.fin rd), c⟩) t0) t).1.cyclesCompleted
        = (useTimer ⟨.number (.fin sd), .number (.fin rd), c⟩).cyclesCompleted := by
  have hvs : isValidStudyDuration (.number (.fin sd)) = true :=
    (isValidStudyDuration_iff _).2 ⟨sd, rfl, hs.1, hs.2⟩
  have hvr : isValidRestDuration (.number (.fin rd)) = true :=
    (isValidRestDuration_iff _).2 ⟨rd, rfl, hr.1, hr.2⟩
  have hle : sd * 60 - (((t - t0) / 1000 : ℤ) : ℚ) ≤ 0 := by linarith
  simp [tick, start, useTimer, JSValue.orDefault, JSValue.toRat, hvs, hvr, hle,
    transitionToRest]

/-- Witness for C4: 25 minutes of study, 5 of rest, started at 0 and ticked after
exactly 1500 seconds. -/
theorem study_completion_witness :
    (tick (start (useTimer ⟨.number (.fin 25), .number (.fin 5), .undefined⟩) 0) 1500000).2
        = [TimerEvent.sessionComplete .study 25 1500000] ∧
    (tick (start (useTimer ⟨.number (.fin 25), .number (.fin 5), .undefined⟩) 0)
        1500000).1.sessionType = .rest ∧
    (tick (start (useTimer ⟨.number (.fin 25), .number (.fin 5), .undefined⟩) 0)
        1500000).1.currentTime = 5 * 60 ∧
    (tick (start (useTimer ⟨.number (.fin 25), .number (.fin 5), .undefined⟩) 0)
        1500000).1.isActive = false ∧
    (tick (start (useTimer ⟨.number (.fin 25), .number (.fin 5), .undefined⟩) 0)
        1500000).1.cyclesCompleted
        = (useTimer ⟨.number (.fin 25), .number (.fin 5), .undefined⟩).cyclesCompleted :=
  study_completion 25 5 .undefined 0 1500000 (by norm_num) (by norm_num) (by norm_num)

/-- C5: when the remaining time of an active rest session is `≤ 0` on a tick, the tick
emits the completion of a rest session of length `restDuration`, raises `cyclesCompleted`
by one, emits one cycle completion carrying the new count exactly when the new count has
reached `cyclesPlanned`, and in both cases ends in the paused study session with
`currentTime = studyDuration*60`. -/
theorem rest_completion (s : TimerState) (now : ℤ)
    (hact : s.isActive = true) (hrest : s.sessionType = .rest)
    (hzero : s.pausedTimeRef.getD 0 - (((now - s.startTimeRef.getD 0) / 1000 : ℤ) : ℚ) ≤ 0) :
    tick s now =
      ({ s with
          cyclesCompleted := s.cyclesCompleted + 1
          isActive := false
          sessionType := .study
          currentTime := s.studyDuration * 60 },
        TimerEvent.sessionComplete .rest s.restDuration now ::
          (if s.cyclesPlanned ≤ ((s.cyclesCompleted + 1 : ℕ) : ℚ)
            then [TimerEvent.cycleComplete (s.cyclesCompleted + 1) now] else [])) := by
  by_cases hc : s.cyclesPlanned ≤ ((s.cyclesCompleted + 1 : ℕ) : ℚ)
  · simp only [tick, hact, hrest, hzero, completeRestSession, hc, if_true]
    simp
  · simp only [tick, hact, hrest, hzero, completeRestSession, hc, if_true, if_false]
    simp

/-- Witness for C5: the last planned rest session (1 of 1) running out. -/
theorem rest_completion_witness :
    tick ⟨25, 5, 300, true, .rest, 1, 0, some 0, some 300⟩ 300000 =
      (⟨25, 5, 25 * 60, false, .study, 1, 1, some 0, some 300⟩,
        [TimerEvent.sessionComplete .rest 5 300000, TimerEvent.cycleComplete 1 300000]) := by
  have h := rest_completion ⟨25, 5, 300, true, .rest, 1, 0, some 0, some 300⟩ 300000
    rfl rfl (by norm_num)
  simpa using h

/-- The study duration of the fresh machine: a valid input is kept, anything else
becomes 25. -/
theorem useTimer_studyDuration (cfg : TimerConfig) :
    (∃ q : ℚ, cfg.initialStudyDuration = .number (.fin q) ∧ 25 ≤ q ∧ q ≤ 90 ∧
        (useTimer cfg).studyDuration = q) ∨
      ((¬ ∃ q : ℚ, cfg.initialStudyDuration = .number (.fin q) ∧ 25 ≤ q ∧ q ≤ 90) ∧
        (useTimer cfg).studyDuration = 25) := by
  by_cases h : ∃ q : ℚ, cfg.initialStudyDuration = .number (.fin q) ∧ 25 ≤ q ∧ q ≤ 90
  · obtain ⟨q, hq, h1, h2⟩ := h
    have hv : isValidStudyDuration (.number (.fin q)) = true :=
      (isValidStudyDuration_iff _).2 ⟨q, rfl, h1, h2⟩
    exact Or.inl ⟨q, hq, h1, h2, by simp [useTimer, hq, JSValue.orDefault, hv, JSValue.toRat]⟩
  · refine Or.inr ⟨h, ?_⟩
    cases hv : cfg.initialStudyDuration with
    | undefined => simp [useTimer, hv, JSValue.orDefault, JSValue.toRat, isValidStudyDuration]
    | number d =>
      have : isValidStudyDuration (.number d) = false := by
        rw [Bool.eq_false_iff]
        intro hd
        exact h (hv ▸ (isValidStudyDuration_iff _).1 hd)
      simp [useTimer, hv, JSValue.orDefault, this]
    | _ => simp [useTimer, hv, JSValue.orDefault, isValidStudyDuration]

/-- The rest duration of the fresh machine: a valid input is kept, anything else
becomes 5. -/
theorem useTimer_restDuration (cfg : TimerConfig) :
    (∃ q : ℚ, cfg.initialRestDuration = .number (.fin q) ∧ 5 ≤ q ∧ q ≤ 20 ∧
        (useTimer cfg).restDuration = q) ∨
      ((¬ ∃ q : ℚ, cfg.initialRestDuration = .number (.fin q) ∧ 5 ≤ q ∧ q ≤ 20) ∧
        (useTimer cfg).restDuration = 5) := by
  by_cases h : ∃ q : ℚ, cfg.initialRestDuration = .number (.fin q) ∧ 5 ≤ q ∧ q ≤ 20
  · obtain ⟨q, hq, h1, h2⟩ := h
    have hv : isValidRestDuration (.number (.fin q)) = true :=
      (isValidRestDuration_iff _).2 ⟨q, rfl, h1, h2⟩
    exact Or.inl ⟨q, hq, h1, h2, by simp [useTimer, hq, JSValue.orDefault, hv, JSValue.toRat]⟩
  · refine Or.inr ⟨h, ?_⟩
    cases hv : cfg.initialRestDuration with
    | undefined => simp [useTimer, hv, JSValue.orDefault, JSValue.toRat, isValidRestDuration]
    | number d =>
      have : isValidRestDuration (.number d) = false := by
        rw [Bool.eq_false_iff]
        intro hd
        exact h (hv ▸ (isValidRestDuration_iff _).1 hd)
      simp [useTimer, hv, JSValue.orDefault, this]
    | _ => simp [useTimer, hv, JSValue.orDefault, isValidRestDuration]

/-- The planned cycles of the fresh machine: a valid input is kept, anything else
becomes 1. -/
theorem useTimer_cyclesPlanned (cfg : TimerConfig) :
    (∃ k : ℤ, cfg.initialCyclesPlanned = .number (.fin (k : ℚ)) ∧ 1 ≤ k ∧ k ≤ 4 ∧
        (useTimer cfg).cyclesPlanned = (k : ℚ)) ∨
      ((¬ ∃ k : ℤ, cfg.initialCyclesPlanned = .number (.fin (k : ℚ)) ∧ 1 ≤ k ∧ k ≤ 4) ∧
        (useTimer cfg).cyclesPlanned = 1) := by
  by_cases h : ∃ k : ℤ, cfg.initialCyclesPlanned = .number (.fin (k : ℚ)) ∧ 1 ≤ k ∧ k ≤ 4
  · obtain ⟨k, hk, h1, h2⟩ := h
    have hv : isValidCycleCount (.number (.fin (k : ℚ))) = true :=
      (isValidCycleCount_iff _).2 ⟨k, rfl, h1, h2⟩
    exact Or.inl ⟨k, hk, h1, h2, by simp [useTimer, hk, JSValue.orDefault, hv, JSValue.toRat]⟩
  · refine Or.inr ⟨h, ?_⟩
    cases hv : cfg.initialCyclesPlanned with
    | undefined =>
      simp [useTimer, hv, JSValue.orDefault, JSValue.toRat, isValidCycleCount]
    | number d =>
      have : isValidCycleCount (.number d) = false := by
        rw [Bool.eq_false_iff]
        intro hd
        exact h (hv ▸ (isValidCycleCount_iff _).1 hd)
      simp [useTimer, hv, JSValue.orDefault, this]
    | _ => simp [useTimer, hv, JSValue.orDefault, isValidCycleCount]

/-- The study duration of the fresh machine is in range. -/
theorem useTimer_studyDuration_range (cfg : TimerConfig) :
    25 ≤ (useTimer cfg).studyDuration ∧ (useTimer cfg).studyDuration ≤ 90 := by
  rcases useTimer_studyDuration cfg with ⟨q, -, h1, h2, hq⟩ | ⟨-, hq⟩ <;> rw [hq]
  · exact ⟨h1, h2⟩
  · norm_num

/-- The rest duration of the fresh machine is in range. -/
theorem useTimer_restDuration_range (cfg : TimerConfig) :
    5 ≤ (useTimer cfg).restDuration ∧ (useTimer cfg).restDuration ≤ 20 := by
  rcases useTimer_restDuration cfg with ⟨q, -, h1, h2, hq⟩ | ⟨-, hq⟩ <;> rw [hq]
  · exact ⟨h1, h2⟩
  · norm_num

/-- The planned cycles of the fresh machine are an integer in range. -/
theorem useTimer_cyclesPlanned_range (cfg : TimerConfig) :
    ∃ k : ℤ, (useTimer cfg).cyclesPlanned = (k : ℚ) ∧ 1 ≤ k ∧ k ≤ 4 := by
  rcases useTimer_cyclesPlanned cfg with ⟨k, -, h1, h2, hq⟩ | ⟨-, hq⟩
  · exact ⟨k, hq, h1, h2⟩
  · exact ⟨1, by simpa using hq, by norm_num, by norm_num⟩

/-- C6: whatever the configuration, the fresh machine has durations and cycle count in
range, keeps every valid input and replaces every invalid one by 25 / 5 / 1, and starts
in the paused study session with `currentTime = studyDuration*60` and no completed
cycle. -/
theorem useTimer_initial (cfg : TimerConfig) :
    (25 ≤ (useTimer cfg).studyDuration ∧ (useTimer cfg).studyDuration ≤ 90) ∧
    (5 ≤ (useTimer cfg).restDuration ∧ (useTimer cfg).restDuration ≤ 20) ∧
    (∃ k : ℤ, (useTimer cfg).cyclesPlanned = (k : ℚ) ∧ 1 ≤ k ∧ k ≤ 4) ∧
    ((∃ q : ℚ, cfg.initialStudyDuration = .number (.fin q) ∧ 25 ≤ q ∧ q ≤ 90 ∧
        (useTimer cfg).studyDuration = q) ∨
      ((¬ ∃ q : ℚ, cfg.initialStudyDuration = .number (.fin q) ∧ 25 ≤ q ∧ q ≤ 90) ∧
        (useTimer cfg).studyDuration = 25)) ∧
    ((∃ q : ℚ, cfg.initialRestDuration = .number (.fin q) ∧ 5 ≤ q ∧ q ≤ 20 ∧
        (useTimer cfg).restDuration = q) ∨
      ((¬ ∃ q : ℚ, cfg.initialRestDuration = .number (.fin q) ∧ 5 ≤ q ∧ q ≤ 20) ∧
        (useTimer cfg).restDuration = 5)) ∧
    ((∃ k : ℤ, cfg.initialCyclesPlanned = .number (.fin (k : ℚ)) ∧ 1 ≤ k ∧ k ≤ 4 ∧
        (useTimer cfg).cyclesPlanned = (k : ℚ)) ∨
      ((¬ ∃ k : ℤ, cfg.initialCyclesPlanned = .number (.fin (k : ℚ)) ∧ 1 ≤ k ∧ k ≤ 4) ∧
        (useTimer cfg).cyclesPlanned = 1)) ∧
    (useTimer cfg).currentTime = (useTimer cfg).studyDuration * 60 ∧
    (useTimer cfg).sessionType = .study ∧
    (useTimer cfg).isActive = false ∧
    (useTimer cfg).cyclesCompleted = 0 := by
  refine ⟨useTimer_studyDuration_range cfg, useTimer_restDuration_range cfg,
    useTimer_cyclesPlanned_range cfg, useTimer_studyDuration cfg, useTimer_restDuration cfg,
    useTimer_cyclesPlanned cfg, ?_, ?_, ?_, ?_⟩
  · simp only [useTimer]
  · simp only [useTimer]
  · simp only [useTimer]
  · simp only [useTimer]

/-- C7: from any state, `reset` yields the paused study session with
`currentTime = studyDuration*60` and `cyclesCompleted = 0`, and leaves the two durations and
`cyclesPlanned` as they were (it returns a state only: no callback is involved). -/
theorem reset_spec (s : TimerState) :
    (reset s).sessionType = .study ∧
    (reset s).isActive = false ∧
    (reset s).currentTime = s.studyDuration * 60 ∧
    (reset s).cyclesCompleted = 0 ∧
    (reset s).studyDuration = s.studyDuration ∧
    (reset s).restDuration = s.restDuration ∧
    (reset s).cyclesPlanned = s.cyclesPlanned :=
  ⟨rfl, rfl, rfl, rfl, rfl, rfl, rfl⟩

/-- The fresh machine satisfies the time invariant. -/
theorem timeInvariant_useTimer (cfg : TimerConfig) (t : ℤ) : TimeInvariant (useTimer cfg) t := by
  have hs := useTimer_studyDuration_range cfg
  have hr := useTimer_restDuration_range cfg
  have hct : (useTimer cfg).currentTime = (useTimer cfg).studyDuration * 60 := rfl
  have hty : (useTimer cfg).sessionType = .study := rfl
  have hact : (useTimer cfg).isActive = false := rfl
  refine ⟨hs, hr, ?_, ?_, ?_⟩
  · rw [hct]; linarith [hs.1]
  · rw [hct]; simp [sessionSeconds, hty]
  · intro h; rw [hact] at h; cases h

/-- Every guarded step preserves the time invariant. -/
theorem timeInvariant_step (s : TimerState) (t now : ℤ) (op : TimerOp)
    (hinv : TimeInvariant s t) (hle : t ≤ now)
    (hok : notRetunedWhileRunning s op now = true) :
    TimeInvariant (applyOp s op now) now := by
  obtain ⟨sd, rd, ct, act, ty, cp, cc, st, pt⟩ := s
  obtain ⟨hs, hr, hpos, hbd, hactive⟩ := hinv
  simp only at hs hr hpos hbd hactive
  cases op with
  | setStudyDuration m =>
    by_cases hv : isValidStudyDuration m = true
    · obtain ⟨q, rfl, h1, h2⟩ := (isValidStudyDuration_iff m).1 hv
      cases act <;> cases ty <;>
        simp_all [applyOp, setStudyDuration, TimeInvariant, sessionSeconds, JSValue.toRat,
          notRetunedWhileRunning] <;>
        first
          | linarith
          | (obtain ⟨t0, h1', h2', x, h3', h4'⟩ := hactive
             exact ⟨t0, h1', le_trans h2' hle, x, h3', h4'⟩)
    · simp only [Bool.not_eq_true] at hv
      simp only [applyOp, setStudyDuration, hv, Bool.not_false, if_true]
      exact ⟨hs, hr, hpos, hbd, fun h => by
        obtain ⟨t0, p, h1, h2, h3⟩ := hactive h
        exact ⟨t0, p, h1, le_trans h2 hle, h3⟩⟩
  | setRestDuration m =>
    by_cases hv : isValidRestDuration m = true
    · obtain ⟨q, rfl, h1, h2⟩ := (isValidRestDuration_iff m).1 hv
      cases act <;> cases ty <;>
        simp_all [applyOp, setRestDuration, TimeInvariant, sessionSeconds, JSValue.toRat,
          notRetunedWhileRunning] <;>
        first
          | linarith
          | (obtain ⟨t0, h1', h2', x, h3', h4'⟩ := hactive
             exact ⟨t0, h1', le_trans h2' hle, x, h3', h4'⟩)
    · simp only [Bool.not_eq_true] at hv
      simp only [applyOp, setRestDuration, hv, Bool.not_false, if_true]
      exact ⟨hs, hr, hpos, hbd, fun h => by
        obtain ⟨t0, p, h1, h2, h3⟩ := hactive h
        exact ⟨t0, p, h1, le_trans h2 hle, h3⟩⟩
  | setCyclesPlanned c =>
    have hkeep : TimeInvariant ⟨sd, rd, ct, act, ty, cp, cc, st, pt⟩ now :=
      ⟨hs, hr, hpos, hbd, fun h => by
        obtain ⟨t0, p, h1, h2, h3⟩ := hactive h
        exact ⟨t0, p, h1, le_trans h2 hle, h3⟩⟩
    by_cases hv : isValidCycleCount c = true
    · simp only [applyOp, setCyclesPlanned, hv, Bool.not_true]
      exact hkeep
    · simp only [Bool.not_eq_true] at hv
      simp only [applyOp, setCyclesPlanned, hv, Bool.not_false, if_true]
      exact hkeep
  | start =>
    cases act
    · simp only [applyOp, start, Bool.not_false, if_true]
      exact ⟨hs, hr, hpos, hbd, fun _ => ⟨now, ct, rfl, le_refl _, rfl, hbd⟩⟩
    · simp only [applyOp, start, Bool.not_true]
      exact ⟨hs, hr, hpos, hbd, fun h => by
        obtain ⟨t0, p, h1, h2, h3⟩ := hactive h
        exact ⟨t0, p, h1, le_trans h2 hle, h3⟩⟩
  | pause =>
    cases act
    · simp only [applyOp, pause]
      exact ⟨hs, hr, hpos, hbd, fun h => by cases h⟩
    · simp only [applyOp, pause, if_true]
      exact ⟨hs, hr, hpos, hbd, fun h => by cases h⟩
  | reset =>
    refine ⟨hs, hr, ?_, ?_, fun h => by cases h⟩
    · show 0 < sd * 60
      linarith [hs.1]
    · simp [applyOp, reset, sessionSeconds]
  | tick =>
    cases act
    · simp only [applyOp, tick, Bool.false_eq_true, if_false]
      exact ⟨hs, hr, hpos, hbd, fun h => by cases h⟩
    · obtain ⟨t0, p, h1, h2, h3, h4⟩ := hactive rfl
      subst h1 h3
      have hel : (0 : ℚ) ≤ (((now - t0) / 1000 : ℤ) : ℚ) := by
        have : (0 : ℤ) ≤ (now - t0) / 1000 := Int.ediv_nonneg (by linarith) (by norm_num)
        exact_mod_cast this
      simp only [applyOp, tick, if_true, Option.getD_some]
      by_cases hz : p - (((now - t0) / 1000 : ℤ) : ℚ) ≤ 0
      · simp only [hz, if_true]
        cases ty
        · simp only [if_true, transitionToRest]
          refine ⟨hs, hr, ?_, ?_, fun h => by cases h⟩
          · show 0 < rd * 60
            linarith [hr.1]
          · simp [sessionSeconds]
        · have hne : ¬ (SessionType.rest = SessionType.study) := by decide
          simp only [hne, if_false, completeRestSession]
          split <;>
          · refine ⟨hs, hr, ?_, ?_, fun h => by cases h⟩
            · show 0 < sd * 60
              linarith [hs.1]
            · simp [sessionSeconds]
      · simp only [hz, if_false]
        refine ⟨hs, hr, ?_, ?_, fun _ => ⟨t0, p, rfl, le_trans h2 hle, rfl, h4⟩⟩
        · show 0 < p - (((now - t0) / 1000 : ℤ) : ℚ)
          linarith
        · show p - (((now - t0) / 1000 : ℤ) : ℚ) ≤ _
          have : sessionSeconds ⟨sd, rd, p - (((now - t0) / 1000 : ℤ) : ℚ), true, ty, cp, cc,
              some t0, some p⟩ = sessionSeconds ⟨sd, rd, ct, true, ty, cp, cc, some t0, some p⟩ :=
            rfl
          rw [this]
          linarith

/-- Induction along guarded runs: a predicate on (state, time) that every permitted step
preserves holds, at some time, of the final state. -/
theorem runGuarded_induction (ok : TimerState → TimerOp → ℤ → Bool)
    (P : TimerState → ℤ → Prop)
    (hstep : ∀ (s : TimerState) (t now : ℤ) (op : TimerOp), P s t → t ≤ now →
      ok s op now = true → P (applyOp s op now) now)
    (ops : List (TimerOp × ℤ)) :
    ∀ (s : TimerState) (t : ℤ) (r : TimerState), P s t →
      runGuarded ok s t ops = some r → ∃ u, P r u := by
  induction ops with
  | nil =>
    intro s t r hinv hrun
    simp only [runGuarded, Option.some.injEq] at hrun
    exact ⟨t, hrun ▸ hinv⟩
  | cons a rest ih =>
    intro s t r hinv hrun
    obtain ⟨op, now⟩ := a
    simp only [runGuarded] at hrun
    split at hrun
    · rename_i hc
      exact ih _ _ _ (hstep s t now op hinv hc.1 hc.2) hrun
    · cases hrun

/-- The derived progress value in terms of the session length. -/
theorem progress_eq (s : TimerState) : progress s = 1 - s.currentTime / sessionSeconds s := by
  unfold progress sessionSeconds
  split <;> rfl

/-- C2, counterexample: lowering the study duration from 90 to 25 while the study session
runs leaves `currentTime = 5400` above `studyDuration*60 = 1500` (the bound fails), and
`progress` at `-13/5` (below 0). -/
theorem currentTime_bound_counterexample :
    (run (useTimer ⟨.number (.fin 90), .undefined, .undefined⟩) 0
        [(.start, 0), (.setStudyDuration (.number (.fin 25)), 0)]).map
      (fun s => (s.sessionType, s.currentTime, sessionSeconds s,
        decide (s.currentTime ≤ sessionSeconds s), progress s, decide (0 ≤ progress s)))
      = some (.study, 5400, 1500, false, -13 / 5, false) := by
  norm_num [run, runGuarded, applyOp, start, setStudyDuration, useTimer, JSValue.orDefault,
    JSValue.toRat, isValidStudyDuration, isValidRestDuration, isValidCycleCount,
    JSNumber.geConst, JSNumber.leConst, JSNumber.isInteger, progress, sessionSeconds]

/-- C2, amended: in every state reached from a fresh machine by operations at
non-decreasing times, where no duration setter is applied to the session type that is
currently running, `0 ≤ currentTime ≤ (study ? studyDuration : restDuration) * 60`, and
`progress` lies between 0 and 1. -/
theorem currentTime_bounded (cfg : TimerConfig) (t0 : ℤ) (ops : List (TimerOp × ℤ))
    (s : TimerState)
    (hrun : runGuarded notRetunedWhileRunning (useTimer cfg) t0 ops = some s) :
    0 ≤ s.currentTime ∧ s.currentTime ≤ sessionSeconds s ∧
      0 ≤ progress s ∧ progress s ≤ 1 := by
  obtain ⟨u, hs, hr, hpos, hbd, -⟩ :=
    runGuarded_induction notRetunedWhileRunning TimeInvariant timeInvariant_step ops
      (useTimer cfg) t0 s (timeInvariant_useTimer cfg t0) hrun
  have hb : 0 < sessionSeconds s := lt_of_lt_of_le hpos hbd
  refine ⟨le_of_lt hpos, hbd, ?_, ?_⟩
  · rw [progress_eq]
    have : s.currentTime / sessionSeconds s ≤ 1 := (div_le_one hb).2 hbd
    linarith
  · rw [progress_eq]
    have : 0 ≤ s.currentTime / sessionSeconds s := div_nonneg (le_of_lt hpos) (le_of_lt hb)
    linarith

/-- Witness for C2 (amended): the default machine, started at 0, ticked after 10 seconds,
then paused and given a new study duration while paused. -/
theorem currentTime_bounded_witness :
    ∃ s, runGuarded notRetunedWhileRunning (useTimer ⟨.undefined, .undefined, .undefined⟩) 0
        [(.start, 0), (.tick, 10000), (.pause, 10500),
          (.setStudyDuration (.number (.fin 30)), 11000)] = some s ∧
      0 ≤ s.currentTime ∧ s.currentTime ≤ sessionSeconds s ∧
      0 ≤ progress s ∧ progress s ≤ 1 := by
  have h : runGuarded notRetunedWhileRunning (useTimer ⟨.undefined, .undefined, .undefined⟩) 0
        [(.start, 0), (.tick, 10000), (.pause, 10500),
          (.setStudyDuration (.number (.fin 30)), 11000)]
      = some ⟨30, 5, 1800, false, .study, 1, 0, some 0, some 1500⟩ := by
    norm_num [runGuarded, notRetunedWhileRunning, applyOp, start, tick, pause,
      setStudyDuration, useTimer, JSValue.orDefault,
      JSValue.toRat, isValidStudyDuration, isValidRestDuration, isValidCycleCount,
      JSNumber.geConst, JSNumber.leConst, JSNumber.isInteger]
  exact ⟨_, h, currentTime_bounded _ _ _ _ h⟩

/-- The two session types differ. -/
theorem rest_ne_study : SessionType.rest ≠ SessionType.study := by decide

/-- The fresh machine satisfies the cycle invariant. -/
theorem cycleInvariant_useTimer (cfg : TimerConfig) (t : ℤ) :
    CycleInvariant (useTimer cfg) t := by
  obtain ⟨k, hk, h1, -⟩ := useTimer_cyclesPlanned_range cfg
  have hcc : (useTimer cfg).cyclesCompleted = 0 := rfl
  refine ⟨⟨k, hk⟩, ?_⟩
  rw [hcc, hk]
  have : (1 : ℚ) ≤ (k : ℚ) := by exact_mod_cast h1
  simpa using le_trans zero_le_one this

/-- Every step within the planned cycles preserves the cycle invariant. -/
theorem cycleInvariant_step (s : TimerState) (t now : ℤ) (op : TimerOp)
    (hinv : CycleInvariant s t) (_hle : t ≤ now)
    (hok : withinPlannedCycles s op now = true) :
    CycleInvariant (applyOp s op now) now := by
  obtain ⟨sd, rd, ct, act, ty, cp, cc, st, pt⟩ := s
  obtain ⟨⟨k, hk⟩, hbd⟩ := hinv
  simp only at hk hbd
  have hcp0 : (0 : ℚ) ≤ cp := le_trans (Nat.cast_nonneg cc) hbd
  cases op with
  | setStudyDuration m =>
    by_cases hv : isValidStudyDuration m = true
    · by_cases hc : (ty = .study && !act) = true <;>
        simp only [applyOp, setStudyDuration, hv, hc, Bool.not_true, if_true] <;>
        exact ⟨⟨k, hk⟩, hbd⟩
    · simp only [Bool.not_eq_true] at hv
      simp only [applyOp, setStudyDuration, hv, Bool.not_false, if_true]
      exact ⟨⟨k, hk⟩, hbd⟩
  | setRestDuration m =>
    by_cases hv : isValidRestDuration m = true
    · by_cases hc : (ty = .rest && !act) = true <;>
        simp only [applyOp, setRestDuration, hv, hc, Bool.not_true, if_true] <;>
        exact ⟨⟨k, hk⟩, hbd⟩
    · simp only [Bool.not_eq_true] at hv
      simp only [applyOp, setRestDuration, hv, Bool.not_false, if_true]
      exact ⟨⟨k, hk⟩, hbd⟩
  | setCyclesPlanned c =>
    by_cases hv : isValidCycleCount c = true
    · obtain ⟨j, rfl, -, -⟩ := (isValidCycleCount_iff c).1 hv
      simp only [withinPlannedCycles, hv, Bool.not_true, Bool.false_or, decide_eq_true_eq,
        JSValue.toRat] at hok
      simp only [applyOp, setCyclesPlanned, hv, Bool.not_true, JSValue.toRat]
      exact ⟨⟨j, rfl⟩, hok⟩
    · simp only [Bool.not_eq_true] at hv
      simp only [applyOp, setCyclesPlanned, hv, Bool.not_false, if_true]
      exact ⟨⟨k, hk⟩, hbd⟩
  | start =>
    cases act
    · exact ⟨⟨k, hk⟩, hbd⟩
    · exact ⟨⟨k, hk⟩, hbd⟩
  | pause =>
    cases act
    · exact ⟨⟨k, hk⟩, hbd⟩
    · exact ⟨⟨k, hk⟩, hbd⟩
  | reset =>
    refine ⟨⟨k, hk⟩, ?_⟩
    show ((0 : ℕ) : ℚ) ≤ cp
    simpa using hcp0
  | tick =>
    cases act
    · exact ⟨⟨k, hk⟩, hbd⟩
    · simp only [applyOp, tick, if_true]
      by_cases hz : pt.getD 0 - (((now - st.getD 0) / 1000 : ℤ) : ℚ) ≤ 0
      · simp only [hz, if_true]
        cases ty
        · exact ⟨⟨k, hk⟩, hbd⟩
        · have hne : ¬ (SessionType.rest = SessionType.study) := by decide
          have hlt : ¬ (cp ≤ (cc : ℚ)) := by
            simpa [withinPlannedCycles, hz] using hok
          have hlt2 : ((cc : ℤ) : ℚ) < ((k : ℤ) : ℚ) := by
            rw [← hk]
            push_cast
            exact not_le.1 hlt
          have hlt3 : (cc : ℤ) < k := by exact_mod_cast hlt2
          have hle3 : ((cc + 1 : ℕ) : ℚ) ≤ cp := by
            rw [hk]
            have : ((cc : ℤ) + 1) ≤ k := hlt3
            exact_mod_cast this
          simp only [hne, if_false, completeRestSession]
          split <;> exact ⟨⟨k, hk⟩, hle3⟩
      · simp only [hz, if_false]
        exact ⟨⟨k, hk⟩, hbd⟩

/-- C3, counterexample: (a) the default machine (one planned cycle) run through two full
study/rest rounds without `reset` ends with `cyclesCompleted = 2 > cyclesPlanned = 1` and
`remainingCycles = -1`; (b) with four planned cycles, after two completed cycles
`setCyclesPlanned(1)` leaves `cyclesCompleted = 2 > cyclesPlanned = 1`. -/
theorem cyclesCompleted_bound_counterexample :
    (run (useTimer ⟨.undefined, .undefined, .undefined⟩) 0
        [(.start, 0), (.tick, 1500000), (.start, 1500000), (.tick, 1800000),
         (.start, 1800000), (.tick, 3300000), (.start, 3300000), (.tick, 3600000)]).map
      (fun s => (s.cyclesCompleted, s.cyclesPlanned,
        decide ((s.cyclesCompleted : ℚ) ≤ s.cyclesPlanned), remainingCycles s))
      = some (2, 1, false, -1) ∧
    (run (useTimer ⟨.undefined, .undefined, .number (.fin 4)⟩) 0
        [(.start, 0), (.tick, 1500000), (.start, 1500000), (.tick, 1800000),
         (.start, 1800000), (.tick, 3300000), (.start, 3300000), (.tick, 3600000),
         (.setCyclesPlanned (.number (.fin 1)), 3600000)]).map
      (fun s => (s.cyclesCompleted, s.cyclesPlanned,
        decide ((s.cyclesCompleted : ℚ) ≤ s.cyclesPlanned), remainingCycles s))
      = some (2, 1, false, -1) := by
  constructor <;>
  norm_num [run, runGuarded, applyOp, start, tick, setCyclesPlanned, useTimer,
    JSValue.orDefault, transitionToRest, completeRestSession,
    JSValue.toRat, isValidStudyDuration, isValidRestDuration, isValidCycleCount,
    JSNumber.geConst, JSNumber.leConst, JSNumber.isInteger, remainingCycles, rest_ne_study]

/-- C3, amended: in every state reached from a fresh machine by operations at
non-decreasing times in which no rest session completes once `cyclesCompleted` has
reached `cyclesPlanned` and no `setCyclesPlanned` goes below `cyclesCompleted`,
`cyclesCompleted` (a natural number) is at most `cyclesPlanned`, so `remainingCycles` is
not negative. -/
theorem cyclesCompleted_bounded (cfg : TimerConfig) (t0 : ℤ) (ops : List (TimerOp × ℤ))
    (s : TimerState)
    (hrun : runGuarded withinPlannedCycles (useTimer cfg) t0 ops = some s) :
    (s.cyclesCompleted : ℚ) ≤ s.cyclesPlanned ∧ 0 ≤ remainingCycles s := by
  obtain ⟨u, -, hbd⟩ :=
    runGuarded_induction withinPlannedCycles CycleInvariant cycleInvariant_step ops
      (useTimer cfg) t0 s (cycleInvariant_useTimer cfg t0) hrun
  exact ⟨hbd, by unfold remainingCycles; linarith⟩

/-- Witness for C3 (amended): the default machine run through its one planned cycle. -/
theorem cyclesCompleted_bounded_witness :
    ∃ s, runGuarded withinPlannedCycles (useTimer ⟨.undefined, .undefined, .undefined⟩) 0
        [(.start, 0), (.tick, 1500000), (.start, 1500000), (.tick, 1800000)] = some s ∧
      (s.cyclesCompleted : ℚ) ≤ s.cyclesPlanned ∧ 0 ≤ remainingCycles s := by
  have h : runGuarded withinPlannedCycles (useTimer ⟨.undefined, .undefined, .undefined⟩) 0
        [(.start, 0), (.tick, 1500000), (.start, 1500000), (.tick, 1800000)]
      = some ⟨25, 5, 1500, false, .study, 1, 1, some 1500000, some 300⟩ := by
    norm_num [runGuarded, withinPlannedCycles, applyOp, start, tick, useTimer,
      JSValue.orDefault, transitionToRest, completeRestSession,
      JSValue.toRat, isValidStudyDuration, isValidRestDuration, isValidCycleCount,
      JSNumber.geConst, JSNumber.leConst, JSNumber.isInteger, rest_ne_study]
  exact ⟨_, h, cyclesCompleted_bounded _ _ _ _ h⟩

/-! ## Theorems: temporal analytics -/

/-- The value of `1000 * 60 * 60 * 24`. -/
theorem msPerDay_eq : msPerDay = 86400000 := by norm_num [msPerDay]

/-- The scan on a one-element list is the final `return`. -/
theorem consecutiveScan_singleton (n a c : ℤ) :
    consecutiveScan n [a] c = decide (n ≤ c) := rfl

/-- One iteration of the scan. -/
theorem consecutiveScan_cons_cons (n a b c : ℤ) (rest : List ℤ) :
    consecutiveScan n (a :: b :: rest) c =
      if a - b = msPerDay then
        (if n ≤ c + 1 then true else consecutiveScan n (b :: rest) (c + 1))
      else consecutiveScan n (b :: rest) 1 := by
  have hne : ((msPerDay : ℤ) : ℚ) ≠ 0 := by rw [msPerDay_eq]; norm_num
  have hiff : (((a - b : ℤ) : ℚ) / ((msPerDay : ℤ) : ℚ) = 1) ↔ a - b = msPerDay := by
    rw [div_eq_one_iff_eq hne]
    exact Int.cast_inj
  by_cases h : a - b = msPerDay
  · have h1 : ((a - b : ℤ) : ℚ) / ((msPerDay : ℤ) : ℚ) = 1 := hiff.2 h
    rw [consecutiveScan, if_pos h]
    simp only [h1, if_true]
  · have h1 : ¬ (((a - b : ℤ) : ℚ) / ((msPerDay : ℤ) : ℚ) = 1) := fun e => h (hiff.1 e)
    rw [consecutiveScan, if_neg h]
    simp only [h1, if_false]

/-- Runs transfer along an implication of predicates. -/
theorem HasRun.mono {S T : ℤ → Prop} {n : ℤ} (h : ∀ x, S x → T x) (hr : HasRun S n) :
    HasRun T n := by
  obtain ⟨M, hM⟩ := hr
  exact ⟨M, fun i h0 h1 => h _ (hM i h0 h1)⟩

/-- A run inside the dates counted at a single head has length at most the count. -/
theorem run_in_counted_le (a c n M : ℤ) (hn : 1 ≤ n)
    (hM : ∀ i : ℤ, 0 ≤ i → i < n → ∃ j : ℤ, 0 ≤ j ∧ j < c ∧ M + i * msPerDay = a + j * msPerDay) :
    n ≤ c := by
  obtain ⟨j0, h00, h01, h02⟩ := hM 0 (le_refl _) (by omega)
  obtain ⟨j1, h10, h11, h12⟩ := hM (n - 1) (by omega) (by omega)
  rw [msPerDay_eq] at h02 h12
  omega

/-- A counted date that is not in the tail is the head or one of the dates above it. -/
theorem Counted.above {l : List ℤ} {a c x : ℤ} (hc : 1 ≤ c) (h : Counted (a :: l) a c x)
    (hx : x ∉ l) : ∃ j : ℤ, 0 ≤ j ∧ j < c ∧ x = a + j * msPerDay := by
  rcases h with h | ⟨j, hj1, hj2, hj3⟩
  · rcases List.mem_cons.1 h with h | h
    · exact ⟨0, le_refl _, by omega, by rw [h]; ring⟩
    · exact absurd h hx
  · exact ⟨j, by omega, hj2, hj3⟩

/-- A counted date below the head is in the tail. -/
theorem Counted.below {l : List ℤ} {a c x : ℤ} (h : Counted (a :: l) a c x) (hx : x < a) :
    x ∈ l := by
  rcases h with h | ⟨j, hj1, hj2, hj3⟩
  · rcases List.mem_cons.1 h with h | h
    · omega
    · exact h
  · rw [msPerDay_eq] at hj3
    omega

/-- Correctness of the scan: on a list of dates in which each element lies at least
24 hours below the ones before it, started at head `a` with count `c` (either `1` or still
below the target), the scan answers whether the counted dates contain a run of `n`. -/
theorem consecutiveScan_iff (n : ℤ) (rest : List ℤ) : ∀ (a c : ℤ),
    (a :: rest).Pairwise (fun x y => y + msPerDay ≤ x) → 1 ≤ c → (c < n ∨ c = 1) →
    (consecutiveScan n (a :: rest) c = true ↔ HasRun (Counted (a :: rest) a c) n) := by
  induction rest with
  | nil =>
    intro a c _ hc _
    rw [consecutiveScan_singleton, decide_eq_true_eq]
    constructor
    · intro hn
      refine ⟨a, fun i hi0 hin => ?_⟩
      by_cases h0 : i = 0
      · left
        subst h0
        simp
      · right
        exact ⟨i, by omega, by omega, rfl⟩
    · rintro ⟨M, hM⟩
      by_contra hlt
      have hn : 1 ≤ n := by omega
      have := run_in_counted_le a c n M hn
        (fun i h0 h1 => Counted.above hc (hM i h0 h1) (List.not_mem_nil _))
      omega
  | cons b rest ih =>
    intro a c hpw hc hcn
    rw [List.pairwise_cons] at hpw
    obtain ⟨ha, hpw'⟩ := hpw
    have hba : b + msPerDay ≤ a := ha b (List.mem_cons_self _ _)
    have hb_max : ∀ y ∈ b :: rest, y ≤ b := by
      intro y hy
      rcases List.mem_cons.1 hy with hy | hy
      · exact le_of_eq hy
      · have := (List.pairwise_cons.1 hpw').1 y hy
        rw [msPerDay_eq] at this
        omega
    rw [consecutiveScan_cons_cons]
    by_cases hd : a - b = msPerDay
    · rw [if_pos hd]
      by_cases hn : n ≤ c + 1
      · rw [if_pos hn]
        simp only [true_iff]
        refine ⟨b, fun i hi0 hin => ?_⟩
        by_cases h0 : i = 0
        · left
          subst h0
          simp
        · by_cases h1 : i = 1
          · left
            subst h1
            have : b + 1 * msPerDay = a := by omega
            rw [this]
            exact List.mem_cons_self _ _
          · right
            refine ⟨i - 1, by omega, by omega, ?_⟩
            rw [msPerDay_eq] at hd ⊢
            omega
      · rw [if_neg hn]
        rw [ih b (c + 1) hpw' (by omega) (Or.inl (by omega))]
        constructor <;> apply HasRun.mono
        · intro x hx
          rcases hx with hx | ⟨j, hj1, hj2, hj3⟩
          · left
            exact List.mem_cons_of_mem _ hx
          · by_cases hj : j = 1
            · left
              subst hj
              have : x = a := by rw [hj3]; omega
              rw [this]
              exact List.mem_cons_self _ _
            · right
              refine ⟨j - 1, by omega, by omega, ?_⟩
              rw [hj3]
              rw [msPerDay_eq] at hd ⊢
              omega
        · intro x hx
          rcases hx with hx | ⟨j, hj1, hj2, hj3⟩
          · rcases List.mem_cons.1 hx with hx | hx
            · right
              exact ⟨1, le_refl _, by omega, by rw [hx]; omega⟩
            · left
              exact hx
          · right
            refine ⟨j + 1, by omega, by omega, ?_⟩
            rw [hj3]
            rw [msPerDay_eq] at hd ⊢
            omega
    · rw [if_neg hd]
      rw [ih b 1 hpw' (le_refl _) (Or.inr rfl)]
      have hgap : b + msPerDay < a := lt_of_le_of_ne hba (fun e => hd (by omega))
      constructor
      · apply HasRun.mono
        intro x hx
        rcases hx with hx | ⟨j, hj1, hj2, _⟩
        · left
          exact List.mem_cons_of_mem _ hx
        · omega
      · rintro ⟨M, hM⟩
        by_cases hn1 : n ≤ 1
        · refine ⟨b, fun i hi0 hin => ?_⟩
          have : i = 0 := by omega
          subst this
          left
          simp
        · have hn : 1 ≤ n := by omega
          have hcn' : c < n := by rcases hcn with h | h <;> omega
          by_cases hMb : M ≤ b
          · have key : ∀ k : ℕ, (k : ℤ) < n →
                M + (k : ℤ) * msPerDay ∈ b :: rest := by
              intro k
              induction k with
              | zero =>
                intro hk
                have h0 := hM 0 (le_refl _) hk
                refine Counted.below (by simpa using h0) ?_
                rw [msPerDay_eq] at hgap ⊢
                omega
              | succ k ihk =>
                intro hk
                have hprev := hb_max _ (ihk (by omega))
                have hnext := hM ((k : ℤ) + 1) (by omega) (by exact_mod_cast hk)
                have hlt : M + ((k : ℤ) + 1) * msPerDay < a := by
                  rw [msPerDay_eq] at hgap hprev ⊢
                  omega
                have := Counted.below hnext hlt
                exact_mod_cast this
            refine ⟨M, fun i hi0 hin => ?_⟩
            left
            obtain ⟨k, rfl⟩ := Int.eq_ofNat_of_zero_le hi0
            exact key k hin
          · exfalso
            have := run_in_counted_le a c n M hn (fun i h0 h1 => by
              refine Counted.above hc (hM i h0 h1) (fun hmem => ?_)
              have := hb_max _ hmem
              rw [msPerDay_eq] at this
              omega)
            omega

/-- The duplicate filter keeps exactly the members of the list. -/
theorem mem_removeDuplicates (l : List ℤ) (x : ℤ) : x ∈ removeDuplicates l ↔ x ∈ l := by
  unfold removeDuplicates
  simp only [List.mem_map, List.mem_filter, decide_eq_true_eq]
  constructor
  · rintro ⟨⟨i, y⟩, ⟨hmem, _⟩, rfl⟩
    exact List.snd_mem_of_mem_enum hmem
  · intro hx
    refine ⟨(l.indexOf x, x), ⟨?_, rfl⟩, rfl⟩
    rw [List.mk_mem_enum_iff_getElem?]
    have hlt : l.indexOf x < l.length := List.indexOf_lt_length.2 hx
    rw [List.getElem?_eq_getElem hlt, List.getElem_indexOf]

/-- The duplicate filter leaves no value twice. -/
theorem nodup_removeDuplicates (l : List ℤ) : (removeDuplicates l).Nodup := by
  unfold removeDuplicates
  refine List.Nodup.map_on ?_ (List.Nodup.filter _ ?_)
  · intro p hp q hq hpq
    simp only [List.mem_filter, decide_eq_true_eq] at hp hq
    refine Prod.ext ?_ hpq
    rw [← hp.2, ← hq.2, hpq]
  · exact List.Nodup.of_map Prod.fst (by rw [List.enum_map_fst]; exact List.nodup_range _)

/-- Membership in `sessionDates`: the midnights of the completed sessions. -/
theorem mem_sessionDates (tz : TimeZone) (h : List Session) (x : ℤ) :
    x ∈ sessionDates tz h ↔
      ∃ s ∈ h, s.completed = true ∧ localMidnight tz s.startTime = x := by
  unfold sessionDates sortDescending
  rw [(List.perm_insertionSort _ _).mem_iff, mem_removeDuplicates]
  simp only [List.mem_map, List.mem_filter]
  constructor
  · rintro ⟨s, ⟨hs, hc⟩, rfl⟩
    exact ⟨s, hs, hc, rfl⟩
  · rintro ⟨s, hs, hc, rfl⟩
    exact ⟨s, ⟨hs, hc⟩, rfl⟩

/-- The array `sessionDates` has no duplicates. -/
theorem nodup_sessionDates (tz : TimeZone) (h : List Session) : (sessionDates tz h).Nodup := by
  unfold sessionDates sortDescending
  exact (List.perm_insertionSort _ _).nodup_iff.2 (nodup_removeDuplicates _)

/-- The array `sessionDates` is in descending order. -/
theorem sorted_sessionDates (tz : TimeZone) (h : List Session) :
    (sessionDates tz h).Pairwise (fun x y => y ≤ x) := by
  unfold sessionDates sortDescending
  exact List.sorted_insertionSort (fun a b : ℤ => a ≥ b) _

/-- In a regular zone the start of day `d` is `d` whole days after the start of day 0. -/
theorem TimeZone.Regular.midnight_eq {tz : TimeZone} (hreg : tz.Regular) (d : ℤ) :
    tz.midnight d = tz.midnight 0 + d * msPerDay := by
  induction d using Int.induction_on with
  | hz => simp
  | hp i ih =>
    rw [hreg, ih]
    ring
  | hn i ih =>
    have := hreg (-(i : ℤ) - 1)
    rw [sub_add_cancel, ih] at this
    linarith

/-- In a regular zone, distinct `sessionDates` are at least 24 hours apart. -/
theorem gap_sessionDates (tz : TimeZone) (hreg : tz.Regular) (h : List Session) :
    (sessionDates tz h).Pairwise (fun x y => y + msPerDay ≤ x) := by
  have hboth := (sorted_sessionDates tz h).and (nodup_sessionDates tz h)
  refine List.Pairwise.imp_of_mem ?_ hboth
  intro x y hx hy hxy
  obtain ⟨sx, -, -, hsx⟩ := (mem_sessionDates tz h x).1 hx
  obtain ⟨sy, -, -, hsy⟩ := (mem_sessionDates tz h y).1 hy
  unfold localMidnight at hsx hsy
  rw [hreg.midnight_eq] at hsx hsy
  obtain ⟨hle, hne⟩ := hxy
  rw [msPerDay_eq] at hsx hsy ⊢
  omega

/-- A run inside a duplicate-free list is no longer than the list. -/
theorem HasRun.le_length {l : List ℤ} {n : ℤ} (hr : HasRun (fun x => x ∈ l) n) :
    n ≤ (l.length : ℤ) := by
  obtain ⟨M, hM⟩ := hr
  have hcard : (Finset.range n.toNat).card ≤ l.toFinset.card := by
    apply Finset.card_le_card_of_injOn (fun k : ℕ => M + (k : ℤ) * msPerDay)
    · intro k hk
      have hk' : k < n.toNat := Finset.mem_range.1 hk
      rw [List.mem_toFinset]
      exact hM k (by omega) (by omega)
    · intro i _ j _ hij
      simp only [msPerDay_eq] at hij
      omega
  rw [Finset.card_range] at hcard
  have := List.toFinset_card_le l
  omega

/-- In a regular zone, a run of `n ≥ 1` session dates is a streak of `n` calendar days. -/
theorem hasRun_sessionDates_iff (tz : TimeZone) (hreg : tz.Regular) (h : List Session)
    (n : ℤ) (hn : 1 ≤ n) :
    HasRun (fun x => x ∈ sessionDates tz h) n ↔ hasStreak tz h n := by
  have hinj : ∀ d e : ℤ, tz.midnight d = tz.midnight e → d = e := by
    intro d e hde
    rw [hreg.midnight_eq d, hreg.midnight_eq e, msPerDay_eq] at hde
    omega
  constructor
  · rintro ⟨M, hM⟩
    obtain ⟨s0, -, -, hs0⟩ := (mem_sessionDates tz h _).1 (hM 0 (le_refl _) (by omega))
    refine ⟨tz.dayOf s0.startTime, fun i hi0 hin => ?_⟩
    obtain ⟨s, hs, hc, hsm⟩ := (mem_sessionDates tz h _).1 (hM i hi0 hin)
    refine ⟨s, hs, hc, hinj _ _ ?_⟩
    unfold localMidnight at hsm hs0
    have e1 := hreg.midnight_eq (tz.dayOf s0.startTime + i)
    have e2 := hreg.midnight_eq (tz.dayOf s0.startTime)
    rw [hsm, e1]
    rw [e2] at hs0
    linarith
  · rintro ⟨D, hD⟩
    refine ⟨tz.midnight D, fun i hi0 hin => ?_⟩
    obtain ⟨s, hs, hc, hday⟩ := hD i hi0 hin
    refine (mem_sessionDates tz h _).2 ⟨s, hs, hc, ?_⟩
    unfold localMidnight
    rw [hday, hreg.midnight_eq (D + i), hreg.midnight_eq D]
    ring

/-- In a zone without daylight-saving transitions (every local day begins exactly 24
hours after the previous one), `hasConsecutiveDays(history, n)` holds exactly when
`n ≥ 1` and some `n` consecutive calendar days each bear a completed session. -/
theorem hasConsecutiveDays_iff_of_regular (tz : TimeZone) (hreg : tz.Regular)
    (h : List Session) (n : ℤ) :
    hasConsecutiveDays tz h n = true ↔ 1 ≤ n ∧ hasStreak tz h n := by
  unfold hasConsecutiveDays
  by_cases hn : n ≤ 0
  · simp only [hn, or_true, if_true, Bool.false_eq_true, false_iff]
    intro hh
    omega
  have hn1 : 1 ≤ n := by omega
  by_cases hlen : (sessionDates tz h).length < n
  · have hnone : ¬ hasStreak tz h n := fun hs =>
      absurd ((hasRun_sessionDates_iff tz hreg h n hn1).2 hs).le_length (by omega)
    by_cases hemp : h.length = 0 <;> simp [hemp, hn, hlen, hnone]
  · have hne : h.length ≠ 0 := by
      intro h0
      have hnil : h = [] := List.length_eq_zero.1 h0
      have : (sessionDates tz h).length = 0 := by
        rw [List.length_eq_zero, List.eq_nil_iff_forall_not_mem]
        intro x hx
        obtain ⟨s, hs, -⟩ := (mem_sessionDates tz h x).1 hx
        rw [hnil] at hs
        cases hs
      omega
    simp only [hne, hn, or_self, if_false, hlen]
    rw [← hasRun_sessionDates_iff tz hreg h n hn1]
    cases hL : sessionDates tz h with
    | nil =>
      rw [hL] at hlen
      simp at hlen
      omega
    | cons a rest =>
      have hgap := gap_sessionDates tz hreg h
      rw [hL] at hgap
      rw [consecutiveScan_iff n rest a 1 hgap (le_refl _) (Or.inr rfl)]
      simp only [hn1, true_and]
      constructor <;> apply HasRun.mono
      · intro x hx
        rcases hx with hx | ⟨j, hj1, hj2, -⟩
        · exact hx
        · omega
      · intro x hx
        exact Or.inl hx

/-- Zones at a fixed offset from UTC are regular. -/
theorem fixedOffsetZone_regular (offset : ℤ) : (fixedOffsetZone offset).Regular := by
  intro d
  simp only [fixedOffsetZone]
  ring

/-- At any fixed offset from UTC, `hasConsecutiveDays(history, n)` holds exactly when
`n ≥ 1` and some `n` consecutive calendar days each bear a completed session. -/
theorem hasConsecutiveDays_iff_fixedOffset (offset : ℤ) (h : List Session) (n : ℤ) :
    hasConsecutiveDays (fixedOffsetZone offset) h n = true ↔
      1 ≤ n ∧ hasStreak (fixedOffsetZone offset) h n :=
  hasConsecutiveDays_iff_of_regular _ (fixedOffsetZone_regular offset) h n

/-- C10, failing input: with the London clock, completed sessions at noon UTC on 30 and
31 March 2025 lie on the consecutive calendar days 20177 and 20178, but the two local
midnights are 23 hours apart (1743375600000 - 1743292800000 = 82800000 ms), so
`hasConsecutiveDays(history, 2)` is false. -/
theorem hasConsecutiveDays_dst_failure :
    sessionDates londonSpring2025
        [⟨"a", 1743336000000, 25, true, "sleepy", .study⟩,
         ⟨"b", 1743422400000, 25, true, "sleepy", .study⟩]
      = [1743375600000, 1743292800000] ∧
    hasConsecutiveDays londonSpring2025
        [⟨"a", 1743336000000, 25, true, "sleepy", .study⟩,
         ⟨"b", 1743422400000, 25, true, "sleepy", .study⟩] 2 = false ∧
    hasStreak londonSpring2025
        [⟨"a", 1743336000000, 25, true, "sleepy", .study⟩,
         ⟨"b", 1743422400000, 25, true, "sleepy", .study⟩] 2 := by
  have hd : sessionDates londonSpring2025
        [⟨"a", 1743336000000, 25, true, "sleepy", .study⟩,
         ⟨"b", 1743422400000, 25, true, "sleepy", .study⟩]
      = [1743375600000, 1743292800000] := by decide
  refine ⟨hd, ?_, ?_⟩
  · unfold hasConsecutiveDays
    rw [hd, consecutiveScan_cons_cons, msPerDay_eq]
    norm_num [consecutiveScan_singleton]
  · refine ⟨20177, fun i hi0 hi2 => ?_⟩
    have hi : i = 0 ∨ i = 1 := by omega
    rcases hi with rfl | rfl
    · exact ⟨⟨"a", 1743336000000, 25, true, "sleepy", .study⟩, by simp, rfl, by decide⟩
    · exact ⟨⟨"b", 1743422400000, 25, true, "sleepy", .study⟩, by simp, rfl, by decide⟩

/-- The scan with `break` finds the largest `d` in `1..7` for which the test holds at
every `d'` with `1 ≤ d' ≤ d`. -/
theorem consistencyScan_eq (p : ℕ → Bool) :
    consistencyScan p 7 1 0 =
      ((List.range 8).filter (fun d => decide (1 ≤ d) &&
        (List.range d).all (fun i => p (i + 1)))).foldl max 0 := by
  have hr : List.range 8 = [0, 1, 2, 3, 4, 5, 6, 7] := by decide
  rw [hr]
  cases h1 : p 1
  · simp [consistencyScan, h1, List.range_succ, List.filter]
  cases h2 : p 2
  · simp [consistencyScan, h1, h2, List.range_succ, List.filter]
  cases h3 : p 3
  · simp [consistencyScan, h1, h2, h3, List.range_succ, List.filter]
  cases h4 : p 4
  · simp [consistencyScan, h1, h2, h3, h4, List.range_succ, List.filter]
  cases h5 : p 5
  · simp [consistencyScan, h1, h2, h3, h4, h5, List.range_succ, List.filter]
  cases h6 : p 6
  · simp [consistencyScan, h1, h2, h3, h4, h5, h6, List.range_succ, List.filter]
  cases h7 : p 7
  · simp [consistencyScan, h1, h2, h3, h4, h5, h6, h7, List.range_succ, List.filter]
  · simp [consistencyScan, h1, h2, h3, h4, h5, h6, h7, List.range_succ, List.filter]

/-- The streak found by the loop of `calculateProductivityScore` is the streak of the
specification. -/
theorem consistencyScan_eq_specStreak (tz : TimeZone) (h : List Session) :
    consistencyScan (fun days => hasConsecutiveDays tz h (days : ℤ)) 7 1 0 = specStreak tz h := by
  rw [consistencyScan_eq]
  rfl

/-- On a non-empty history the value before rounding is the formula of the specification. -/
theorem rawScore_eq_specFormula (tz : TimeZone) (h : List Session) (hne : h ≠ []) :
    rawScore tz h = specFormula tz h := by
  have hpos : 0 < h.length := List.length_pos.2 hne
  unfold rawScore specFormula
  simp only [hpos, if_true, consistencyScan_eq_specStreak]
  have hlong : (h.any (fun session => session.completed && decide (45 ≤ session.duration)) = true)
      ↔ ∃ s ∈ h, s.completed = true ∧ 45 ≤ s.duration := by
    simp [List.any_eq_true]
  by_cases hl : ∃ s ∈ h, s.completed = true ∧ 45 ≤ s.duration
  · rw [if_pos (hlong.2 hl), if_pos hl, mul_comm (specStreak tz h : ℚ) 10]
  · rw [if_neg (fun e => hl (hlong.1 e)), if_neg hl, mul_comm (specStreak tz h : ℚ) 10]
    ring

/-- The value before rounding is never negative. -/
theorem rawScore_nonneg (tz : TimeZone) (h : List Session) : 0 ≤ rawScore tz h := by
  unfold rawScore
  have h1 : (0 : ℚ) ≤ (if 0 < h.length then
      (((h.filter (fun s => s.completed)).length : ℚ) / (h.length : ℚ)) else 0) * 50 := by
    split
    · positivity
    · norm_num
  have h2 : (0 : ℚ) ≤ min
      (((consistencyScan (fun days => hasConsecutiveDays tz h (days : ℤ)) 7 1 0 : ℕ) : ℚ) * 10)
      30 := le_min (by positivity) (by norm_num)
  simp only
  split <;> linarith

/-- C8: on every non-empty history the score is `min(n, 100)` where `n` is the integer
nearest to the formula `(completed/total)*50 + min(10*s, 30) + (20 if a completed session
has duration ≥ 45)`, halves going up (`n - 1/2 ≤ formula < n + 1/2`), with `s` the largest
`d` in `1..7` such that `hasConsecutiveDays` holds for every `d' ≤ d`. -/
theorem calculateProductivityScore_formula (tz : TimeZone) (h : List Session) (hne : h ≠ []) :
    ∃ n : ℤ, (n : ℚ) - 1 / 2 ≤ specFormula tz h ∧ specFormula tz h < (n : ℚ) + 1 / 2 ∧
      calculateProductivityScore tz h = min n 100 := by
  refine ⟨mathRound (rawScore tz h), ?_, ?_, ?_⟩
  · rw [← rawScore_eq_specFormula tz h hne]
    have := Int.floor_le (rawScore tz h + 1 / 2)
    unfold mathRound
    linarith
  · rw [← rawScore_eq_specFormula tz h hne]
    have := Int.lt_floor_add_one (rawScore tz h + 1 / 2)
    unfold mathRound
    linarith
  · have hlen : h.length ≠ 0 := fun e => hne (List.length_eq_zero.1 e)
    simp only [calculateProductivityScore, hlen, if_false]

/-- Witness for C8: a history of one completed 50-minute session, in the UTC zone. -/
theorem calculateProductivityScore_formula_witness :
    ∃ n : ℤ,
      (n : ℚ) - 1 / 2 ≤
        specFormula (fixedOffsetZone 0) [⟨"a", 1743336000000, 50, true, "sleepy", .study⟩] ∧
      specFormula (fixedOffsetZone 0) [⟨"a", 1743336000000, 50, true, "sleepy", .study⟩]
        < (n : ℚ) + 1 / 2 ∧
      calculateProductivityScore (fixedOffsetZone 0)
        [⟨"a", 1743336000000, 50, true, "sleepy", .study⟩] = min n 100 :=
  calculateProductivityScore_formula (fixedOffsetZone 0)
    [⟨"a", 1743336000000, 50, true, "sleepy", .study⟩] (List.cons_ne_nil _ _)

/-- C9: for every history the score is an integer between 0 and 100, and it is 0 for the
empty history.  The score is a function of the history (and of the time zone of the
runtime) alone: the source reads no clock and no mutable state. -/
theorem calculateProductivityScore_range (tz : TimeZone) (h : List Session) :
    0 ≤ calculateProductivityScore tz h ∧ calculateProductivityScore tz h ≤ 100 ∧
      calculateProductivityScore tz [] = 0 := by
  refine ⟨?_, ?_, rfl⟩
  · unfold calculateProductivityScore
    split
    · exact le_refl _
    · refine le_min ?_ (by norm_num)
      unfold mathRound
      exact Int.floor_nonneg.2 (by linarith [rawScore_nonneg tz h])
  · unfold calculateProductivityScore
    split
    · norm_num
    · exact min_le_right _ _

/-! ## Theorems: the achievement engine -/

/-- Reading back a property that was just written. -/
theorem getEntry_setEntry_self (s : AchievementState) (id : String) (e : AchievementEntry) :
    getEntry (setEntry s id e) id = some e := by
  induction s with
  | nil => simp [setEntry, getEntry]
  | cons p rest ih =>
    obtain ⟨k, v⟩ := p
    by_cases h : k = id
    · simp [setEntry, getEntry, h]
    · simp [setEntry, getEntry, h, ih]

/-- Writing a property leaves the other properties as they were. -/
theorem getEntry_setEntry_ne (s : AchievementState) (id k : String) (e : AchievementEntry)
    (hk : k ≠ id) : getEntry (setEntry s id e) k = getEntry s k := by
  have hk' : ¬ id = k := fun h => hk h.symm
  induction s with
  | nil => simp [setEntry, getEntry, hk']
  | cons p rest ih =>
    obtain ⟨k', v⟩ := p
    by_cases h : k' = id
    · subst h
      simp [setEntry, getEntry, hk']
    · by_cases h2 : k' = k
      · subst h2
        simp [setEntry, getEntry, h]
      · simp [setEntry, getEntry, h, h2, ih]

/-- A property is `undefined` exactly when its key is not among the keys. -/
theorem getEntry_eq_none_iff (s : AchievementState) (id : String) :
    getEntry s id = none ↔ id ∉ objectKeys s := by
  induction s with
  | nil => simp [getEntry, objectKeys]
  | cons p rest ih =>
    obtain ⟨k, v⟩ := p
    by_cases h : k = id
    · simp [getEntry, objectKeys, h]
    · have h' : ¬ id = k := fun e => h e.symm
      simp only [getEntry, h, if_false, ih, objectKeys, List.map_cons, List.mem_cons, h',
        false_or]

/-- The keys after a property write. -/
theorem objectKeys_setEntry (s : AchievementState) (id : String) (e : AchievementEntry) :
    objectKeys (setEntry s id e) =
      if id ∈ objectKeys s then objectKeys s else objectKeys s ++ [id] := by
  induction s with
  | nil => simp [setEntry, objectKeys]
  | cons p rest ih =>
    obtain ⟨k, v⟩ := p
    by_cases h : k = id
    · simp [setEntry, objectKeys, h]
    · have h' : ¬ id = k := fun e => h e.symm
      have ih' := ih
      simp only [objectKeys] at ih'
      by_cases hm : id ∈ rest.map Prod.fst
      · simp [setEntry, objectKeys, h, h', hm, ih']
      · simp [setEntry, objectKeys, h, h', hm, ih']

/-- The entry of the achievement that one step of the pass looks at. -/
theorem getEntry_checkOne_self (tz : TimeZone) (now : ℤ) (d : AppData) (s : AchievementState)
    (a : Achievement) :
    getEntry (checkOne tz now d s a) a.id =
      expectedEntry (getEntry s a.id) (checkAchievementCondition tz now a d) now := by
  unfold checkOne isUnlocked expectedEntry
  cases hg : getEntry s a.id with
  | none =>
    cases hc : checkAchievementCondition tz now a d <;>
      simp [hg, hc, getEntry_setEntry_self]
  | some e =>
    cases hu : e.unlocked <;> cases hc : checkAchievementCondition tz now a d <;>
      simp [hg, hu, hc, getEntry_setEntry_self]

/-- One step of the pass leaves the entries of the other ids alone. -/
theorem getEntry_checkOne_ne (tz : TimeZone) (now : ℤ) (d : AppData) (s : AchievementState)
    (a : Achievement) (k : String) (hk : k ≠ a.id) :
    getEntry (checkOne tz now d s a) k = getEntry s k := by
  unfold checkOne
  simp only
  split
  · rfl
  · split
    · exact getEntry_setEntry_ne _ _ _ _ hk
    · split
      · exact getEntry_setEntry_ne _ _ _ _ hk
      · rfl

/-- A pass over a list of achievements leaves the entries of ids outside the list alone. -/
theorem getEntry_foldl_not_mem (tz : TimeZone) (now : ℤ) (d : AppData)
    (l : List Achievement) : ∀ (s : AchievementState) (k : String),
    k ∉ l.map (fun a => a.id) → getEntry (l.foldl (checkOne tz now d) s) k = getEntry s k := by
  induction l with
  | nil => intro s k _; rfl
  | cons b rest ih =>
    intro s k hk
    simp only [List.map_cons, List.mem_cons, not_or] at hk
    rw [List.foldl_cons, ih _ _ hk.2, getEntry_checkOne_ne _ _ _ _ _ _ hk.1]

/-- A pass over a list of achievements with distinct ids gives every id of the list the
entry the specification prescribes. -/
theorem getEntry_foldl_mem (tz : TimeZone) (now : ℤ) (d : AppData)
    (l : List Achievement) : ∀ (s : AchievementState) (a : Achievement),
    (l.map (fun a => a.id)).Nodup → a ∈ l →
    getEntry (l.foldl (checkOne tz now d) s) a.id =
      expectedEntry (getEntry s a.id) (checkAchievementCondition tz now a d) now := by
  induction l with
  | nil => intro s a _ ha; cases ha
  | cons b rest ih =>
    intro s a hnd ha
    simp only [List.map_cons, List.nodup_cons] at hnd
    rw [List.foldl_cons]
    rcases List.mem_cons.1 ha with hab | har
    · subst hab
      rw [getEntry_foldl_not_mem _ _ _ _ _ _ hnd.1, getEntry_checkOne_self]
    · have hne : a.id ≠ b.id := by
        intro e
        exact hnd.1 (e ▸ List.mem_map_of_mem (fun a => a.id) har)
      rw [ih _ _ hnd.2 har, getEntry_checkOne_ne _ _ _ _ _ _ hne]

/-- The catalog ids are pairwise distinct. -/
theorem nodup_ACHIEVEMENT_IDS : ACHIEVEMENT_IDS.Nodup := by decide

/-- The catalog ids, spelled out. -/
theorem ACHIEVEMENT_IDS_eq : ACHIEVEMENT_IDS =
    ["cursed-consistency", "demon-discipline", "witching-hour", "sleepy-survivor",
      "mischievous-master"] := rfl

/-- On the catalog, `checkAchievementCondition` evaluates the predicate table. -/
theorem checkAchievementCondition_eq (tz : TimeZone) (now : ℤ) (d : AppData)
    (a : Achievement) (ha : a ∈ ACHIEVEMENTS) :
    checkAchievementCondition tz now a d = specPredicate tz now d a.id := by
  simp only [ACHIEVEMENTS, List.mem_cons, List.mem_singleton, List.not_mem_nil, or_false] at ha
  rcases ha with rfl | rfl | rfl | rfl | rfl <;>
    simp [checkAchievementCondition, specPredicate]

/-- The entry of a catalog id after a pass of `checkAchievements`. -/
theorem getEntry_checkAchievements (tz : TimeZone) (now : ℤ) (d : AppData)
    (s : AchievementState) (id : String) (hid : id ∈ ACHIEVEMENT_IDS) :
    getEntry (checkAchievements tz now d s) id =
      expectedEntry (getEntry s id) (specPredicate tz now d id) now := by
  obtain ⟨a, ha, rfl⟩ := List.mem_map.1 hid
  unfold checkAchievements
  rw [getEntry_foldl_mem tz now d ACHIEVEMENTS s a nodup_ACHIEVEMENT_IDS ha,
    checkAchievementCondition_eq tz now d a ha]

/-- The entry of any other key after a pass of `checkAchievements`. -/
theorem getEntry_checkAchievements_other (tz : TimeZone) (now : ℤ) (d : AppData)
    (s : AchievementState) (k : String) (hk : k ∉ ACHIEVEMENT_IDS) :
    getEntry (checkAchievements tz now d s) k = getEntry s k :=
  getEntry_foldl_not_mem tz now d ACHIEVEMENTS s k hk

/-- An unlocked entry is what the specification prescribes, whatever the predicate. -/
theorem expectedEntry_unlocked (e : AchievementEntry) (hu : e.unlocked = true) (b : Bool)
    (now : ℤ) : expectedEntry (some e) b now = some e := by
  simp [expectedEntry, hu]

/-- One pass of `checkAchievements` keeps every unlocked entry, catalog id or not. -/
theorem checkAchievements_keeps_unlocked (tz : TimeZone) (now : ℤ) (d : AppData)
    (s : AchievementState) (id : String) (e : AchievementEntry)
    (h : getEntry s id = some e) (hu : e.unlocked = true) :
    getEntry (checkAchievements tz now d s) id = some e := by
  by_cases hid : id ∈ ACHIEVEMENT_IDS
  · rw [getEntry_checkAchievements tz now d s id hid, h, expectedEntry_unlocked e hu]
  · rw [getEntry_checkAchievements_other tz now d s id hid, h]

/-- C11: an entry that is unlocked in the prior state is found in the result of
`checkAchievements` with the same `unlocked = true` and the same `unlockedAt`, whatever
the app data and the clock; and so it is after any sequence of evaluation passes. -/
theorem unlocked_entries_preserved (tz : TimeZone) (now : ℤ) (d : AppData)
    (passes : List (AppData × ℤ)) (s : AchievementState) (id : String)
    (e : AchievementEntry) (h : getEntry s id = some e) (hu : e.unlocked = true) :
    getEntry (checkAchievements tz now d s) id = some e ∧
    getEntry (passes.foldl (fun st p => checkAchievements tz p.2 p.1 st) s) id = some e := by
  refine ⟨checkAchievements_keeps_unlocked tz now d s id e h hu, ?_⟩
  induction passes generalizing s with
  | nil => exact h
  | cons p rest ih =>
    rw [List.foldl_cons]
    exact ih _ (checkAchievements_keeps_unlocked tz p.2 p.1 s id e h hu)

/-- Witness for C11: `witching-hour` unlocked at instant 1704067200000 stays so through a
pass whose history has a session at 01:00 and a later pass on the empty history. -/
theorem unlocked_entries_preserved_witness :
    getEntry (checkAchievements (fixedOffsetZone 0) 1800000000000
        ⟨[⟨"a", 1704070800000, 45, true, "sleepy", .study⟩], 5⟩
        [("witching-hour", ⟨true, some 1704067200000⟩)]) "witching-hour"
      = some ⟨true, some 1704067200000⟩ ∧
    getEntry ([(⟨[⟨"a", 1704070800000, 45, true, "sleepy", .study⟩], 5⟩, 1800000000000),
        (⟨[], 0⟩, 1800000000001)].foldl
          (fun st p => checkAchievements (fixedOffsetZone 0) p.2 p.1 st)
          [("witching-hour", ⟨true, some 1704067200000⟩)]) "witching-hour"
      = some ⟨true, some 1704067200000⟩ :=
  unlocked_entries_preserved (fixedOffsetZone 0) 1800000000000
    ⟨[⟨"a", 1704070800000, 45, true, "sleepy", .study⟩], 5⟩
    [(⟨[⟨"a", 1704070800000, 45, true, "sleepy", .study⟩], 5⟩, 1800000000000),
        (⟨[], 0⟩, 1800000000001)]
    [("witching-hour", ⟨true, some 1704067200000⟩)] "witching-hour"
    ⟨true, some 1704067200000⟩ (by decide) rfl

/-- C12: after `checkAchievements` every one of the five catalog ids has an entry; and
for an id that is not unlocked in the prior state the entry is `(true, now)` exactly when
the id's predicate of the table holds, and otherwise it is the prior entry, or
`(false, null)` when there was none. -/
theorem checkAchievements_entries (tz : TimeZone) (now : ℤ) (d : AppData)
    (s : AchievementState) (id : String)
    (hid : id ∈ ["cursed-consistency", "demon-discipline", "witching-hour",
      "sleepy-survivor", "mischievous-master"]) :
    (getEntry (checkAchievements tz now d s) id).isSome = true ∧
    (isUnlocked s id = true ∨
      ((getEntry (checkAchievements tz now d s) id = some ⟨true, some now⟩ ↔
          specPredicate tz now d id = true) ∧
       (specPredicate tz now d id = true ∨
          getEntry (checkAchievements tz now d s) id =
            some ((getEntry s id).getD ⟨false, none⟩)))) := by
  have hid' : id ∈ ACHIEVEMENT_IDS := by rw [ACHIEVEMENT_IDS_eq]; exact hid
  rw [getEntry_checkAchievements tz now d s id hid']
  cases hg : getEntry s id with
  | none =>
    cases hp : specPredicate tz now d id <;> simp [expectedEntry, isUnlocked, hg]
  | some e =>
    cases hu : e.unlocked
    · cases hp : specPredicate tz now d id
      · refine ⟨by simp [expectedEntry, hu], Or.inr ⟨?_, ?_⟩⟩
        · simp only [expectedEntry, hu, Bool.false_eq_true, if_false, Option.some.injEq]
          constructor
          · intro h
            rw [h] at hu
            cases hu
          · intro h
            cases h
        · right
          simp [expectedEntry, hu]
      · simp [expectedEntry, isUnlocked, hg, hu]
    · simp [expectedEntry, isUnlocked, hg, hu]

/-- Witness for C12: from the empty state, with an empty history and `mischiefCount = 5`,
`mischievous-master` is unlocked at `now`. -/
theorem checkAchievements_entries_witness :
    (getEntry (checkAchievements (fixedOffsetZone 0) 1800000000000 ⟨[], 5⟩ [])
        "mischievous-master").isSome = true ∧
    (isUnlocked [] "mischievous-master" = true ∨
      ((getEntry (checkAchievements (fixedOffsetZone 0) 1800000000000 ⟨[], 5⟩ [])
            "mischievous-master" = some ⟨true, some 1800000000000⟩ ↔
          specPredicate (fixedOffsetZone 0) 1800000000000 ⟨[], 5⟩ "mischievous-master" = true) ∧
       (specPredicate (fixedOffsetZone 0) 1800000000000 ⟨[], 5⟩ "mischievous-master" = true ∨
          getEntry (checkAchievements (fixedOffsetZone 0) 1800000000000 ⟨[], 5⟩ [])
            "mischievous-master" = some ((getEntry [] "mischievous-master").getD ⟨false, none⟩)))) :=
  checkAchievements_entries (fixedOffsetZone 0) 1800000000000 ⟨[], 5⟩ [] "mischievous-master"
    (by decide)

/-! ## Theorems: windows, hours and emotions -/

/-- The count of `getSessionsInLastNDays` as a count over the history. -/
theorem getSessionsInLastNDays_eq (tz : TimeZone) (now : ℤ) (h : List Session) (n : ℤ) :
    getSessionsInLastNDays tz now h n =
      if n ≤ 0 then 0
      else h.countP (fun s => s.completed && decide (tz.minusDays now n ≤ s.startTime)) := by
  unfold getSessionsInLastNDays
  have hfun : (fun session : Session =>
      if (!session.completed) = true then false
      else decide (tz.minusDays now n ≤ session.startTime)) =
      (fun s => s.completed && decide (tz.minusDays now n ≤ s.startTime)) := by
    funext s
    cases s.completed <;> simp
  by_cases hn : n ≤ 0
  · simp [hn]
  · by_cases hl : h.length = 0
    · have : h = [] := List.length_eq_zero.1 hl
      subst this
      simp [hn]
    · simp only [hl, hn, or_self, if_false]
      rw [List.countP_eq_length_filter, hfun]

/-- C18: `getSessionsInLastNDays(history, n)` is the number of completed sessions whose
`startTime` is at or after the cutoff `now - n days` (the bound is inclusive), and `0`
when `n ≤ 0` or the history is empty; at a fixed offset from UTC the cutoff is
`now - n * 86400000` ms. -/
theorem getSessionsInLastNDays_spec (tz : TimeZone) (now : ℤ) (h : List Session) (n : ℤ)
    (offset : ℤ) :
    getSessionsInLastNDays tz now h n =
      (if n ≤ 0 then 0
       else h.countP (fun s => s.completed && decide (tz.minusDays now n ≤ s.startTime))) ∧
    getSessionsInLastNDays tz now [] n = 0 ∧
    (fixedOffsetZone offset).minusDays now n = now - n * 86400000 := by
  refine ⟨getSessionsInLastNDays_eq tz now h n, ?_, ?_⟩
  · simp [getSessionsInLastNDays]
  · simp [fixedOffsetZone, msPerDay]

/-- C19: `hasSessionInTimeRange(history, startHour, endHour)` is true exactly when some
completed session has its local hour in `[startHour, endHour)`, or, when
`startHour > endHour`, at or after `startHour` or before `endHour`. -/
theorem hasSessionInTimeRange_spec (tz : TimeZone) (h : List Session) (startHour endHour : ℤ) :
    hasSessionInTimeRange tz h startHour endHour = true ↔
      ∃ s ∈ h, s.completed = true ∧
        (if startHour ≤ endHour then
          startHour ≤ tz.hourOf s.startTime ∧ tz.hourOf s.startTime < endHour
         else startHour ≤ tz.hourOf s.startTime ∨ tz.hourOf s.startTime < endHour) := by
  unfold hasSessionInTimeRange
  by_cases hl : h.length = 0
  · have : h = [] := List.length_eq_zero.1 hl
    subst this
    simp
  · simp only [hl, if_false, List.any_eq_true]
    constructor
    · rintro ⟨s, hs, hp⟩
      refine ⟨s, hs, ?_⟩
      cases hc : s.completed
      · simp [hc] at hp
      · refine ⟨rfl, ?_⟩
        by_cases hle : startHour ≤ endHour
        · simpa [hc, hle] using hp
        · simpa [hc, hle] using hp
    · rintro ⟨s, hs, hc, hp⟩
      refine ⟨s, hs, ?_⟩
      by_cases hle : startHour ≤ endHour
      · simpa [hc, hle] using hp
      · simpa [hc, hle] using hp

/-- The count of `countSessionsByEmotion` as a count over the history. -/
theorem countSessionsByEmotion_eq (h : List Session) (emotion : String) :
    countSessionsByEmotion h emotion =
      h.countP (fun s => s.completed && decide (s.ghostEmotion = emotion)) := by
  unfold countSessionsByEmotion
  by_cases hl : h.length = 0
  · have : h = [] := List.length_eq_zero.1 hl
    subst this
    simp
  · simp only [hl, if_false]
    rw [List.countP_eq_length_filter]

/-- The duplicate filter does not lengthen a list. -/
theorem length_removeDuplicates_le (l : List ℤ) : (removeDuplicates l).length ≤ l.length := by
  unfold removeDuplicates
  rw [List.length_map]
  exact le_trans (List.length_filter_le _ _) (le_of_eq List.enum_length)

/-- There are at most as many session dates as completed sessions. -/
theorem length_sessionDates_le (tz : TimeZone) (h : List Session) :
    (sessionDates tz h).length ≤ completedCount h := by
  unfold sessionDates sortDescending completedCount
  rw [List.length_insertionSort, List.countP_eq_length_filter]
  refine le_trans (length_removeDuplicates_le _) ?_
  rw [List.length_map]

/-- A history with fewer than `n` completed sessions has no streak of `n` days, in any
zone. -/
theorem hasConsecutiveDays_false_of_few (tz : TimeZone) (h : List Session) (n : ℤ)
    (hfew : (completedCount h : ℤ) < n) : hasConsecutiveDays tz h n = false := by
  unfold hasConsecutiveDays
  have hlen : ((sessionDates tz h).length : ℤ) < n := by
    have := length_sessionDates_le tz h
    omega
  by_cases hc : h.length = 0 ∨ n ≤ 0
  · rw [if_pos hc]
  · rw [if_neg hc, if_pos hlen]

/-- The window count never exceeds the number of completed sessions. -/
theorem getSessionsInLastNDays_le (tz : TimeZone) (now : ℤ) (h : List Session) (n : ℤ) :
    getSessionsInLastNDays tz now h n ≤ completedCount h := by
  rw [getSessionsInLastNDays_eq]
  split
  · exact Nat.zero_le _
  · unfold completedCount
    apply List.countP_mono_left
    intro s _ hs
    simp only [Bool.and_eq_true] at hs
    exact hs.1

/-- The unlocked flag of a catalog id after a pass, when it was not unlocked before, is the
value of the id's predicate. -/
theorem isUnlocked_checkAchievements (tz : TimeZone) (now : ℤ) (d : AppData)
    (s : AchievementState) (id : String) (hid : id ∈ ACHIEVEMENT_IDS)
    (hlocked : isUnlocked s id = false) :
    isUnlocked (checkAchievements tz now d s) id = specPredicate tz now d id := by
  unfold isUnlocked at hlocked ⊢
  rw [getEntry_checkAchievements tz now d s id hid]
  cases hg : getEntry s id with
  | none => cases hp : specPredicate tz now d id <;> simp [expectedEntry]
  | some e =>
    have hu : e.unlocked = false := by simpa [hg] using hlocked
    cases hp : specPredicate tz now d id <;> simp [expectedEntry, hu]

/-- C15: from the empty prior state, a history with at least 3 completed sessions tagged
`sleepy` gets `sleepy-survivor` unlocked at `now`; and whatever the clock, the zone and
`mischiefCount`, with fewer than 7 completed sessions `cursed-consistency` stays locked,
and with fewer than 10 completed sessions `demon-discipline` stays locked (from any prior
state in which it is not unlocked; from the empty one the entry is `(false, null)`). -/
theorem few_sessions_scenario (tz : TimeZone) (now : ℤ) (h : List Session) (m : ℤ)
    (s : AchievementState) :
    (3 ≤ h.countP (fun x => x.completed && decide (x.ghostEmotion = "sleepy")) →
      getEntry (checkAchievements tz now ⟨h, m⟩ []) "sleepy-survivor"
        = some ⟨true, some now⟩) ∧
    (completedCount h < 7 →
      getEntry (checkAchievements tz now ⟨h, m⟩ []) "cursed-consistency"
          = some ⟨false, none⟩ ∧
      (isUnlocked s "cursed-consistency" = false →
        isUnlocked (checkAchievements tz now ⟨h, m⟩ s) "cursed-consistency" = false)) ∧
    (completedCount h < 10 →
      getEntry (checkAchievements tz now ⟨h, m⟩ []) "demon-discipline"
          = some ⟨false, none⟩ ∧
      (isUnlocked s "demon-discipline" = false →
        isUnlocked (checkAchievements tz now ⟨h, m⟩ s) "demon-discipline" = false)) := by
  have hcc : ∀ hfew : completedCount h < 7,
      specPredicate tz now ⟨h, m⟩ "cursed-consistency" = false := by
    intro hfew
    simp only [specPredicate, if_true]
    exact hasConsecutiveDays_false_of_few tz h 7 (by exact_mod_cast hfew)
  have hdd : ∀ hfew : completedCount h < 10,
      specPredicate tz now ⟨h, m⟩ "demon-discipline" = false := by
    intro hfew
    have hne : ¬ ("demon-discipline" = "cursed-consistency") := by decide
    simp only [specPredicate, hne, if_false, if_true, decide_eq_false_iff_not, not_le]
    exact lt_of_le_of_lt (getSessionsInLastNDays_le tz now h 7) hfew
  refine ⟨?_, ?_, ?_⟩
  · intro h3
    rw [getEntry_checkAchievements tz now ⟨h, m⟩ [] "sleepy-survivor" (by decide)]
    have hp : specPredicate tz now ⟨h, m⟩ "sleepy-survivor" = true := by
      have hne1 : ¬ ("sleepy-survivor" = "cursed-consistency") := by decide
      have hne2 : ¬ ("sleepy-survivor" = "demon-discipline") := by decide
      have hne3 : ¬ ("sleepy-survivor" = "witching-hour") := by decide
      simp only [specPredicate, hne1, hne2, hne3, if_false, if_true, decide_eq_true_eq]
      rw [countSessionsByEmotion_eq]
      exact h3
    simp [hp, expectedEntry, getEntry]
  · intro hfew
    refine ⟨?_, fun hl => ?_⟩
    · rw [getEntry_checkAchievements tz now ⟨h, m⟩ [] "cursed-consistency" (by decide),
        hcc hfew]
      simp [expectedEntry, getEntry]
    · rw [isUnlocked_checkAchievements tz now ⟨h, m⟩ s "cursed-consistency" (by decide) hl,
        hcc hfew]
  · intro hfew
    refine ⟨?_, fun hl => ?_⟩
    · rw [getEntry_checkAchievements tz now ⟨h, m⟩ [] "demon-discipline" (by decide),
        hdd hfew]
      simp [expectedEntry, getEntry]
    · rw [isUnlocked_checkAchievements tz now ⟨h, m⟩ s "demon-discipline" (by decide) hl,
        hdd hfew]

/-- Witness for C15: the scenario of three completed `sleepy` sessions (on 1, 2 and 3
January 2024) and nothing else, from the empty state. -/
theorem few_sessions_scenario_witness :
    getEntry (checkAchievements (fixedOffsetZone 0) 1800000000000
        ⟨[⟨"a", 1704103200000, 45, true, "sleepy", .study⟩,
          ⟨"b", 1704189600000, 30, true, "sleepy", .study⟩,
          ⟨"c", 1704276000000, 30, true, "sleepy", .study⟩], 0⟩ []) "sleepy-survivor"
      = some ⟨true, some 1800000000000⟩ ∧
    getEntry (checkAchievements (fixedOffsetZone 0) 1800000000000
        ⟨[⟨"a", 1704103200000, 45, true, "sleepy", .study⟩,
          ⟨"b", 1704189600000, 30, true, "sleepy", .study⟩,
          ⟨"c", 1704276000000, 30, true, "sleepy", .study⟩], 0⟩ []) "cursed-consistency"
      = some ⟨false, none⟩ ∧
    getEntry (checkAchievements (fixedOffsetZone 0) 1800000000000
        ⟨[⟨"a", 1704103200000, 45, true, "sleepy", .study⟩,
          ⟨"b", 1704189600000, 30, true, "sleepy", .study⟩,
          ⟨"c", 1704276000000, 30, true, "sleepy", .study⟩], 0⟩ []) "demon-discipline"
      = some ⟨false, none⟩ :=
  have key := few_sessions_scenario (fixedOffsetZone 0) 1800000000000
    [⟨"a", 1704103200000, 45, true, "sleepy", .study⟩,
     ⟨"b", 1704189600000, 30, true, "sleepy", .study⟩,
     ⟨"c", 1704276000000, 30, true, "sleepy", .study⟩] 0 []
  ⟨key.1 (by decide), (key.2.1 (by decide)).1, (key.2.2 (by decide)).1⟩

/-- C14 (failing input): ten completed sessions within one day (1 January 2024), evaluated
on 1 March 2024 from the empty state: the sessions lie within a 7-day period, yet
`getSessionsInLastNDays` counts none of them, because none is in the 7 days before `now`,
and `checkAchievements` leaves `demon-discipline` locked. -/
theorem demon_discipline_counterexample :
    tenWithinSevenDays tenSessionsInOneDay ∧
    getSessionsInLastNDays (fixedOffsetZone 0) 1709287200000 tenSessionsInOneDay 7 = 0 ∧
    getEntry (checkAchievements (fixedOffsetZone 0) 1709287200000 ⟨tenSessionsInOneDay, 0⟩ [])
      "demon-discipline" = some ⟨false, none⟩ := by
  refine ⟨⟨1704103200000, by decide⟩, by decide, ?_⟩
  rw [getEntry_checkAchievements _ _ _ _ _ (by decide)]
  have hp : specPredicate (fixedOffsetZone 0) 1709287200000 ⟨tenSessionsInOneDay, 0⟩
      "demon-discipline" = false := by decide
  rw [hp]
  rfl

/-- Inside the trailing window the achievement is granted: if at least ten completed
sessions have their `startTime` at or after the cutoff `now - 7 days` of the evaluation,
then `checkAchievements`, from a prior state in which `demon-discipline` is locked or
absent, returns it unlocked at `now`. -/
theorem demon_discipline_unlocks (tz : TimeZone) (now : ℤ) (h : List Session) (m : ℤ)
    (s : AchievementState) (hlocked : isUnlocked s "demon-discipline" = false)
    (hten : 10 ≤ h.countP (fun x => x.completed && decide (tz.minusDays now 7 ≤ x.startTime))) :
    getEntry (checkAchievements tz now ⟨h, m⟩ s) "demon-discipline"
      = some ⟨true, some now⟩ := by
  have hp : specPredicate tz now ⟨h, m⟩ "demon-discipline" = true := by
    have hne : ¬ ("demon-discipline" = "cursed-consistency") := by decide
    simp only [specPredicate, hne, if_false, if_true, decide_eq_true_eq]
    rw [getSessionsInLastNDays_eq]
    simpa using hten
  rw [getEntry_checkAchievements tz now ⟨h, m⟩ s "demon-discipline" (by decide), hp]
  unfold isUnlocked at hlocked
  cases hg : getEntry s "demon-discipline" with
  | none => simp [expectedEntry]
  | some e =>
    have hu : e.unlocked = false := by simpa [hg] using hlocked
    simp [expectedEntry, hu]

/-- The ten sessions of 1 January 2024 evaluated two days later, from the empty state:
`demon-discipline` is unlocked. -/
theorem demon_discipline_unlocks_witness :
    getEntry (checkAchievements (fixedOffsetZone 0) 1704276000000 ⟨tenSessionsInOneDay, 0⟩ [])
      "demon-discipline" = some ⟨true, some 1704276000000⟩ :=
  demon_discipline_unlocks (fixedOffsetZone 0) 1704276000000 tenSessionsInOneDay 0 []
    (by decide) (by decide)

/-- A streak of `n` days contains a streak of every shorter length. -/
theorem hasStreak_mono (tz : TimeZone) (h : List Session) {m n : ℤ} (hmn : m ≤ n)
    (hs : hasStreak tz h n) : hasStreak tz h m := by
  obtain ⟨D, hD⟩ := hs
  exact ⟨D, fun i h0 h1 => hD i h0 (lt_of_lt_of_le h1 hmn)⟩

/-- In a zone without daylight-saving transitions, a history with a completed session on
each of `n ≥ 7` consecutive calendar days gets `cursed-consistency` unlocked at `now` from
the empty state. -/
theorem cursed_consistency_unlocks_of_regular (tz : TimeZone) (hreg : tz.Regular) (now : ℤ)
    (h : List Session) (m n : ℤ) (hn : 7 ≤ n) (hs : hasStreak tz h n) :
    getEntry (checkAchievements tz now ⟨h, m⟩ []) "cursed-consistency"
      = some ⟨true, some now⟩ := by
  have hp : specPredicate tz now ⟨h, m⟩ "cursed-consistency" = true := by
    simp only [specPredicate, if_true]
    exact (hasConsecutiveDays_iff_of_regular tz hreg h 7).2
      ⟨by norm_num, hasStreak_mono tz h hn hs⟩
  rw [getEntry_checkAchievements tz now ⟨h, m⟩ [] "cursed-consistency" (by decide), hp]
  rfl

/-- C13, failing input: with the London clock, completed sessions at noon UTC on each of
the seven days 27 March to 2 April 2025 (calendar days 20174 to 20180) form a streak of
7 calendar days, but the local midnights of 30 and 31 March are 23 hours apart, so
`hasConsecutiveDays(history, 7)` is false and `checkAchievements` from the empty state
leaves `cursed-consistency` at `(false, null)`. -/
theorem cursed_consistency_dst_failure :
    hasStreak londonSpring2025 sevenDaysAcrossSpring 7 ∧
    sessionDates londonSpring2025 sevenDaysAcrossSpring =
      [1743548400000, 1743462000000, 1743375600000, 1743292800000, 1743206400000,
        1743120000000, 1743033600000] ∧
    hasConsecutiveDays londonSpring2025 sevenDaysAcrossSpring 7 = false ∧
    getEntry (checkAchievements londonSpring2025 1743768000000 ⟨sevenDaysAcrossSpring, 0⟩ [])
      "cursed-consistency" = some ⟨false, none⟩ := by
  have hd : sessionDates londonSpring2025 sevenDaysAcrossSpring =
      [1743548400000, 1743462000000, 1743375600000, 1743292800000, 1743206400000,
        1743120000000, 1743033600000] := by decide
  have hf : hasConsecutiveDays londonSpring2025 sevenDaysAcrossSpring 7 = false := by
    unfold hasConsecutiveDays
    rw [hd]
    simp only [consecutiveScan_cons_cons, consecutiveScan_singleton, msPerDay_eq]
    norm_num [sevenDaysAcrossSpring]
  refine ⟨⟨20174, fun i hi0 hi7 => ?_⟩, hd, hf, ?_⟩
  · have hi : i = 0 ∨ i = 1 ∨ i = 2 ∨ i = 3 ∨ i = 4 ∨ i = 5 ∨ i = 6 := by omega
    rcases hi with rfl | rfl | rfl | rfl | rfl | rfl | rfl
    · exact ⟨⟨"d0", 1743076800000, 25, true, "sleepy", .study⟩,
        by simp [sevenDaysAcrossSpring], rfl, by decide⟩
    · exact ⟨⟨"d1", 1743163200000, 25, true, "sleepy", .study⟩,
        by simp [sevenDaysAcrossSpring], rfl, by decide⟩
    · exact ⟨⟨"d2", 1743249600000, 25, true, "sleepy", .study⟩,
        by simp [sevenDaysAcrossSpring], rfl, by decide⟩
    · exact ⟨⟨"d3", 1743336000000, 25, true, "sleepy", .study⟩,
        by simp [sevenDaysAcrossSpring], rfl, by decide⟩
    · exact ⟨⟨"d4", 1743422400000, 25, true, "sleepy", .study⟩,
        by simp [sevenDaysAcrossSpring], rfl, by decide⟩
    · exact ⟨⟨"d5", 1743508800000, 25, true, "sleepy", .study⟩,
        by simp [sevenDaysAcrossSpring], rfl, by decide⟩
    · exact ⟨⟨"d6", 1743595200000, 25, true, "sleepy", .study⟩,
        by simp [sevenDaysAcrossSpring], rfl, by decide⟩
  · rw [getEntry_checkAchievements _ _ _ _ _ (by decide)]
    have hp : specPredicate londonSpring2025 1743768000000 ⟨sevenDaysAcrossSpring, 0⟩
        "cursed-consistency" = false := by
      simp only [specPredicate, if_true]
      exact hf
    rw [hp]
    rfl

/-! ## Theorems: newly unlocked achievements -/

/-- The flag `state[id]?.unlocked` is truthy exactly when there is an entry with
`unlocked = true`. -/
theorem isUnlocked_eq_true_iff (s : AchievementState) (id : String) :
    isUnlocked s id = true ↔ ∃ e, getEntry s id = some e ∧ e.unlocked = true := by
  unfold isUnlocked
  cases getEntry s id <;> simp

/-- The flag `state[id]?.unlocked` is falsy exactly when the entry is absent or has
`unlocked = false`. -/
theorem isUnlocked_eq_false_iff (s : AchievementState) (id : String) :
    isUnlocked s id = false ↔
      getEntry s id = none ∨ ∃ e, getEntry s id = some e ∧ e.unlocked = false := by
  unfold isUnlocked
  cases getEntry s id <;> simp

/-- C16: an identifier is in `getNewlyUnlockedAchievements(oldState, newState)` exactly
when `newState[id].unlocked` is true and `oldState[id]` is absent or has `unlocked`
false; and the list has no identifier twice (the keys of an object being distinct). -/
theorem getNewlyUnlocked_spec (oldState newState : AchievementState)
    (hnew : (objectKeys newState).Nodup) :
    (∀ id : String, id ∈ getNewlyUnlockedAchievements oldState newState ↔
      (∃ e, getEntry newState id = some e ∧ e.unlocked = true) ∧
      (getEntry oldState id = none ∨
        ∃ e, getEntry oldState id = some e ∧ e.unlocked = false)) ∧
    (getNewlyUnlockedAchievements oldState newState).Nodup := by
  refine ⟨fun id => ?_, hnew.filter _⟩
  unfold getNewlyUnlockedAchievements
  simp only [List.mem_filter, Bool.and_eq_true, Bool.not_eq_true']
  rw [isUnlocked_eq_true_iff, isUnlocked_eq_false_iff]
  constructor
  · rintro ⟨-, hold, hnow⟩
    exact ⟨hnow, hold⟩
  · rintro ⟨hnow, hold⟩
    refine ⟨?_, hold, hnow⟩
    by_contra hmem
    obtain ⟨e, he, -⟩ := hnow
    rw [(getEntry_eq_none_iff newState id).2 hmem] at he
    cases he

/-- Witness for C16: `witching-hour` goes from locked to unlocked, `sleepy-survivor`
stays locked. -/
theorem getNewlyUnlocked_spec_witness :
    (∀ id : String,
      id ∈ getNewlyUnlockedAchievements
          [("witching-hour", ⟨false, none⟩), ("sleepy-survivor", ⟨false, none⟩)]
          [("witching-hour", ⟨true, some 1704067200000⟩),
            ("sleepy-survivor", ⟨false, none⟩)] ↔
      (∃ e, getEntry [("witching-hour", ⟨true, some 1704067200000⟩),
            ("sleepy-survivor", ⟨false, none⟩)] id = some e ∧ e.unlocked = true) ∧
      (getEntry [("witching-hour", ⟨false, none⟩), ("sleepy-survivor", ⟨false, none⟩)] id
          = none ∨
        ∃ e, getEntry [("witching-hour", ⟨false, none⟩), ("sleepy-survivor", ⟨false, none⟩)]
          id = some e ∧ e.unlocked = false)) ∧
    (getNewlyUnlockedAchievements
        [("witching-hour", ⟨false, none⟩), ("sleepy-survivor", ⟨false, none⟩)]
        [("witching-hour", ⟨true, some 1704067200000⟩),
          ("sleepy-survivor", ⟨false, none⟩)]).Nodup :=
  getNewlyUnlocked_spec
    [("witching-hour", ⟨false, none⟩), ("sleepy-survivor", ⟨false, none⟩)]
    [("witching-hour", ⟨true, some 1704067200000⟩), ("sleepy-survivor", ⟨false, none⟩)]
    (by decide)

/-- The keys after one step of the pass: the id is appended when it was absent. -/
theorem objectKeys_checkOne (tz : TimeZone) (now : ℤ) (d : AppData) (s : AchievementState)
    (a : Achievement) :
    objectKeys (checkOne tz now d s a) =
      if a.id ∈ objectKeys s then objectKeys s else objectKeys s ++ [a.id] := by
  have hmem : ∀ e, getEntry s a.id = some e → a.id ∈ objectKeys s := by
    intro e he
    by_contra hn
    rw [(getEntry_eq_none_iff s a.id).2 hn] at he
    cases he
  unfold checkOne
  simp only
  split
  · rename_i hu
    obtain ⟨e, he, -⟩ := (isUnlocked_eq_true_iff s a.id).1 hu
    rw [if_pos (hmem e he)]
  · split
    · exact objectKeys_setEntry _ _ _
    · split
      · exact objectKeys_setEntry _ _ _
      · rename_i hsome
        cases hg : getEntry s a.id with
        | none => simp [hg] at hsome
        | some e => rw [if_pos (hmem e hg)]

/-- The keys after a pass over a list of achievements with distinct ids: the old keys,
followed by the ids of the list that were absent, in list order. -/
theorem objectKeys_foldl (tz : TimeZone) (now : ℤ) (d : AppData) (l : List Achievement) :
    ∀ s : AchievementState, (l.map (fun a => a.id)).Nodup →
    objectKeys (l.foldl (checkOne tz now d) s) =
      objectKeys s ++ (l.map (fun a => a.id)).filter (fun k => decide (k ∉ objectKeys s)) := by
  induction l with
  | nil => intro s _; simp
  | cons b rest ih =>
    intro s hnd
    simp only [List.map_cons, List.nodup_cons] at hnd
    rw [List.foldl_cons, ih _ hnd.2, objectKeys_checkOne]
    by_cases hb : b.id ∈ objectKeys s
    · simp [hb]
    · have hcongr : (rest.map (fun a => a.id)).filter
          (fun k => decide (k ∉ objectKeys s ++ [b.id])) =
          (rest.map (fun a => a.id)).filter (fun k => decide (k ∉ objectKeys s)) := by
        apply List.filter_congr
        intro k hk
        have hne : k ≠ b.id := fun e => hnd.1 (e ▸ hk)
        simp [hne]
      simp only [hb, if_false, List.map_cons, List.filter_cons, not_false_eq_true,
        decide_True, if_true, hcongr, List.append_assoc, List.singleton_append]

/-- The keys of the result of `checkAchievements`. -/
theorem objectKeys_checkAchievements (tz : TimeZone) (now : ℤ) (d : AppData)
    (s : AchievementState) :
    objectKeys (checkAchievements tz now d s) =
      objectKeys s ++ ACHIEVEMENT_IDS.filter (fun k => decide (k ∉ objectKeys s)) :=
  objectKeys_foldl tz now d ACHIEVEMENTS s nodup_ACHIEVEMENT_IDS

/-- A newly unlocked id of a pass is a catalog id. -/
theorem newly_unlocked_in_catalog (tz : TimeZone) (now : ℤ) (d : AppData)
    (s : AchievementState) (id : String)
    (h : (!isUnlocked s id && isUnlocked (checkAchievements tz now d s) id) = true) :
    id ∈ ACHIEVEMENT_IDS := by
  by_contra hid
  unfold isUnlocked at h
  rw [getEntry_checkAchievements_other tz now d s id hid] at h
  cases hu : ((getEntry s id).map (fun entry => entry.unlocked)).getD false <;> simp [hu] at h

/-- C17, counterexample: the prior state with the single key `mischievous-master` (locked),
three `sleepy` sessions and `mischiefCount = 5`: the newly unlocked list is
`mischievous-master, sleepy-survivor`, the reverse of the catalog order. -/
theorem newlyUnlocked_order_counterexample :
    getNewlyUnlockedAchievements [("mischievous-master", ⟨false, none⟩)]
        (checkAchievements (fixedOffsetZone 0) 1800000000000 ⟨threeSleepySessions, 5⟩
          [("mischievous-master", ⟨false, none⟩)])
      = ["mischievous-master", "sleepy-survivor"] ∧
    ¬ List.Sublist ["mischievous-master", "sleepy-survivor"] ACHIEVEMENT_IDS := by
  refine ⟨?_, by decide⟩
  have hk : objectKeys (checkAchievements (fixedOffsetZone 0) 1800000000000
      ⟨threeSleepySessions, 5⟩ [("mischievous-master", ⟨false, none⟩)]) =
      ["mischievous-master", "cursed-consistency", "demon-discipline", "witching-hour",
        "sleepy-survivor"] := by
    rw [objectKeys_checkAchievements]
    decide
  have hnew : ∀ id ∈ ACHIEVEMENT_IDS,
      isUnlocked (checkAchievements (fixedOffsetZone 0) 1800000000000
        ⟨threeSleepySessions, 5⟩ [("mischievous-master", ⟨false, none⟩)]) id =
      specPredicate (fixedOffsetZone 0) 1800000000000 ⟨threeSleepySessions, 5⟩ id := by
    intro id hid
    apply isUnlocked_checkAchievements _ _ _ _ _ hid
    rw [ACHIEVEMENT_IDS_eq] at hid
    simp only [List.mem_cons, List.mem_singleton, List.not_mem_nil, or_false] at hid
    rcases hid with rfl | rfl | rfl | rfl | rfl <;> decide
  have h1 := hnew "cursed-consistency" (by decide)
  have h2 := hnew "demon-discipline" (by decide)
  have h3 := hnew "witching-hour" (by decide)
  have h4 := hnew "sleepy-survivor" (by decide)
  have h5 := hnew "mischievous-master" (by decide)
  have p1 : specPredicate (fixedOffsetZone 0) 1800000000000 ⟨threeSleepySessions, 5⟩
      "cursed-consistency" = false := by decide
  have p2 : specPredicate (fixedOffsetZone 0) 1800000000000 ⟨threeSleepySessions, 5⟩
      "demon-discipline" = false := by decide
  have p3 : specPredicate (fixedOffsetZone 0) 1800000000000 ⟨threeSleepySessions, 5⟩
      "witching-hour" = false := by decide
  have p4 : specPredicate (fixedOffsetZone 0) 1800000000000 ⟨threeSleepySessions, 5⟩
      "sleepy-survivor" = true := by decide
  have p5 : specPredicate (fixedOffsetZone 0) 1800000000000 ⟨threeSleepySessions, 5⟩
      "mischievous-master" = true := by decide
  rw [p1] at h1
  rw [p2] at h2
  rw [p3] at h3
  rw [p4] at h4
  rw [p5] at h5
  unfold getNewlyUnlockedAchievements
  rw [hk]
  simp [List.filter_cons, h1, h2, h3, h4, h5, isUnlocked, getEntry]

/-- C17, amended: when the catalog ids present in the prior state occur, in its key
order, as an initial segment of the catalog (as in the empty state, in
`DEFAULT_ACHIEVEMENT_STATE` and in every state `checkAchievements` returns from those), the
newly unlocked identifiers are the catalog ids that went from not unlocked to unlocked,
in catalog order. -/
theorem newlyUnlocked_catalog_order (tz : TimeZone) (now : ℤ) (d : AppData)
    (s : AchievementState)
    (hinit : (objectKeys s).filter (fun k => decide (k ∈ ACHIEVEMENT_IDS))
      <+: ACHIEVEMENT_IDS) :
    getNewlyUnlockedAchievements s (checkAchievements tz now d s) =
      ACHIEVEMENT_IDS.filter (fun id =>
        !isUnlocked s id && isUnlocked (checkAchievements tz now d s) id) ∧
    List.Sublist (getNewlyUnlockedAchievements s (checkAchievements tz now d s))
      ACHIEVEMENT_IDS := by
  have hkeys : (objectKeys (checkAchievements tz now d s)).filter
      (fun k => decide (k ∈ ACHIEVEMENT_IDS)) = ACHIEVEMENT_IDS := by
    rw [objectKeys_checkAchievements, List.filter_append]
    have hmiss : (ACHIEVEMENT_IDS.filter (fun k => decide (k ∉ objectKeys s))).filter
        (fun k => decide (k ∈ ACHIEVEMENT_IDS)) =
        ACHIEVEMENT_IDS.filter (fun k => decide (k ∉ objectKeys s)) := by
      rw [List.filter_eq_self]
      intro a ha
      simpa using (List.mem_filter.1 ha).1
    rw [hmiss]
    obtain ⟨q, hq⟩ := hinit
    have hnd : ((objectKeys s).filter (fun k => decide (k ∈ ACHIEVEMENT_IDS)) ++ q).Nodup := by
      rw [hq]
      exact nodup_ACHIEVEMENT_IDS
    have hdisj := (List.nodup_append.1 hnd).2.2
    have hfq : (ACHIEVEMENT_IDS.filter (fun k => decide (k ∉ objectKeys s))) = q := by
      conv_lhs => rw [← hq]
      rw [List.filter_append]
      have e1 : ((objectKeys s).filter (fun k => decide (k ∈ ACHIEVEMENT_IDS))).filter
          (fun k => decide (k ∉ objectKeys s)) = [] := by
        rw [List.filter_eq_nil_iff]
        intro a ha
        have := (List.mem_filter.1 ha).1
        simpa using this
      have e2 : q.filter (fun k => decide (k ∉ objectKeys s)) = q := by
        rw [List.filter_eq_self]
        intro a ha
        have hcat : a ∈ ACHIEVEMENT_IDS := by
          rw [← hq]
          exact List.mem_append_right _ ha
        simp only [decide_eq_true_eq]
        intro hmem
        have hp : a ∈ (objectKeys s).filter (fun k => decide (k ∈ ACHIEVEMENT_IDS)) :=
          List.mem_filter.2 ⟨hmem, by simpa using hcat⟩
        exact (List.disjoint_left.1 hdisj) hp ha
      rw [e1, e2, List.nil_append]
    rw [hfq, hq]
  have hmain : getNewlyUnlockedAchievements s (checkAchievements tz now d s) =
      ACHIEVEMENT_IDS.filter (fun id =>
        !isUnlocked s id && isUnlocked (checkAchievements tz now d s) id) := by
    unfold getNewlyUnlockedAchievements
    conv_rhs => rw [← hkeys]
    rw [List.filter_filter]
    apply List.filter_congr
    intro id _
    cases hP : (!isUnlocked s id && isUnlocked (checkAchievements tz now d s) id)
    · simp
    · have := newly_unlocked_in_catalog tz now d s id hP
      simp [this]
  refine ⟨hmain, ?_⟩
  rw [hmain]
  exact List.filter_sublist _

/-- Witness for C17 (amended): from `DEFAULT_ACHIEVEMENT_STATE` (all five ids, in catalog
order, locked), with three `sleepy` sessions and `mischiefCount = 5`. -/
theorem newlyUnlocked_catalog_order_witness :
    getNewlyUnlockedAchievements
        [("cursed-consistency", ⟨false, none⟩), ("demon-discipline", ⟨false, none⟩),
          ("witching-hour", ⟨false, none⟩), ("sleepy-survivor", ⟨false, none⟩),
          ("mischievous-master", ⟨false, none⟩)]
        (checkAchievements (fixedOffsetZone 0) 1800000000000 ⟨threeSleepySessions, 5⟩
          [("cursed-consistency", ⟨false, none⟩), ("demon-discipline", ⟨false, none⟩),
            ("witching-hour", ⟨false, none⟩), ("sleepy-survivor", ⟨false, none⟩),
            ("mischievous-master", ⟨false, none⟩)]) =
      ACHIEVEMENT_IDS.filter (fun id =>
        !isUnlocked
          [("cursed-consistency", ⟨false, none⟩), ("demon-discipline", ⟨false, none⟩),
            ("witching-hour", ⟨false, none⟩), ("sleepy-survivor", ⟨false, none⟩),
            ("mischievous-master", ⟨false, none⟩)] id &&
        isUnlocked (checkAchievements (fixedOffsetZone 0) 1800000000000
          ⟨threeSleepySessions, 5⟩
          [("cursed-consistency", ⟨false, none⟩), ("demon-discipline", ⟨false, none⟩),
            ("witching-hour", ⟨false, none⟩), ("sleepy-survivor", ⟨false, none⟩),
            ("mischievous-master", ⟨false, none⟩)]) id) ∧
    List.Sublist
      (getNewlyUnlockedAchievements
        [("cursed-consistency", ⟨false, none⟩), ("demon-discipline", ⟨false, none⟩),
          ("witching-hour", ⟨false, none⟩), ("sleepy-survivor", ⟨false, none⟩),
          ("mischievous-master", ⟨false, none⟩)]
        (checkAchievements (fixedOffsetZone 0) 1800000000000 ⟨threeSleepySessions, 5⟩
          [("cursed-consistency", ⟨false, none⟩), ("demon-discipline", ⟨false, none⟩),
            ("witching-hour", ⟨false, none⟩), ("sleepy-survivor", ⟨false, none⟩),
            ("mischievous-master", ⟨false, none⟩)]))
      ACHIEVEMENT_IDS :=
  newlyUnlocked_catalog_order (fixedOffsetZone 0) 1800000000000 ⟨threeSleepySessions, 5⟩
    [("cursed-consistency", ⟨false, none⟩), ("demon-discipline", ⟨false, none⟩),
      ("witching-hour", ⟨false, none⟩), ("sleepy-survivor", ⟨false, none⟩),
      ("mischievous-master", ⟨false, none⟩)]
    (by decide)

/-! ## Theorems: the session record -/

/-- The record appended for a completed study session that ran without pause from `t0`
on a fresh machine and was detected complete by the tick at `t1`: its duration, completed
flag and session type are those of the session, and its `startTime` is `t1`. -/
theorem session_record_of_study_completion (sd rd : ℚ) (c : JSValue) (t0 t1 : ℤ)
    (id ghostEmotion : String) (prev : List Session)
    (hs : 25 ≤ sd ∧ sd ≤ 90) (hr : 5 ≤ rd ∧ rd ≤ 20)
    (helapsed : sd * 60 ≤ (((t1 - t0) / 1000 : ℤ) : ℚ)) :
    (tick (start (useTimer ⟨.number (.fin sd), .number (.fin rd), c⟩) t0) t1).2.foldl
        (onTimerEvent id ghostEmotion) prev
      = prev ++ [⟨id, t1, sd, true, ghostEmotion, .study⟩] := by
  have hvs : isValidStudyDuration (.number (.fin sd)) = true :=
    (isValidStudyDuration_iff _).2 ⟨sd, rfl, hs.1, hs.2⟩
  have hvr : isValidRestDuration (.number (.fin rd)) = true :=
    (isValidRestDuration_iff _).2 ⟨rd, rfl, hr.1, hr.2⟩
  have hle : sd * 60 - (((t1 - t0) / 1000 : ℤ) : ℚ) ≤ 0 := by linarith
  simp [tick, start, useTimer, JSValue.orDefault, JSValue.toRat, hvs, hvr, hle,
    transitionToRest, onTimerEvent, handleSessionComplete]

/-- C20, failing input: the default 25-minute study session started at `t0 = 0` and run
without pause completes on the tick at `t1 = 1500000`; the record appended to the empty
history has `duration = 25`, `completed = true`, `sessionType = study`, and
`startTime = 1500000`, the moment of completion, not the moment `0` the session began. -/
theorem session_record_startTime_failure :
    (tick (start (useTimer ⟨.undefined, .undefined, .undefined⟩) 0) 1500000).2.foldl
        (onTimerEvent "session-1" "sleepy") []
      = [⟨"session-1", 1500000, 25, true, "sleepy", .study⟩] ∧
    (1500000 : ℤ) ≠ 0 := by
  refine ⟨?_, by norm_num⟩
  norm_num [tick, start, useTimer, JSValue.orDefault, JSValue.toRat, isValidStudyDuration,
    isValidRestDuration, isValidCycleCount, JSNumber.geConst, JSNumber.leConst,
    JSNumber.isInteger, transitionToRest, onTimerEvent, handleSessionComplete]

/-! ## Theorems: setters, countdown and pause -/

/-- C25: a successful `setStudyDuration(m)` sets `currentTime` to `m*60` in the paused
study session and leaves it unchanged in every other state; a successful
`setRestDuration(m)` does so for the paused rest session; in all cases `sessionType`,
`isActive` and `cyclesCompleted` are unchanged. -/
theorem setters_frame (s : TimerState) (m : ℚ) :
    (if 25 ≤ m ∧ m ≤ 90 then
      (setStudyDuration s (.number (.fin m))).2.success = true ∧
      (setStudyDuration s (.number (.fin m))).1.currentTime =
        (if s.sessionType = .study ∧ s.isActive = false then m * 60 else s.currentTime) ∧
      (setStudyDuration s (.number (.fin m))).1.sessionType = s.sessionType ∧
      (setStudyDuration s (.number (.fin m))).1.isActive = s.isActive ∧
      (setStudyDuration s (.number (.fin m))).1.cyclesCompleted = s.cyclesCompleted
     else (setStudyDuration s (.number (.fin m))).2.success = false) ∧
    (if 5 ≤ m ∧ m ≤ 20 then
      (setRestDuration s (.number (.fin m))).2.success = true ∧
      (setRestDuration s (.number (.fin m))).1.currentTime =
        (if s.sessionType = .rest ∧ s.isActive = false then m * 60 else s.currentTime) ∧
      (setRestDuration s (.number (.fin m))).1.sessionType = s.sessionType ∧
      (setRestDuration s (.number (.fin m))).1.isActive = s.isActive ∧
      (setRestDuration s (.number (.fin m))).1.cyclesCompleted = s.cyclesCompleted
     else (setRestDuration s (.number (.fin m))).2.success = false) := by
  constructor
  · by_cases hm : 25 ≤ m ∧ m ≤ 90
    · have hv : isValidStudyDuration (.number (.fin m)) = true :=
        (isValidStudyDuration_iff _).2 ⟨m, rfl, hm.1, hm.2⟩
      rw [if_pos hm]
      cases hty : s.sessionType <;> cases hact : s.isActive <;>
        simp [setStudyDuration, hv, hty, hact, JSValue.toRat, rest_ne_study]
    · have hv : isValidStudyDuration (.number (.fin m)) = false := by
        rw [Bool.eq_false_iff]
        intro h
        obtain ⟨q, hq, h1, h2⟩ := (isValidStudyDuration_iff _).1 h
        simp only [JSValue.number.injEq, JSNumber.fin.injEq] at hq
        exact hm ⟨hq ▸ h1, hq ▸ h2⟩
      rw [if_neg hm]
      simp [setStudyDuration, hv]
  · by_cases hm : 5 ≤ m ∧ m ≤ 20
    · have hv : isValidRestDuration (.number (.fin m)) = true :=
        (isValidRestDuration_iff _).2 ⟨m, rfl, hm.1, hm.2⟩
      rw [if_pos hm]
      cases hty : s.sessionType <;> cases hact : s.isActive <;>
        simp [setRestDuration, hv, hty, hact, JSValue.toRat, rest_ne_study.symm]
    · have hv : isValidRestDuration (.number (.fin m)) = false := by
        rw [Bool.eq_false_iff]
        intro h
        obtain ⟨q, hq, h1, h2⟩ := (isValidRestDuration_iff _).1 h
        simp only [JSValue.number.injEq, JSNumber.fin.injEq] at hq
        exact hm ⟨hq ▸ h1, hq ▸ h2⟩
      rw [if_neg hm]
      simp [setRestDuration, hv]

/-- A tick of an active machine whose remaining time stays positive only updates
`currentTime`, to the baseline minus the whole elapsed seconds, and emits nothing. -/
theorem tick_running (s : TimerState) (t0 : ℤ) (b : ℚ) (now : ℤ)
    (hact : s.isActive = true) (hst : s.startTimeRef = some t0)
    (hpt : s.pausedTimeRef = some b) (hpos : (((now - t0) / 1000 : ℤ) : ℚ) < b) :
    tick s now = ({ s with currentTime := b - (((now - t0) / 1000 : ℤ) : ℚ) }, []) := by
  have hn : ¬ (b - (((now - t0) / 1000 : ℤ) : ℚ) ≤ 0) := by linarith
  simp [tick, hact, hst, hpt, hn]

/-- Ticks at non-decreasing times that all stay before completion leave the machine as
the last of them alone would. -/
theorem runTicks_running (ts : List ℤ) : ∀ (s : TimerState) (t0 : ℤ) (b : ℚ) (tprev tk : ℤ),
    s.isActive = true → s.startTimeRef = some t0 → s.pausedTimeRef = some b →
    List.Chain (fun x y => x ≤ y) tprev ts → (tprev :: ts).getLast? = some tk →
    (((tk - t0) / 1000 : ℤ) : ℚ) < b →
    runTicks s ts =
      (if ts = [] then s else { s with currentTime := b - (((tk - t0) / 1000 : ℤ) : ℚ) },
        []) := by
  induction ts with
  | nil => intro s t0 b tprev tk _ _ _ _ _ _; simp [runTicks]
  | cons t rest ih =>
    intro s t0 b tprev tk hact hst hpt hchain hlast hlt
    rw [List.chain_cons] at hchain
    have hlast' : (t :: rest).getLast? = some tk := by
      simpa [List.getLast?_cons_cons] using hlast
    have htk : t ≤ tk := by
      have hrel : ∀ y ∈ t :: rest, t ≤ y := by
        intro y hy
        rcases List.mem_cons.1 hy with rfl | hy
        · exact le_refl _
        · exact (List.Chain.rel (l := rest) hchain.2 hy)
      exact hrel tk (List.mem_of_getLast?_eq_some hlast')
    have hmono : (((t - t0) / 1000 : ℤ) : ℚ) ≤ (((tk - t0) / 1000 : ℤ) : ℚ) := by
      have : (t - t0) / 1000 ≤ (tk - t0) / 1000 :=
        Int.ediv_le_ediv (by norm_num) (by omega)
      exact_mod_cast this
    have htick := tick_running s t0 b t hact hst hpt (lt_of_le_of_lt hmono hlt)
    have hrec := ih { s with currentTime := b - (((t - t0) / 1000 : ℤ) : ℚ) } t0 b t tk
      hact hst hpt hchain.2 hlast' hlt
    simp only [runTicks, htick, hrec, List.nil_append]
    by_cases hr : rest = []
    · subst hr
      simp only [List.getLast?_singleton, Option.some.injEq] at hlast'
      subst hlast'
      simp
    · simp [hr]

/-- C26: after `start()` at `t0` in a paused state with `currentTime = b`, any non-empty
sequence of ticks at non-decreasing times from `t0` on, the last one at `tk` with
`floor((tk - t0)/1000) < b`, leaves `currentTime = b - floor((tk - t0)/1000)`: the state a
single tick at `tk` gives, with no callback fired; and `start()` on an active machine
changes nothing. -/
theorem countdown_drift_free (s : TimerState) (t0 tk : ℤ) (ts : List ℤ) (now : ℤ)
    (hpaused : s.isActive = false) (hne : ts ≠ [])
    (hchain : List.Chain (fun x y => x ≤ y) t0 ts) (hlast : ts.getLast? = some tk)
    (hlt : (((tk - t0) / 1000 : ℤ) : ℚ) < s.currentTime) :
    (runTicks (start s t0) ts).1.currentTime
        = s.currentTime - (((tk - t0) / 1000 : ℤ) : ℚ) ∧
    runTicks (start s t0) ts = (tick (start s t0) tk) ∧
    (runTicks (start s t0) ts).2 = [] ∧
    start (start s t0) now = start s t0 := by
  have hact : (start s t0).isActive = true := by simp [start, hpaused]
  have hst : (start s t0).startTimeRef = some t0 := by simp [start, hpaused]
  have hpt : (start s t0).pausedTimeRef = some s.currentTime := by simp [start, hpaused]
  have hlast' : (t0 :: ts).getLast? = some tk := by
    cases ts with
    | nil => exact absurd rfl hne
    | cons a r => simpa [List.getLast?_cons_cons] using hlast
  have hrun := runTicks_running ts (start s t0) t0 s.currentTime t0 tk hact hst hpt hchain
    hlast' hlt
  have htick := tick_running (start s t0) t0 s.currentTime tk hact hst hpt hlt
  rw [if_neg hne] at hrun
  refine ⟨?_, ?_, ?_, ?_⟩
  · rw [hrun]
  · rw [hrun, htick]
  · rw [hrun]
  · simp [start, hpaused]

/-- Witness for C26: the default machine started at 0 and ticked at 100, 250, 1000 and
61999 ms shows `1500 - 61 = 1439` seconds. -/
theorem countdown_drift_free_witness :
    (runTicks (start (useTimer ⟨.undefined, .undefined, .undefined⟩) 0)
        [100, 250, 1000, 61999]).1.currentTime
        = (useTimer ⟨.undefined, .undefined, .undefined⟩).currentTime
            - ((((61999 : ℤ) - 0) / 1000 : ℤ) : ℚ) ∧
    runTicks (start (useTimer ⟨.undefined, .undefined, .undefined⟩) 0)
        [100, 250, 1000, 61999]
      = tick (start (useTimer ⟨.undefined, .undefined, .undefined⟩) 0) 61999 ∧
    (runTicks (start (useTimer ⟨.undefined, .undefined, .undefined⟩) 0)
        [100, 250, 1000, 61999]).2 = [] ∧
    start (start (useTimer ⟨.undefined, .undefined, .undefined⟩) 0) 5
      = start (useTimer ⟨.undefined, .undefined, .undefined⟩) 0 :=
  countdown_drift_free (useTimer ⟨.undefined, .undefined, .undefined⟩) 0 61999
    [100, 250, 1000, 61999] 5 rfl (by simp) (by simp) (by simp)
    (by norm_num [useTimer, JSValue.orDefault, JSValue.toRat, isValidStudyDuration,
      JSNumber.geConst, JSNumber.leConst])

/-- C27: `pause()` on a paused machine changes nothing; on an active machine it only sets
`isActive` to false; a tick on a paused machine, at any time, returns the state
unchanged with no event, in particular on the initial state, after `pause()`, after
`reset()` and after either session-completion transition; and a tick that emits an event
leaves the machine paused. -/
theorem pause_and_paused_ticks (s : TimerState) (cfg : TimerConfig) (now later : ℤ) :
    pause { s with isActive := false } = { s with isActive := false } ∧
    pause { s with isActive := true } = { s with isActive := false } ∧
    tick { s with isActive := false } now = ({ s with isActive := false }, []) ∧
    tick (useTimer cfg) now = (useTimer cfg, []) ∧
    tick (pause s) now = (pause s, []) ∧
    tick (reset s) now = (reset s, []) ∧
    tick (transitionToRest s now).1 later = ((transitionToRest s now).1, []) ∧
    tick (completeRestSession s now).1 later = ((completeRestSession s now).1, []) ∧
    ((tick s now).2 = [] ∨ (tick s now).1.isActive = false) := by
  refine ⟨?_, ?_, ?_, ?_, ?_, ?_, ?_, ?_, ?_⟩
  · simp [pause]
  · simp [pause]
  · simp [tick]
  · simp [tick, useTimer]
  · cases h : s.isActive <;> simp [tick, pause, h]
  · simp [tick, reset]
  · simp [tick, transitionToRest]
  · unfold completeRestSession
    simp only
    split <;> simp [tick]
  · cases hact : s.isActive
    · simp [tick, hact]
    · by_cases hz : s.pausedTimeRef.getD 0 -
          (((now - s.startTimeRef.getD 0) / 1000 : ℤ) : ℚ) ≤ 0
      · cases hty : s.sessionType
        · simp [tick, hact, hz, hty, transitionToRest]
        · simp only [tick, hact, hz, hty, if_true, rest_ne_study, if_false]
          unfold completeRestSession
          simp only
          split <;> simp
      · simp [tick, hact, hz]

/-! ## Theorems: antitone streaks and idempotent passes -/

/-- The scan is antitone in the target and monotone in the starting count. -/
theorem consecutiveScan_antitone (m n : ℤ) (hmn : m ≤ n) (l : List ℤ) : ∀ (c c' : ℤ),
    c ≤ c' → consecutiveScan n l c = true → consecutiveScan m l c' = true := by
  induction l with
  | nil =>
    intro c c' hc h
    simp only [consecutiveScan, decide_eq_true_eq] at h ⊢
    omega
  | cons a rest ih =>
    intro c c' hc h
    cases rest with
    | nil =>
      rw [consecutiveScan_singleton, decide_eq_true_eq] at h ⊢
      omega
    | cons b rest' =>
      rw [consecutiveScan_cons_cons] at h ⊢
      by_cases hd : a - b = msPerDay
      · rw [if_pos hd] at h ⊢
        by_cases hm : m ≤ c' + 1
        · rw [if_pos hm]
        · rw [if_neg hm]
          have hn : ¬ n ≤ c + 1 := by omega
          rw [if_neg hn] at h
          exact ih (c + 1) (c' + 1) (by omega) h
      · rw [if_neg hd] at h ⊢
        exact ih 1 1 (le_refl _) h

/-- Antitonicity of `hasConsecutiveDays` in the number of days, in every zone. -/
theorem hasConsecutiveDays_antitone (tz : TimeZone) (h : List Session) (m n : ℤ)
    (h1 : 1 ≤ m) (hmn : m ≤ n) (hn : hasConsecutiveDays tz h n = true) :
    hasConsecutiveDays tz h m = true := by
  unfold hasConsecutiveDays at hn ⊢
  by_cases hc : h.length = 0 ∨ n ≤ 0
  · rw [if_pos hc] at hn
    cases hn
  · rw [if_neg hc] at hn
    have hc' : ¬ (h.length = 0 ∨ m ≤ 0) := by
      intro h'
      rcases h' with h' | h'
      · exact hc (Or.inl h')
      · omega
    rw [if_neg hc']
    by_cases hlen : ((sessionDates tz h).length : ℤ) < n
    · rw [if_pos hlen] at hn
      cases hn
    · rw [if_neg hlen] at hn
      have hlen' : ¬ ((sessionDates tz h).length : ℤ) < m := by omega
      rw [if_neg hlen']
      exact consecutiveScan_antitone m n hmn _ 1 1 (le_refl _) hn

/-- For an antitone test, the scan with `break` finds the largest `d` in `1..7` at
which the test holds. -/
theorem consistencyScan_eq_largest (p : ℕ → Bool)
    (hanti : ∀ m n : ℕ, 1 ≤ m → m ≤ n → n ≤ 7 → p n = true → p m = true) :
    consistencyScan p 7 1 0 = largestStreak p := by
  have hr : List.range 8 = [0, 1, 2, 3, 4, 5, 6, 7] := by decide
  unfold largestStreak
  rw [hr]
  cases h7 : p 7
  · cases h6 : p 6
    · cases h5 : p 5
      · cases h4 : p 4
        · cases h3 : p 3
          · cases h2 : p 2
            · cases h1 : p 1
              · simp [consistencyScan, h1, h2, h3, h4, h5, h6, h7, List.filter]
              · simp [consistencyScan, h1, h2, h3, h4, h5, h6, h7, List.filter]
            · have h1 := hanti 1 2 (by norm_num) (by norm_num) (by norm_num) h2
              simp [consistencyScan, h1, h2, h3, h4, h5, h6, h7, List.filter]
          · have h2 := hanti 2 3 (by norm_num) (by norm_num) (by norm_num) h3
            have h1 := hanti 1 3 (by norm_num) (by norm_num) (by norm_num) h3
            simp [consistencyScan, h1, h2, h3, h4, h5, h6, h7, List.filter]
        · have h3 := hanti 3 4 (by norm_num) (by norm_num) (by norm_num) h4
          have h2 := hanti 2 4 (by norm_num) (by norm_num) (by norm_num) h4
          have h1 := hanti 1 4 (by norm_num) (by norm_num) (by norm_num) h4
          simp [consistencyScan, h1, h2, h3, h4, h5, h6, h7, List.filter]
      · have h4 := hanti 4 5 (by norm_num) (by norm_num) (by norm_num) h5
        have h3 := hanti 3 5 (by norm_num) (by norm_num) (by norm_num) h5
        have h2 := hanti 2 5 (by norm_num) (by norm_num) (by norm_num) h5
        have h1 := hanti 1 5 (by norm_num) (by norm_num) (by norm_num) h5
        simp [consistencyScan, h1, h2, h3, h4, h5, h6, h7, List.filter]
    · have h5 := hanti 5 6 (by norm_num) (by norm_num) (by norm_num) h6
      have h4 := hanti 4 6 (by norm_num) (by norm_num) (by norm_num) h6
      have h3 := hanti 3 6 (by norm_num) (by norm_num) (by norm_num) h6
      have h2 := hanti 2 6 (by norm_num) (by norm_num) (by norm_num) h6
      have h1 := hanti 1 6 (by norm_num) (by norm_num) (by norm_num) h6
      simp [consistencyScan, h1, h2, h3, h4, h5, h6, h7, List.filter]
  · have h6 := hanti 6 7 (by norm_num) (by norm_num) (by norm_num) h7
    have h5 := hanti 5 7 (by norm_num) (by norm_num) (by norm_num) h7
    have h4 := hanti 4 7 (by norm_num) (by norm_num) (by norm_num) h7
    have h3 := hanti 3 7 (by norm_num) (by norm_num) (by norm_num) h7
    have h2 := hanti 2 7 (by norm_num) (by norm_num) (by norm_num) h7
    have h1 := hanti 1 7 (by norm_num) (by norm_num) (by norm_num) h7
    simp [consistencyScan, h1, h2, h3, h4, h5, h6, h7, List.filter]

/-- The streak found by the loop of `calculateProductivityScore` is the largest `d` in
`1..7` with `hasConsecutiveDays(history, d)` true. -/
theorem consistencyScan_eq_largestStreak (tz : TimeZone) (h : List Session) :
    consistencyScan (fun d => hasConsecutiveDays tz h (d : ℤ)) 7 1 0 =
      largestStreak (fun d => hasConsecutiveDays tz h (d : ℤ)) := by
  apply consistencyScan_eq_largest
  intro m n h1 hmn _ hn
  exact hasConsecutiveDays_antitone tz h m n (by exact_mod_cast h1) (by exact_mod_cast hmn) hn

/-- C28: for `1 ≤ m ≤ n`, `hasConsecutiveDays(history, n)` implies
`hasConsecutiveDays(history, m)`; and the scan of `calculateProductivityScore`, which
stops at the first failing `d`, returns the largest `d` in `1..7` for which
`hasConsecutiveDays(history, d)` is true (`0` if none). -/
theorem streak_antitone (tz : TimeZone) (h : List Session) (m n : ℤ)
    (h1 : 1 ≤ m) (hmn : m ≤ n) :
    (hasConsecutiveDays tz h n = true → hasConsecutiveDays tz h m = true) ∧
    consistencyScan (fun d => hasConsecutiveDays tz h (d : ℤ)) 7 1 0 =
      largestStreak (fun d => hasConsecutiveDays tz h (d : ℤ)) :=
  ⟨hasConsecutiveDays_antitone tz h m n h1 hmn, consistencyScan_eq_largestStreak tz h⟩

/-- Witness for C28: the three sessions of 1, 2 and 3 January 2024, with `m = 2` and
`n = 3`. -/
theorem streak_antitone_witness :
    (hasConsecutiveDays (fixedOffsetZone 0) threeSleepySessions 3 = true →
      hasConsecutiveDays (fixedOffsetZone 0) threeSleepySessions 2 = true) ∧
    consistencyScan (fun d => hasConsecutiveDays (fixedOffsetZone 0) threeSleepySessions
        (d : ℤ)) 7 1 0 =
      largestStreak (fun d => hasConsecutiveDays (fixedOffsetZone 0) threeSleepySessions
        (d : ℤ)) :=
  streak_antitone (fixedOffsetZone 0) threeSleepySessions 2 3 (by norm_num) (by norm_num)

/-- A fold whose every step is the identity on the start value returns it. -/
theorem foldl_fixed {α β : Type} (f : α → β → α) (r : α) (l : List β)
    (h : ∀ b ∈ l, f r b = r) : l.foldl f r = r := by
  induction l with
  | nil => rfl
  | cons b rest ih =>
    rw [List.foldl_cons, h b (List.mem_cons_self _ _)]
    exact ih (fun x hx => h x (List.mem_cons_of_mem _ hx))

/-- On the result of a pass, the step for any catalog achievement changes nothing (same
app data, same clock). -/
theorem checkOne_fixed (tz : TimeZone) (now : ℤ) (d : AppData) (s : AchievementState)
    (a : Achievement) (ha : a ∈ ACHIEVEMENTS) :
    checkOne tz now d (checkAchievements tz now d s) a = checkAchievements tz now d s := by
  have hget : getEntry (checkAchievements tz now d s) a.id =
      expectedEntry (getEntry s a.id) (checkAchievementCondition tz now a d) now :=
    getEntry_foldl_mem tz now d ACHIEVEMENTS s a nodup_ACHIEVEMENT_IDS ha
  unfold checkOne isUnlocked
  simp only [hget]
  cases hg : getEntry s a.id with
  | none =>
    cases hc : checkAchievementCondition tz now a d <;> simp [expectedEntry]
  | some e =>
    cases hu : e.unlocked <;> cases hc : checkAchievementCondition tz now a d <;>
      simp [expectedEntry, hu]

/-- C29: with the clock held fixed, a second pass of `checkAchievements` on the result of
the first returns that result unchanged; nothing is newly unlocked between the result and
itself; and entries whose key is not a catalog id are carried through unchanged. -/
theorem checkAchievements_idempotent (tz : TimeZone) (now : ℤ) (d : AppData)
    (s : AchievementState) :
    checkAchievements tz now d (checkAchievements tz now d s) = checkAchievements tz now d s ∧
    getNewlyUnlockedAchievements (checkAchievements tz now d s)
      (checkAchievements tz now d s) = [] ∧
    (∀ k : String, k ∉ ACHIEVEMENT_IDS →
      getEntry (checkAchievements tz now d s) k = getEntry s k) := by
  refine ⟨?_, ?_, fun k hk => getEntry_checkAchievements_other tz now d s k hk⟩
  · conv_lhs => unfold checkAchievements
    exact foldl_fixed _ _ _ (fun a ha => checkOne_fixed tz now d s a ha)
  · unfold getNewlyUnlockedAchievements
    rw [List.filter_eq_nil_iff]
    intro a _
    cases isUnlocked (checkAchievements tz now d s) a <;> simp

/-! ## Theorems: monotonicity of the streak and of the score -/

/-- A zone in which every local day is longer than 12 hours is orderly. -/
theorem TimeZone.orderly_of_long_days (tz : TimeZone)
    (hlong : ∀ d : ℤ, tz.midnight d + 43200000 < tz.midnight (d + 1)) : tz.Orderly := by
  have hadd : ∀ (d : ℤ) (k : ℕ),
      tz.midnight d + (k : ℤ) * 43200001 ≤ tz.midnight (d + (k : ℤ)) := by
    intro d k
    induction k with
    | zero => simp
    | succ k ih =>
      have := hlong (d + (k : ℤ))
      have e : d + ((k + 1 : ℕ) : ℤ) = d + (k : ℤ) + 1 := by push_cast; ring
      rw [e]
      push_cast
      linarith
  intro t u htu
  obtain ⟨k, hk⟩ := Int.eq_ofNat_of_zero_le (show 0 ≤ tz.dayOf u - tz.dayOf t by omega)
  have hd : tz.dayOf u = tz.dayOf t + (k : ℤ) := by omega
  have hk1 : 1 ≤ (k : ℤ) := by omega
  have := hadd (tz.dayOf t) k
  rw [← hd] at this
  linarith

/-- In an orderly zone the session dates are strictly descending, and two of them exactly
24 hours apart have none between them. -/
theorem gapsAdjacent_sessionDates (tz : TimeZone) (ho : tz.Orderly) (h : List Session) :
    GapsAdjacent (sessionDates tz h) := by
  constructor
  · have hboth := (sorted_sessionDates tz h).and (nodup_sessionDates tz h)
    refine List.Pairwise.imp ?_ hboth
    intro x y hxy
    exact lt_of_le_of_ne hxy.1 (fun e => hxy.2 e.symm)
  · intro x hx z hz hxp hbetween
    obtain ⟨sx, -, -, hsx⟩ := (mem_sessionDates tz h x).1 hx
    obtain ⟨sz, -, -, hsz⟩ := (mem_sessionDates tz h z).1 hz
    obtain ⟨se, -, -, hse⟩ := (mem_sessionDates tz h _).1 hxp
    unfold localMidnight at hsx hsz hse
    rw [msPerDay_eq] at hse hbetween
    have h1 : tz.dayOf se.startTime < tz.dayOf sz.startTime := by
      by_contra hge
      rcases lt_or_eq_of_le (not_lt.1 hge) with hlt | heq
      · have := ho _ _ hlt
        omega
      · rw [heq] at hsz
        omega
    have h2 : tz.dayOf sz.startTime < tz.dayOf sx.startTime := by
      by_contra hge
      rcases lt_or_eq_of_le (not_lt.1 hge) with hlt | heq
      · have := ho _ _ hlt
        omega
      · rw [← heq] at hsz
        omega
    have := ho _ _ h1
    have := ho _ _ h2
    omega

/-- The tail of a list with adjacent gaps has adjacent gaps. -/
theorem GapsAdjacent.tail {a : ℤ} {l : List ℤ} (h : GapsAdjacent (a :: l)) :
    GapsAdjacent l :=
  ⟨(List.pairwise_cons.1 h.1).2, fun x hx z hz hxp =>
    h.2 x (List.mem_cons_of_mem _ hx) z (List.mem_cons_of_mem _ hz)
      (List.mem_cons_of_mem _ hxp)⟩

/-- Correctness of the scan on any strictly descending list of dates in which 24-hour
gaps are adjacent: started at head `a` with count `c` (either `1` or still below the
target), the scan answers whether the counted dates contain a run of `n`. -/
theorem consecutiveScan_iff_adjacent (n : ℤ) (rest : List ℤ) : ∀ (a c : ℤ),
    GapsAdjacent (a :: rest) → 1 ≤ c → (c < n ∨ c = 1) →
    (consecutiveScan n (a :: rest) c = true ↔ HasRun (Counted (a :: rest) a c) n) := by
  induction rest with
  | nil =>
    intro a c _ hc _
    rw [consecutiveScan_singleton, decide_eq_true_eq]
    constructor
    · intro hn
      refine ⟨a, fun i hi0 hin => ?_⟩
      by_cases h0 : i = 0
      · left
        subst h0
        simp
      · right
        exact ⟨i, by omega, by omega, rfl⟩
    · rintro ⟨M, hM⟩
      by_contra hlt
      have hn : 1 ≤ n := by omega
      have := run_in_counted_le a c n M hn
        (fun i h0 h1 => Counted.above hc (hM i h0 h1) (List.not_mem_nil _))
      omega
  | cons b rest ih =>
    intro a c hga hc hcn
    have hpw := List.pairwise_cons.1 hga.1
    have hba : b < a := hpw.1 b (List.mem_cons_self _ _)
    have hb_max : ∀ y ∈ b :: rest, y ≤ b := by
      intro y hy
      rcases List.mem_cons.1 hy with hy | hy
      · exact le_of_eq hy
      · exact le_of_lt ((List.pairwise_cons.1 hpw.2).1 y hy)
    rw [consecutiveScan_cons_cons]
    by_cases hd : a - b = msPerDay
    · rw [if_pos hd]
      by_cases hn : n ≤ c + 1
      · rw [if_pos hn]
        simp only [true_iff]
        refine ⟨b, fun i hi0 hin => ?_⟩
        by_cases h0 : i = 0
        · left
          subst h0
          simp
        · by_cases h1 : i = 1
          · left
            subst h1
            have : b + 1 * msPerDay = a := by omega
            rw [this]
            exact List.mem_cons_self _ _
          · right
            refine ⟨i - 1, by omega, by omega, ?_⟩
            rw [msPerDay_eq] at hd ⊢
            omega
      · rw [if_neg hn]
        rw [ih b (c + 1) hga.tail (by omega) (Or.inl (by omega))]
        constructor <;> apply HasRun.mono
        · intro x hx
          rcases hx with hx | ⟨j, hj1, hj2, hj3⟩
          · left
            exact List.mem_cons_of_mem _ hx
          · by_cases hj : j = 1
            · left
              subst hj
              have : x = a := by rw [hj3]; omega
              rw [this]
              exact List.mem_cons_self _ _
            · right
              refine ⟨j - 1, by omega, by omega, ?_⟩
              rw [hj3]
              rw [msPerDay_eq] at hd ⊢
              omega
        · intro x hx
          rcases hx with hx | ⟨j, hj1, hj2, hj3⟩
          · rcases List.mem_cons.1 hx with hx | hx
            · right
              exact ⟨1, le_refl _, by omega, by rw [hx]; omega⟩
            · left
              exact hx
          · right
            refine ⟨j + 1, by omega, by omega, ?_⟩
            rw [hj3]
            rw [msPerDay_eq] at hd ⊢
            omega
    · rw [if_neg hd]
      rw [ih b 1 hga.tail (le_refl _) (Or.inr rfl)]
      have hnot : a - msPerDay ∉ b :: rest := by
        intro hmem
        have hle := hb_max _ hmem
        have hne : a - msPerDay ≠ b := fun e => hd (by omega)
        exact hga.2 a (List.mem_cons_self _ _) b
          (List.mem_cons_of_mem _ (List.mem_cons_self _ _)) (List.mem_cons_of_mem _ hmem)
          ⟨lt_of_le_of_ne hle hne, hba⟩
      constructor
      · apply HasRun.mono
        intro x hx
        rcases hx with hx | ⟨j, hj1, hj2, _⟩
        · left
          exact List.mem_cons_of_mem _ hx
        · omega
      · rintro ⟨M, hM⟩
        by_cases hn1 : n ≤ 1
        · refine ⟨b, fun i hi0 hin => ?_⟩
          have : i = 0 := by omega
          subst this
          left
          simp
        · have hn : 1 ≤ n := by omega
          have hcn' : c < n := by rcases hcn with h | h <;> omega
          by_cases hMb : M ≤ b
          · have key : ∀ k : ℕ, (k : ℤ) < n →
                M + (k : ℤ) * msPerDay ∈ b :: rest := by
              intro k
              induction k with
              | zero =>
                intro hk
                have h0 := hM 0 (le_refl _) hk
                refine Counted.below (by simpa using h0) ?_
                rw [msPerDay_eq]
                omega
              | succ k ihk =>
                intro hk
                have hin := ihk (by omega)
                have hprev := hb_max _ hin
                have hnext := hM ((k : ℤ) + 1) (by omega) (by exact_mod_cast hk)
                have hcast : M + ((k + 1 : ℕ) : ℤ) * msPerDay =
                    M + ((k : ℤ) + 1) * msPerDay := by push_cast; ring
                rw [hcast]
                rcases hnext with hmem | ⟨j, hj1, hj2, hj3⟩
                · rcases List.mem_cons.1 hmem with heq | hmem'
                  · exfalso
                    apply hnot
                    have : a - msPerDay = M + (k : ℤ) * msPerDay := by
                      rw [← heq]; ring
                    rw [this]
                    exact hin
                  · exact hmem'
                · exfalso
                  rw [msPerDay_eq] at hj3 hprev
                  omega
            refine ⟨M, fun i hi0 hin => ?_⟩
            left
            obtain ⟨k, rfl⟩ := Int.eq_ofNat_of_zero_le hi0
            exact key k hin
          · exfalso
            have := run_in_counted_le a c n M hn (fun i h0 h1 => by
              refine Counted.above hc (hM i h0 h1) (fun hmem => ?_)
              have := hb_max _ hmem
              rw [msPerDay_eq] at this
              omega)
            omega

/-- In an orderly zone, `hasConsecutiveDays(history, n)` holds exactly when `n ≥ 1` and
the session dates contain `n` dates spaced 24 hours apart. -/
theorem hasConsecutiveDays_iff_hasRun (tz : TimeZone) (ho : tz.Orderly) (h : List Session)
    (n : ℤ) :
    hasConsecutiveDays tz h n = true ↔
      1 ≤ n ∧ HasRun (fun x => x ∈ sessionDates tz h) n := by
  unfold hasConsecutiveDays
  by_cases hn : n ≤ 0
  · simp only [hn, or_true, if_true, Bool.false_eq_true, false_iff]
    intro hh
    omega
  have hn1 : 1 ≤ n := by omega
  by_cases hlen : (sessionDates tz h).length < n
  · have hnone : ¬ HasRun (fun x => x ∈ sessionDates tz h) n := fun hs =>
      absurd hs.le_length (by omega)
    by_cases hemp : h.length = 0
    · rw [if_pos (Or.inl hemp)]
      simp [hnone]
    · rw [if_neg (by simp [hemp, hn]), if_pos hlen]
      simp [hnone]
  · have hne : h.length ≠ 0 := by
      intro h0
      have hnil : h = [] := List.length_eq_zero.1 h0
      have : (sessionDates tz h).length = 0 := by
        rw [List.length_eq_zero, List.eq_nil_iff_forall_not_mem]
        intro x hx
        obtain ⟨s, hs, -⟩ := (mem_sessionDates tz h x).1 hx
        rw [hnil] at hs
        cases hs
      omega
    rw [if_neg (by simp [hne, hn]), if_neg hlen]
    cases hL : sessionDates tz h with
    | nil =>
      rw [hL] at hlen
      simp at hlen
      omega
    | cons a rest =>
      have hga := gapsAdjacent_sessionDates tz ho h
      rw [hL] at hga
      rw [consecutiveScan_iff_adjacent n rest a 1 hga (le_refl _) (Or.inr rfl)]
      simp only [hn1, true_and]
      constructor <;> apply HasRun.mono
      · intro x hx
        rcases hx with hx | ⟨j, hj1, hj2, -⟩
        · exact hx
        · omega
      · intro x hx
        exact Or.inl hx

/-- In an orderly zone, appending a session does not break a streak. -/
theorem hasConsecutiveDays_append (tz : TimeZone) (ho : tz.Orderly) (h : List Session)
    (x : Session) (n : ℤ) (hn : hasConsecutiveDays tz h n = true) :
    hasConsecutiveDays tz (h ++ [x]) n = true := by
  rw [hasConsecutiveDays_iff_hasRun tz ho] at hn ⊢
  refine ⟨hn.1, HasRun.mono ?_ hn.2⟩
  intro d hd
  obtain ⟨s, hs, hc, hm⟩ := (mem_sessionDates tz h d).1 hd
  exact (mem_sessionDates tz (h ++ [x]) d).2 ⟨s, List.mem_append_left _ hs, hc, hm⟩

/-- Zones at a fixed offset from UTC are orderly. -/
theorem fixedOffsetZone_orderly (offset : ℤ) : (fixedOffsetZone offset).Orderly := by
  apply TimeZone.orderly_of_long_days
  intro d
  simp only [fixedOffsetZone, msPerDay]
  linarith

/-- The London clock with its summer-time transition is orderly. -/
theorem londonSpring2025_orderly : londonSpring2025.Orderly := by
  apply TimeZone.orderly_of_long_days
  intro d
  simp only [londonSpring2025, msPerDay]
  split <;> split <;> omega

/-- With a target of at most one day the scan succeeds from any count of at least one. -/
theorem consecutiveScan_one (n : ℤ) (hn : n ≤ 1) (l : List ℤ) : ∀ c : ℤ, 1 ≤ c →
    consecutiveScan n l c = true := by
  induction l with
  | nil =>
    intro c hc
    simp only [consecutiveScan, decide_eq_true_eq]
    omega
  | cons a rest ih =>
    intro c hc
    cases rest with
    | nil =>
      rw [consecutiveScan_singleton, decide_eq_true_eq]
      omega
    | cons b rest' =>
      rw [consecutiveScan_cons_cons]
      by_cases hd : a - b = msPerDay
      · rw [if_pos hd, if_pos (by omega)]
      · rw [if_neg hd]
        exact ih 1 (le_refl _)

/-- A history with a completed session has a streak of one day, in every zone. -/
theorem hasConsecutiveDays_one (tz : TimeZone) (h : List Session)
    (hex : ∃ s ∈ h, s.completed = true) : hasConsecutiveDays tz h 1 = true := by
  obtain ⟨s, hs, hc⟩ := hex
  have hmem : localMidnight tz s.startTime ∈ sessionDates tz h :=
    (mem_sessionDates tz h _).2 ⟨s, hs, hc, rfl⟩
  have hlen : 0 < (sessionDates tz h).length := List.length_pos_of_mem hmem
  have hne : ¬ (h.length = 0 ∨ (1 : ℤ) ≤ 0) := by
    have := List.length_pos_of_mem hs
    omega
  unfold hasConsecutiveDays
  rw [if_neg hne, if_neg (by omega)]
  exact consecutiveScan_one 1 (le_refl _) _ 1 (le_refl _)

/-- An incomplete session adds no session date. -/
theorem sessionDates_append_incomplete (tz : TimeZone) (h : List Session) (x : Session)
    (hx : x.completed = false) : sessionDates tz (h ++ [x]) = sessionDates tz h := by
  unfold sessionDates
  rw [List.filter_append]
  simp [hx]

/-- Appending an incomplete session changes no streak test, in every zone. -/
theorem hasConsecutiveDays_append_incomplete (tz : TimeZone) (h : List Session) (x : Session)
    (n : ℤ) (hx : x.completed = false) :
    hasConsecutiveDays tz (h ++ [x]) n = hasConsecutiveDays tz h n := by
  unfold hasConsecutiveDays
  rw [sessionDates_append_incomplete tz h x hx]
  by_cases hn : n ≤ 0
  · simp [hn]
  · cases h with
    | nil =>
      have hnil : sessionDates tz [] = [] := by
        rw [List.eq_nil_iff_forall_not_mem]
        intro d hd
        obtain ⟨s, hs, -⟩ := (mem_sessionDates tz [] d).1 hd
        cases hs
      rw [hnil]
      have : ((([] : List ℤ).length : ℕ) : ℤ) < n := by
        simp only [List.length_nil, Nat.cast_zero]
        omega
      simp only [this, if_true]
      split <;> rfl
    | cons a rest => simp

/-- The loop never returns less than its current maximum when that is at most the loop
variable. -/
theorem consistencyScan_ge (p : ℕ → Bool) : ∀ (f d m : ℕ), m ≤ d →
    m ≤ consistencyScan p f d m := by
  intro f
  induction f with
  | zero => intro d m _; simp [consistencyScan]
  | succ f ih =>
    intro d m hmd
    unfold consistencyScan
    split
    · exact le_trans hmd (ih (d + 1) d (Nat.le_succ d))
    · exact le_refl _

/-- The loop is monotone in the test. -/
theorem consistencyScan_mono (p q : ℕ → Bool) (hpq : ∀ d, p d = true → q d = true) :
    ∀ (f d m m' : ℕ), m ≤ m' → m' ≤ d →
      consistencyScan p f d m ≤ consistencyScan q f d m' := by
  intro f
  induction f with
  | zero => intro d m m' hmm _; simpa [consistencyScan] using hmm
  | succ f ih =>
    intro d m m' hmm hmd
    unfold consistencyScan
    cases hp : p d
    · cases hq : q d
      · simpa using hmm
      · simp only [Bool.false_eq_true, if_false, if_true]
        exact le_trans (le_trans hmm hmd) (consistencyScan_ge q f (d + 1) d (Nat.le_succ d))
    · rw [hpq d hp]
      simp only [if_true]
      exact ih (d + 1) d d (le_refl _) (Nat.le_succ d)

/-- The value before rounding, as a sum of its three terms. -/
theorem rawScore_eq (tz : TimeZone) (h : List Session) :
    rawScore tz h =
      (if 0 < h.length then
          ((h.filter (fun s => s.completed)).length : ℚ) / (h.length : ℚ) else 0) * 50
        + min (((consistencyScan (fun days => hasConsecutiveDays tz h (days : ℤ)) 7 1 0 : ℕ)
            : ℚ) * 10) 30
        + (if h.any (fun session => session.completed && decide (45 ≤ session.duration))
            then 20 else 0) := by
  unfold rawScore
  simp only
  split <;> simp

/-- The score is never negative. -/
theorem calculateProductivityScore_nonneg (tz : TimeZone) (h : List Session) :
    0 ≤ calculateProductivityScore tz h := by
  unfold calculateProductivityScore mathRound
  split
  · exact le_refl _
  · refine le_min ?_ (by norm_num)
    apply Int.floor_nonneg.2
    have := rawScore_nonneg tz h
    linarith

/-- In an orderly zone, appending a completed session to a non-empty history does not lower
the value before rounding. -/
theorem rawScore_append_completed (tz : TimeZone) (ho : tz.Orderly) (h : List Session)
    (x : Session) (hne : h ≠ []) (hx : x.completed = true) :
    rawScore tz h ≤ rawScore tz (h ++ [x]) := by
  have hpos : 0 < h.length := List.length_pos.2 hne
  have hpos' : 0 < (h ++ [x]).length := by simp
  have hct : (h.filter (fun s => s.completed)).length ≤ h.length := List.length_filter_le _ _
  rw [rawScore_eq, rawScore_eq, if_pos hpos, if_pos hpos']
  have hrate : ((h.filter (fun s => s.completed)).length : ℚ) / (h.length : ℚ) ≤
      (((h ++ [x]).filter (fun s => s.completed)).length : ℚ) / ((h ++ [x]).length : ℚ) := by
    have e1 : ((h ++ [x]).filter (fun s => s.completed)).length =
        (h.filter (fun s => s.completed)).length + 1 := by
      rw [List.filter_append]
      simp [hx]
    have e2 : (h ++ [x]).length = h.length + 1 := by simp
    rw [e1, e2]
    have ht : (0 : ℚ) < (h.length : ℚ) := by exact_mod_cast hpos
    have hc : ((h.filter (fun s => s.completed)).length : ℚ) ≤ (h.length : ℚ) := by
      exact_mod_cast hct
    rw [div_le_div_iff₀ ht (by push_cast; linarith)]
    push_cast
    nlinarith
  have hscan : consistencyScan (fun days => hasConsecutiveDays tz h (days : ℤ)) 7 1 0 ≤
      consistencyScan (fun days => hasConsecutiveDays tz (h ++ [x]) (days : ℤ)) 7 1 0 :=
    consistencyScan_mono _ _ (fun d hd => hasConsecutiveDays_append tz ho h x _ hd) 7 1 0 0
      (le_refl _) (by norm_num)
  have hbonus : min (((consistencyScan (fun days => hasConsecutiveDays tz h (days : ℤ)) 7 1 0
        : ℕ) : ℚ) * 10) 30 ≤
      min (((consistencyScan (fun days => hasConsecutiveDays tz (h ++ [x]) (days : ℤ)) 7 1 0
        : ℕ) : ℚ) * 10) 30 := by
    apply min_le_min _ (le_refl _)
    have : ((consistencyScan (fun days => hasConsecutiveDays tz h (days : ℤ)) 7 1 0 : ℕ) : ℚ) ≤
        ((consistencyScan (fun days => hasConsecutiveDays tz (h ++ [x]) (days : ℤ)) 7 1 0 : ℕ)
          : ℚ) := by exact_mod_cast hscan
    linarith
  have hlong : (if h.any (fun session => session.completed && decide (45 ≤ session.duration))
        then (20 : ℚ) else 0) ≤
      (if (h ++ [x]).any (fun session => session.completed && decide (45 ≤ session.duration))
        then (20 : ℚ) else 0) := by
    rw [List.any_append]
    cases h.any (fun session => session.completed && decide (45 ≤ session.duration))
    · simp only [Bool.false_eq_true, if_false, Bool.false_or]
      split <;> norm_num
    · simp
  linarith [mul_le_mul_of_nonneg_right hrate (show (0 : ℚ) ≤ 50 by norm_num)]

/-- Appending an incomplete session to a non-empty history does not raise the value before
rounding, in every zone. -/
theorem rawScore_append_incomplete (tz : TimeZone) (h : List Session) (x : Session)
    (hne : h ≠ []) (hx : x.completed = false) :
    rawScore tz (h ++ [x]) ≤ rawScore tz h := by
  have hpos : 0 < h.length := List.length_pos.2 hne
  have hpos' : 0 < (h ++ [x]).length := by simp
  rw [rawScore_eq, rawScore_eq, if_pos hpos, if_pos hpos']
  have hrate : (((h ++ [x]).filter (fun s => s.completed)).length : ℚ) /
      ((h ++ [x]).length : ℚ) ≤
      ((h.filter (fun s => s.completed)).length : ℚ) / (h.length : ℚ) := by
    have e1 : ((h ++ [x]).filter (fun s => s.completed)).length =
        (h.filter (fun s => s.completed)).length := by
      rw [List.filter_append]
      simp [hx]
    have e2 : (h ++ [x]).length = h.length + 1 := by simp
    rw [e1, e2]
    have ht : (0 : ℚ) < (h.length : ℚ) := by exact_mod_cast hpos
    have hc : (0 : ℚ) ≤ ((h.filter (fun s => s.completed)).length : ℚ) := by positivity
    rw [div_le_div_iff₀ (by push_cast; linarith) ht]
    push_cast
    nlinarith
  have hscan : (fun days : ℕ => hasConsecutiveDays tz (h ++ [x]) (days : ℤ)) =
      (fun days : ℕ => hasConsecutiveDays tz h (days : ℤ)) := by
    funext d
    exact hasConsecutiveDays_append_incomplete tz h x _ hx
  have hlong : (h ++ [x]).any (fun session =>
        session.completed && decide (45 ≤ session.duration)) =
      h.any (fun session => session.completed && decide (45 ≤ session.duration)) := by
    rw [List.any_append]
    simp [hx]
  rw [hscan, hlong]
  linarith [mul_le_mul_of_nonneg_right hrate (show (0 : ℚ) ≤ 50 by norm_num)]

/-- A history without a completed session scores 0, in every zone. -/
theorem calculateProductivityScore_eq_zero (tz : TimeZone) (h : List Session)
    (hnone : ∀ s ∈ h, s.completed = false) : calculateProductivityScore tz h = 0 := by
  unfold calculateProductivityScore
  split
  · rfl
  · rename_i hlen
    have hpos : 0 < h.length := Nat.pos_of_ne_zero hlen
    have hfil : h.filter (fun s => s.completed) = [] := by
      rw [List.filter_eq_nil_iff]
      intro s hs
      simp [hnone s hs]
    have hcount : completedCount h = 0 := by
      unfold completedCount
      rw [List.countP_eq_length_filter, hfil]
      rfl
    have hone : hasConsecutiveDays tz h 1 = false :=
      hasConsecutiveDays_false_of_few tz h _ (by rw [hcount]; norm_num)
    have hscan : consistencyScan (fun days => hasConsecutiveDays tz h (days : ℤ)) 7 1 0 = 0 := by
      simp [consistencyScan, hone]
    have hlong : h.any (fun session => session.completed && decide (45 ≤ session.duration))
        = false := by
      rw [List.any_eq_false]
      intro s hs
      simp [hnone s hs]
    have hraw : rawScore tz h = 0 := by
      rw [rawScore_eq, if_pos hpos, hfil, hscan, hlong]
      simp
    rw [hraw]
    norm_num [mathRound]

/-- A history with a completed session scores at least 10, in every zone. -/
theorem calculateProductivityScore_ge_ten (tz : TimeZone) (h : List Session)
    (hex : ∃ s ∈ h, s.completed = true) : 10 ≤ calculateProductivityScore tz h := by
  have hne : h.length ≠ 0 := by
    obtain ⟨s, hs, -⟩ := hex
    have := List.length_pos_of_mem hs
    omega
  have hone : hasConsecutiveDays tz h ((1 : ℕ) : ℤ) = true := hasConsecutiveDays_one tz h hex
  have hscan : 1 ≤ consistencyScan (fun days => hasConsecutiveDays tz h (days : ℤ)) 7 1 0 := by
    rw [consistencyScan]
    simp only [hone, if_true]
    exact consistencyScan_ge _ 6 2 1 (by norm_num)
  have hraw : (10 : ℚ) ≤ rawScore tz h := by
    rw [rawScore_eq]
    have h1 : (0 : ℚ) ≤ (if 0 < h.length then
        ((h.filter (fun s => s.completed)).length : ℚ) / (h.length : ℚ) else 0) * 50 := by
      split
      · positivity
      · norm_num
    have h2 : (10 : ℚ) ≤ min (((consistencyScan
        (fun days => hasConsecutiveDays tz h (days : ℤ)) 7 1 0 : ℕ) : ℚ) * 10) 30 := by
      refine le_min ?_ (by norm_num)
      have : (1 : ℚ) ≤ ((consistencyScan
          (fun days => hasConsecutiveDays tz h (days : ℤ)) 7 1 0 : ℕ) : ℚ) := by
        exact_mod_cast hscan
      linarith
    have h3 : (0 : ℚ) ≤ (if h.any (fun session =>
        session.completed && decide (45 ≤ session.duration)) then (20 : ℚ) else 0) := by
      split <;> norm_num
    linarith
  unfold calculateProductivityScore mathRound
  rw [if_neg hne]
  refine le_min ?_ (by norm_num)
  apply Int.le_floor.2
  push_cast
  linarith

/-- C30: appending a completed session never lowers the productivity score (in a zone whose
local days begin more than 12 hours apart) and appending an incomplete one never raises
it; the score is 0 exactly when the history has no completed session, and at least 10
otherwise. -/
theorem score_monotone (tz : TimeZone) (h : List Session) (x : Session) :
    (tz.Orderly → x.completed = true →
      calculateProductivityScore tz h ≤ calculateProductivityScore tz (h ++ [x])) ∧
    (x.completed = false →
      calculateProductivityScore tz (h ++ [x]) ≤ calculateProductivityScore tz h) ∧
    (calculateProductivityScore tz h = 0 ↔ ∀ s ∈ h, s.completed = false) ∧
    (calculateProductivityScore tz h = 0 ∨ 10 ≤ calculateProductivityScore tz h) := by
  have hcases : (∀ s ∈ h, s.completed = false) ∨ ∃ s ∈ h, s.completed = true := by
    by_cases hex : ∃ s ∈ h, s.completed = true
    · exact Or.inr hex
    · left
      intro s hs
      cases hc : s.completed
      · rfl
      · exact absurd ⟨s, hs, hc⟩ hex
  refine ⟨?_, ?_, ?_, ?_⟩
  · intro ho hx
    by_cases hne : h = []
    · subst hne
      have h0 : calculateProductivityScore tz [] = 0 := by simp [calculateProductivityScore]
      rw [h0]
      exact calculateProductivityScore_nonneg tz _
    · have hl : h.length ≠ 0 := fun e => hne (List.length_eq_zero.1 e)
      have hl' : (h ++ [x]).length ≠ 0 := by simp
      unfold calculateProductivityScore mathRound
      rw [if_neg hl, if_neg hl']
      apply min_le_min _ (le_refl _)
      apply Int.floor_mono
      have := rawScore_append_completed tz ho h x hne hx
      linarith
  · intro hx
    by_cases hne : h = []
    · subst hne
      have h0 : calculateProductivityScore tz [] = 0 := by simp [calculateProductivityScore]
      rw [h0]
      apply le_of_eq
      apply calculateProductivityScore_eq_zero
      intro s hs
      simp only [List.nil_append, List.mem_singleton] at hs
      rw [hs]
      exact hx
    · have hl : h.length ≠ 0 := fun e => hne (List.length_eq_zero.1 e)
      have hl' : (h ++ [x]).length ≠ 0 := by simp
      unfold calculateProductivityScore mathRound
      rw [if_neg hl, if_neg hl']
      apply min_le_min _ (le_refl _)
      apply Int.floor_mono
      have := rawScore_append_incomplete tz h x hne hx
      linarith
  · constructor
    · intro hz
      rcases hcases with hnone | hex
      · exact hnone
      · have := calculateProductivityScore_ge_ten tz h hex
        omega
    · exact calculateProductivityScore_eq_zero tz h
  · rcases hcases with hnone | hex
    · exact Or.inl (calculateProductivityScore_eq_zero tz h hnone)
    · exact Or.inr (calculateProductivityScore_ge_ten tz h hex)

/-- Witness for C30: in the zone of UTC, appending a completed session on 4 January 2024 to
the three sessions of 1, 2 and 3 January does not lower the score. -/
theorem score_monotone_witness :
    (fixedOffsetZone 0).Orderly ∧
    (⟨"d", 1704362400000, 30, true, "sleepy", .study⟩ : Session).completed = true ∧
    calculateProductivityScore (fixedOffsetZone 0) threeSleepySessions ≤
      calculateProductivityScore (fixedOffsetZone 0)
        (threeSleepySessions ++ [⟨"d", 1704362400000, 30, true, "sleepy", .study⟩]) :=
  ⟨fixedOffsetZone_orderly 0, rfl,
    (score_monotone (fixedOffsetZone 0) threeSleepySessions
      ⟨"d", 1704362400000, 30, true, "sleepy", .study⟩).1 (fixedOffsetZone_orderly 0) rfl⟩

/-! ## Theorems: daily study time and persistence -/

/-- What `getDailyStudyTime` computes: the sum of the durations of the completed sessions
of the day, whatever their session type. -/
theorem getDailyStudyTime_eq (tz : TimeZone) (h : List Session) (date : ℤ) :
    getDailyStudyTime tz h date =
      ((h.filter (fun s => s.completed &&
          decide (tz.dayOf s.startTime = tz.dayOf date))).map (fun s => s.duration)).sum := by
  unfold getDailyStudyTime
  have hf : (fun session : Session => if (!session.completed) = true then false
        else decide (tz.dayOf session.startTime = tz.dayOf date)) =
      (fun s => s.completed && decide (tz.dayOf s.startTime = tz.dayOf date)) := by
    funext s
    cases s.completed <;> simp
  have hm : (fun session : Session => if session.duration = 0 then 0 else session.duration) =
      (fun s => s.duration) := by
    funext s
    split
    · rename_i h0
      exact h0.symm
    · rfl
  rw [hf, hm]
  split
  · rename_i h0
    rw [List.length_eq_zero.1 h0]
    rfl
  · exact (List.sum_eq_foldl).symm

/-- On a history without completed rest sessions on the day of `date`, the function
returns the daily study time of the specification. -/
theorem getDailyStudyTime_eq_spec (tz : TimeZone) (h : List Session) (date : ℤ)
    (hnorest : ∀ s ∈ h, s.completed = true → tz.dayOf s.startTime = tz.dayOf date →
      s.sessionType = .study) :
    getDailyStudyTime tz h date = specDailyStudyTime tz h date := by
  rw [getDailyStudyTime_eq]
  unfold specDailyStudyTime
  congr 2
  apply List.filter_congr
  intro s hs
  cases hc : s.completed
  · simp
  · by_cases hd : tz.dayOf s.startTime = tz.dayOf date
    · simp [hd, hnorest s hs hc hd]
    · simp [hd]

/-- C22 (failing input): for the history recorded when a 25-minute study session and the
5-minute rest after it complete on 1 January 2024, `getDailyStudyTime` of that day is 30,
while the completed study sessions of the day sum to 25: the completed rest session is
counted as study time. -/
theorem getDailyStudyTime_counts_rest :
    studyThenRest =
      [⟨"s1", 1704104700000, 25, true, "sleepy", .study⟩,
       ⟨"s2", 1704105000000, 5, true, "sleepy", .rest⟩] ∧
    getDailyStudyTime (fixedOffsetZone 0) studyThenRest 1704103200000 = 30 ∧
    specDailyStudyTime (fixedOffsetZone 0) studyThenRest 1704103200000 = 25 := by
  refine ⟨rfl, ?_, ?_⟩
  · norm_num [studyThenRest, onTimerEvent, handleSessionComplete, getDailyStudyTime,
      fixedOffsetZone, msPerDay]
  · norm_num [studyThenRest, onTimerEvent, handleSessionComplete, specDailyStudyTime,
      fixedOffsetZone, msPerDay, rest_ne_study]

/-- With a new name, `CreateDataProperty` appends the property. -/
theorem createDataProperty_fresh (obj : List (String × JSData)) (key : String) (value : JSData)
    (h : key ∉ obj.map Prod.fst) : createDataProperty obj key value = obj ++ [(key, value)] := by
  induction obj with
  | nil => rfl
  | cons p rest ih =>
    obtain ⟨k, v⟩ := p
    simp only [List.map_cons, List.mem_cons, not_or] at h
    have hk : ¬ k = key := fun e => h.1 e.symm
    simp [createDataProperty, hk, ih h.2]

/-- Creating properties with distinct new names, one after the other, appends them in
order. -/
theorem foldl_createDataProperty (l : List (String × JSData)) :
    ∀ obj : List (String × JSData), ((obj ++ l).map Prod.fst).Nodup →
      l.foldl (fun o member => createDataProperty o member.1 member.2) obj = obj ++ l := by
  induction l with
  | nil =>
    intro obj _
    simp
  | cons p rest ih =>
    intro obj hnd
    have hfresh : p.1 ∉ obj.map Prod.fst := by
      intro hmem
      rw [List.map_append, List.map_cons] at hnd
      exact (List.nodup_append.1 hnd).2.2 hmem (List.mem_cons_self _ _)
    rw [List.foldl_cons, createDataProperty_fresh obj p.1 p.2 hfresh]
    have hassoc : obj ++ [(p.1, p.2)] ++ rest = obj ++ p :: rest := by simp
    rw [ih (obj ++ [(p.1, p.2)]) (by rw [hassoc]; exact hnd), hassoc]

mutual
/-- A well-formed value has a JSON document, and `JSON.parse` builds the value back from
it. -/
theorem internalize_serialize : ∀ value : JSData, value.wellFormed = true →
    ∃ document, serializeJSONProperty value = some document ∧ internalize document = value
  | .undefined, h => by simp [JSData.wellFormed] at h
  | .null, _ => ⟨.null, rfl, rfl⟩
  | .boolean b, _ => ⟨.boolean b, rfl, rfl⟩
  | .number (.fin q), _ => ⟨.number q, rfl, rfl⟩
  | .number .nan, h => by simp [JSData.wellFormed] at h
  | .number .posInf, h => by simp [JSData.wellFormed] at h
  | .number .negInf, h => by simp [JSData.wellFormed] at h
  | .string s, _ => ⟨.string s, rfl, rfl⟩
  | .array items, h => by
      refine ⟨_, rfl, ?_⟩
      simp only [JSData.wellFormed] at h
      simp only [internalize, internalizeElements_serialize items h]
  | .object properties, h => by
      refine ⟨_, rfl, ?_⟩
      simp only [JSData.wellFormed, Bool.and_eq_true, decide_eq_true_eq] at h
      simp only [internalize, internalizeMembers_serialize properties h.1]
      rw [foldl_createDataProperty properties [] (by simpa using h.2)]
      rfl
/-- The elements of a well-formed array are built back in order. -/
theorem internalizeElements_serialize : ∀ items : List JSData,
    wellFormedItems items = true →
    internalizeElements (serializeJSONArray items) = items
  | [], _ => rfl
  | value :: rest, h => by
      simp only [wellFormedItems, Bool.and_eq_true] at h
      obtain ⟨document, hj, hi⟩ := internalize_serialize value h.1
      simp only [serializeJSONArray, hj, Option.getD_some, internalizeElements, hi,
        internalizeElements_serialize rest h.2]
/-- The properties of a well-formed object are all written, and read back in order. -/
theorem internalizeMembers_serialize : ∀ properties : List (String × JSData),
    wellFormedProperties properties = true →
    internalizeMembers (serializeJSONObject properties) = properties
  | [], _ => rfl
  | (key, value) :: rest, h => by
      simp only [wellFormedProperties, Bool.and_eq_true] at h
      obtain ⟨document, hj, hi⟩ := internalize_serialize value h.1
      simp only [serializeJSONObject, hj, internalizeMembers, hi,
        internalizeMembers_serialize rest h.2]
end

/-- For a well-formed value, `JSON.parse(JSON.stringify(X))` is `X`. -/
theorem jsonParse_serializedText (X : JSData) (h : X.wellFormed = true) :
    jsonParse (serializedText X) = some X := by
  obtain ⟨document, hj, hi⟩ := internalize_serialize X h
  simp [serializedText, jsonStringify, hj, jsonParse, hi]

/-- Values that are not well-formed are not restored: a `NaN` comes back as `null`, a
property holding `undefined` is lost, and `undefined` itself is stored as a string that
does not parse. -/
theorem jsonParse_serializedText_lossy :
    jsonParse (serializedText (.object [("duration", .number .nan)]))
      = some (.object [("duration", .null)]) ∧
    jsonParse (serializedText (.object [("id", .string "a"), ("endTime", .undefined)]))
      = some (.object [("id", .string "a")]) ∧
    jsonParse (serializedText .undefined) = none := by
  refine ⟨?_, ?_, ?_⟩ <;>
    simp [serializedText, jsonStringify, serializeJSONProperty, serializeJSONObject, jsonParse,
      internalize, internalizeMembers, createDataProperty]

/-- Loading a key whose stored text parses returns the parsed value. -/
theorem loadFromStorage_of_text (store : LocalStorage) (key : String) (text : StoredText)
    (d X : JSData) (hstore : store key = some text) (hparse : jsonParse text = some X) :
    loadFromStorage store key d = X := by
  simp [loadFromStorage, hstore, hparse]

/-- Whenever `saveToStorage` of a well-formed value succeeds, also through its quota
clean-up, in a browser whose successful `setItem` leaves the text under the key, a later
`loadFromStorage` of the key returns the value saved. -/
theorem saveToStorage_then_load (b : Browser) (tz : TimeZone) (now : ℤ)
    (store saved : LocalStorage) (key : String) (d X : JSData)
    (hset : ∀ (st st' : LocalStorage) (k : String) (v : StoredText),
      b.setItem st k v = some st' → st' k = some v)
    (hX : X.wellFormed = true)
    (hsave : saveToStorage b tz now store key X = .ok saved) :
    loadFromStorage saved key d = X := by
  have hparse := jsonParse_serializedText X hX
  unfold saveToStorage at hsave
  simp only at hsave
  split at hsave
  · rename_i st hst
    cases hsave
    exact loadFromStorage_of_text _ key _ d X (hset _ _ _ _ hst) hparse
  · split at hsave
    · split at hsave
      · split at hsave
        · split at hsave
          · split at hsave
            · rename_i st hst
              cases hsave
              exact loadFromStorage_of_text _ key _ d X (hset _ _ _ _ hst) hparse
            · cases hsave
          · cases hsave
        · cases hsave
      · cases hsave
    · cases hsave

/-- Over a plain map store every well-formed value makes the round trip. -/
theorem roundTrips_of_wellFormed (newDate : JSData → Option ℤ) (tz : TimeZone) (now : ℤ)
    (store : LocalStorage) (key : String) (d X : JSData) (hX : X.wellFormed = true) :
    RoundTrips (mapBrowser newDate) tz now store key d X := by
  refine ⟨mapSet store key (serializedText X), rfl, ?_, ?_⟩
  · exact loadFromStorage_of_text _ key (serializedText X) d X (by simp [mapSet])
      (jsonParse_serializedText X hX)
  · intro k hk
    simp [mapSet, hk]

/-- Every preferences object is well-formed. -/
theorem preferences_wellFormed (p : Preferences) : p.toJS.wellFormed = true := by
  have hnd : (["studyDuration", "restDuration", "cyclesPlanned", "theme", "ghostVariant"] :
      List String).Nodup := by decide
  simp [Preferences.toJS, JSData.wellFormed, wellFormedProperties, hnd]

/-- Every session record is well-formed. -/
theorem session_wellFormed (toISOString : ℤ → String) (session : Session) :
    (session.toJS toISOString).wellFormed = true := by
  have hnd : (["id", "startTime", "duration", "completed", "ghostEmotion", "sessionType"] :
      List String).Nodup := by decide
  cases hty : session.sessionType <;>
    simp [Session.toJS, SessionType.toJS, hty, JSData.wellFormed, wellFormedProperties, hnd]

/-- Every session history is well-formed. -/
theorem sessionHistoryToJS_wellFormed (toISOString : ℤ → String) (l : List Session) :
    (sessionHistoryToJS toISOString l).wellFormed = true := by
  unfold sessionHistoryToJS
  simp only [JSData.wellFormed]
  induction l with
  | nil => rfl
  | cons session rest ih =>
    simp only [List.map_cons, wellFormedItems, Bool.and_eq_true]
    exact ⟨session_wellFormed toISOString session, ih⟩

/-- Every entry of an achievement state is well-formed. -/
theorem achievementEntry_wellFormed (toISOString : ℤ → String)
    (entry : AchievementEntry) : (entry.toJS toISOString).wellFormed = true := by
  have hnd : (["unlocked", "unlockedAt"] : List String).Nodup := by decide
  cases hat : entry.unlockedAt <;>
    simp [AchievementEntry.toJS, hat, JSData.wellFormed, wellFormedProperties, hnd]

/-- An achievement state object (its keys are distinct) is well-formed. -/
theorem achievementStateToJS_wellFormed (toISOString : ℤ → String) (state : AchievementState)
    (hkeys : (objectKeys state).Nodup) :
    (achievementStateToJS toISOString state).wellFormed = true := by
  unfold achievementStateToJS
  simp only [JSData.wellFormed, Bool.and_eq_true, decide_eq_true_eq]
  constructor
  · clear hkeys
    induction state with
    | nil => rfl
    | cons p rest ih =>
      simp only [List.map_cons, wellFormedProperties, Bool.and_eq_true]
      exact ⟨achievementEntry_wellFormed toISOString p.2, ih⟩
  · have : (state.map (fun p => (p.1, p.2.toJS toISOString))).map Prod.fst = objectKeys state := by
      unfold objectKeys
      rw [List.map_map]
      rfl
    rw [this]
    exact hkeys

/-- C21: over a store that is a plain string-keyed map of JSON text, for every key and
every default `d`: `saveToStorage(key, X)` followed by `loadFromStorage(key, d)` returns
`X`, the other keys being untouched, for every well-formed value `X` (null, booleans,
finite numbers, strings, arrays, objects with distinct property names), and so for every
preferences object, every session history and every achievement state object. -/
theorem storage_round_trip (newDate : JSData → Option ℤ) (toISOString : ℤ → String)
    (tz : TimeZone) (now : ℤ) (store : LocalStorage) (key : String) (d : JSData) :
    (∀ X : JSData, X.wellFormed = true →
      RoundTrips (mapBrowser newDate) tz now store key d X) ∧
    (∀ p : Preferences, RoundTrips (mapBrowser newDate) tz now store key d p.toJS) ∧
    (∀ l : List Session,
      RoundTrips (mapBrowser newDate) tz now store key d (sessionHistoryToJS toISOString l)) ∧
    (∀ state : AchievementState, (objectKeys state).Nodup →
      RoundTrips (mapBrowser newDate) tz now store key d
        (achievementStateToJS toISOString state)) :=
  ⟨fun X hX => roundTrips_of_wellFormed newDate tz now store key d X hX,
   fun p => roundTrips_of_wellFormed newDate tz now store key d _ (preferences_wellFormed p),
   fun l => roundTrips_of_wellFormed newDate tz now store key d _
     (sessionHistoryToJS_wellFormed toISOString l),
   fun state hkeys => roundTrips_of_wellFormed newDate tz now store key d _
     (achievementStateToJS_wellFormed toISOString state hkeys)⟩

/-- Witness for C21: a history of one session with an `endTime` of `null`, the default
preferences, the three sessions of 1 to 3 January 2024 and an achievement state of two
entries, each saved in an empty store and loaded with some default (for the typed values
the decimal numeral of an instant stands for its ISO string). -/
theorem storage_round_trip_witness :
    (JSData.array [.object [("id", .string "a"), ("startTime", .string "2024-01-01T10:00:00.000Z"),
      ("endTime", .null), ("duration", .number (.fin 30)), ("completed", .boolean true),
      ("ghostEmotion", .string "sleepy")]]).wellFormed = true ∧
    RoundTrips (mapBrowser (fun _ => none)) (fixedOffsetZone 0) 0 (fun _ => none)
      "sessionHistory" (.array [])
      (.array [.object [("id", .string "a"), ("startTime", .string "2024-01-01T10:00:00.000Z"),
        ("endTime", .null), ("duration", .number (.fin 30)), ("completed", .boolean true),
        ("ghostEmotion", .string "sleepy")]]) ∧
    RoundTrips (mapBrowser (fun _ => none)) (fixedOffsetZone 0) 0 (fun _ => none)
      "preferences" .null (Preferences.toJS ⟨25, 5, 1, "pumpkinGlow", "baby-ghost"⟩) ∧
    RoundTrips (mapBrowser (fun _ => none)) (fixedOffsetZone 0) 0 (fun _ => none)
      "sessionHistory" (.array [])
      (sessionHistoryToJS (fun t => toString t) threeSleepySessions) ∧
    (objectKeys [("sleepy-survivor", (⟨true, some 1704276000000⟩ : AchievementEntry)),
      ("witching-hour", ⟨false, none⟩)]).Nodup ∧
    RoundTrips (mapBrowser (fun _ => none)) (fixedOffsetZone 0) 0 (fun _ => none)
      "achievements" (.object [])
      (achievementStateToJS (fun t => toString t)
        [("sleepy-survivor", ⟨true, some 1704276000000⟩), ("witching-hour", ⟨false, none⟩)]) :=
  ⟨by decide,
   (storage_round_trip (fun _ => none) (fun t => toString t) (fixedOffsetZone 0) 0
      (fun _ => none) "sessionHistory" (.array [])).1 _ (by decide),
   (storage_round_trip (fun _ => none) (fun t => toString t) (fixedOffsetZone 0) 0
      (fun _ => none) "preferences" .null).2.1 ⟨25, 5, 1, "pumpkinGlow", "baby-ghost"⟩,
   (storage_round_trip (fun _ => none) (fun t => toString t) (fixedOffsetZone 0) 0
      (fun _ => none) "sessionHistory" (.array [])).2.2.1 threeSleepySessions,
   by decide,
   (storage_round_trip (fun _ => none) (fun t => toString t) (fixedOffsetZone 0) 0
      (fun _ => none) "achievements" (.object [])).2.2.2
      [("sleepy-survivor", ⟨true, some 1704276000000⟩), ("witching-hour", ⟨false, none⟩)]
      (by decide)⟩

/-! ## Theorems: the display of the remaining time -/

/-- Two decimal digits: `padStart(2, '0')` of the decimal text of a number below 100. -/
theorem padStart_two : ∀ k : ℕ, k < 100 →
    padStart (toString k) 2 '0' = String.mk [Nat.digitChar (k / 10), Nat.digitChar (k % 10)] := by
  decide

/-- Distinct decimal digits have distinct characters. -/
theorem digitChar_injective : ∀ a : ℕ, a < 10 → ∀ b : ℕ, b < 10 →
    Nat.digitChar a = Nat.digitChar b → a = b := by
  decide

/-- Up to 5999 seconds, `formatTime` returns the `MM:SS` string of the specification. -/
theorem formatTime_eq_mmss (s : ℕ) (hs : s ≤ 5999) : formatTime s = mmss s := by
  unfold formatTime mmss
  simp only
  rw [padStart_two (s / 60) (by omega), padStart_two (s % 60) (by omega)]
  rfl

/-- Up to 5999 seconds, distinct values have distinct `MM:SS` strings. -/
theorem mmss_injective (a b : ℕ) (ha : a ≤ 5999) (hb : b ≤ 5999) (h : mmss a = mmss b) :
    a = b := by
  unfold mmss at h
  have hdata := congrArg String.data h
  simp only [List.cons.injEq, and_true, true_and] at hdata
  obtain ⟨h1, h2, h3, h4⟩ := hdata
  have e1 := digitChar_injective _ (by omega) _ (by omega) h1
  have e2 := digitChar_injective _ (Nat.mod_lt _ (by norm_num)) _
    (Nat.mod_lt _ (by norm_num)) h2
  have e3 := digitChar_injective _ (by omega) _ (by omega) h3
  have e4 := digitChar_injective _ (Nat.mod_lt _ (by norm_num)) _
    (Nat.mod_lt _ (by norm_num)) h4
  omega

/-- A rational with denominator 1 between two integers is an integer between them. -/
theorem whole_of_den (q : ℚ) (hd : q.den = 1) (lo hi : ℤ) (h1 : (lo : ℚ) ≤ q)
    (h2 : q ≤ (hi : ℚ)) : ∃ k : ℤ, q = (k : ℚ) ∧ lo ≤ k ∧ k ≤ hi := by
  have hq : ((q.num : ℤ) : ℚ) = q := Rat.coe_int_num_of_den_eq_one hd
  refine ⟨q.num, hq.symm, ?_, ?_⟩
  · rw [← hq] at h1
    exact_mod_cast h1
  · rw [← hq] at h2
    exact_mod_cast h2

/-- The whole-minute invariant persists as the wall clock advances. -/
theorem WholeInvariant.later {s : TimerState} {t now : ℤ} (h : WholeInvariant s t)
    (hle : t ≤ now) : WholeInvariant s now :=
  ⟨h.1, h.2.1, h.2.2.1, fun ha => by
    obtain ⟨t0, n, h1, h2, h3, h4⟩ := h.2.2.2 ha
    exact ⟨t0, n, h1, le_trans h2 hle, h3, h4⟩⟩

/-- The fresh machine with whole-minute durations satisfies the whole-minute invariant. -/
theorem wholeInvariant_useTimer (cfg : TimerConfig) (t : ℤ)
    (hstudy : (useTimer cfg).studyDuration.den = 1)
    (hrest : (useTimer cfg).restDuration.den = 1) : WholeInvariant (useTimer cfg) t := by
  have hs := useTimer_studyDuration_range cfg
  have hr := useTimer_restDuration_range cfg
  obtain ⟨k, hk, hk1, hk2⟩ := whole_of_den _ hstudy 25 90 (by exact_mod_cast hs.1)
    (by exact_mod_cast hs.2)
  obtain ⟨j, hj, hj1, hj2⟩ := whole_of_den _ hrest 5 20 (by exact_mod_cast hr.1)
    (by exact_mod_cast hr.2)
  have hct : (useTimer cfg).currentTime = (useTimer cfg).studyDuration * 60 := rfl
  have hact : (useTimer cfg).isActive = false := rfl
  refine ⟨⟨k, hk, hk1, hk2⟩, ⟨j, hj, hj1, hj2⟩, ⟨k * 60, ?_, by omega, by omega⟩, ?_⟩
  · rw [hct, hk]
    push_cast
    ring
  · intro h
    rw [hact] at h
    cases h

/-- Every step with whole-minute durations preserves the whole-minute invariant. -/
theorem wholeInvariant_step (s : TimerState) (t now : ℤ) (op : TimerOp)
    (hinv : WholeInvariant s t) (hle : t ≤ now) (hok : wholeMinutes s op now = true) :
    WholeInvariant (applyOp s op now) now := by
  obtain ⟨sd, rd, ct, act, ty, cp, cc, st, pt⟩ := s
  obtain ⟨hs, hr, hct, hactive⟩ := hinv.later hle
  simp only at hs hr hct hactive
  obtain ⟨ks, hks, hks1, hks2⟩ := hs
  obtain ⟨kr, hkr, hkr1, hkr2⟩ := hr
  have hstudySecs : ∃ n : ℤ, sd * 60 = (n : ℚ) ∧ 0 < n ∧ n ≤ 5400 :=
    ⟨ks * 60, by rw [hks]; push_cast; ring, by omega, by omega⟩
  have hrestSecs : ∃ n : ℤ, rd * 60 = (n : ℚ) ∧ 0 < n ∧ n ≤ 5400 :=
    ⟨kr * 60, by rw [hkr]; push_cast; ring, by omega, by omega⟩
  cases op with
  | setStudyDuration m =>
    by_cases hv : isValidStudyDuration m = true
    · obtain ⟨q, rfl, h1, h2⟩ := (isValidStudyDuration_iff m).1 hv
      have hden : q.den = 1 := by
        simpa [wholeMinutes, JSValue.toRat, hv] using hok
      obtain ⟨k, hk, hk1, hk2⟩ := whole_of_den q hden 25 90 (by exact_mod_cast h1)
        (by exact_mod_cast h2)
      have hsecs : ∃ n : ℤ, q * 60 = (n : ℚ) ∧ 0 < n ∧ n ≤ 5400 :=
        ⟨k * 60, by rw [hk]; push_cast; ring, by omega, by omega⟩
      cases act <;> cases ty <;>
        simp only [applyOp, setStudyDuration, hv, JSValue.toRat, Bool.not_true, Bool.not_false,
          Bool.and_true, Bool.and_false, Bool.false_eq_true, if_false, if_true,
          decide_eq_true_eq, rest_ne_study, decide_True, decide_False] <;>
        first
          | exact ⟨⟨k, hk, hk1, hk2⟩, ⟨kr, hkr, hkr1, hkr2⟩, hsecs, hactive⟩
          | exact ⟨⟨k, hk, hk1, hk2⟩, ⟨kr, hkr, hkr1, hkr2⟩, hct, hactive⟩
    · simp only [Bool.not_eq_true] at hv
      simp only [applyOp, setStudyDuration, hv, Bool.not_false, if_true]
      exact ⟨⟨ks, hks, hks1, hks2⟩, ⟨kr, hkr, hkr1, hkr2⟩, hct, hactive⟩
  | setRestDuration m =>
    by_cases hv : isValidRestDuration m = true
    · obtain ⟨q, rfl, h1, h2⟩ := (isValidRestDuration_iff m).1 hv
      have hden : q.den = 1 := by
        simpa [wholeMinutes, JSValue.toRat, hv] using hok
      obtain ⟨k, hk, hk1, hk2⟩ := whole_of_den q hden 5 20 (by exact_mod_cast h1)
        (by exact_mod_cast h2)
      have hsecs : ∃ n : ℤ, q * 60 = (n : ℚ) ∧ 0 < n ∧ n ≤ 5400 :=
        ⟨k * 60, by rw [hk]; push_cast; ring, by omega, by omega⟩
      cases act <;> cases ty <;>
        simp only [applyOp, setRestDuration, hv, JSValue.toRat, Bool.not_true, Bool.not_false,
          Bool.and_true, Bool.and_false, Bool.false_eq_true, if_false, if_true,
          decide_eq_true_eq, rest_ne_study.symm, decide_True, decide_False] <;>
        first
          | exact ⟨⟨ks, hks, hks1, hks2⟩, ⟨k, hk, hk1, hk2⟩, hsecs, hactive⟩
          | exact ⟨⟨ks, hks, hks1, hks2⟩, ⟨k, hk, hk1, hk2⟩, hct, hactive⟩
    · simp only [Bool.not_eq_true] at hv
      simp only [applyOp, setRestDuration, hv, Bool.not_false, if_true]
      exact ⟨⟨ks, hks, hks1, hks2⟩, ⟨kr, hkr, hkr1, hkr2⟩, hct, hactive⟩
  | setCyclesPlanned c =>
    by_cases hv : isValidCycleCount c = true
    · simp only [applyOp, setCyclesPlanned, hv, Bool.not_true]
      exact ⟨⟨ks, hks, hks1, hks2⟩, ⟨kr, hkr, hkr1, hkr2⟩, hct, hactive⟩
    · simp only [Bool.not_eq_true] at hv
      simp only [applyOp, setCyclesPlanned, hv, Bool.not_false, if_true]
      exact ⟨⟨ks, hks, hks1, hks2⟩, ⟨kr, hkr, hkr1, hkr2⟩, hct, hactive⟩
  | start =>
    cases act
    · simp only [applyOp, start, Bool.not_false, if_true]
      obtain ⟨n, hn, hn0, hn1⟩ := hct
      exact ⟨⟨ks, hks, hks1, hks2⟩, ⟨kr, hkr, hkr1, hkr2⟩, ⟨n, hn, hn0, hn1⟩,
        fun _ => ⟨now, n, rfl, le_refl _, by rw [hn], hn1⟩⟩
    · simp only [applyOp, start, Bool.not_true]
      exact ⟨⟨ks, hks, hks1, hks2⟩, ⟨kr, hkr, hkr1, hkr2⟩, hct, hactive⟩
  | pause =>
    cases act
    · simp only [applyOp, pause]
      exact ⟨⟨ks, hks, hks1, hks2⟩, ⟨kr, hkr, hkr1, hkr2⟩, hct, fun h => by cases h⟩
    · simp only [applyOp, pause, if_true]
      exact ⟨⟨ks, hks, hks1, hks2⟩, ⟨kr, hkr, hkr1, hkr2⟩, hct, fun h => by cases h⟩
  | reset =>
    exact ⟨⟨ks, hks, hks1, hks2⟩, ⟨kr, hkr, hkr1, hkr2⟩, hstudySecs, fun h => by cases h⟩
  | tick =>
    cases act
    · simp only [applyOp, tick, Bool.false_eq_true, if_false]
      exact ⟨⟨ks, hks, hks1, hks2⟩, ⟨kr, hkr, hkr1, hkr2⟩, hct, fun h => by cases h⟩
    · obtain ⟨t0, n, h1, h2, h3, h4⟩ := hactive rfl
      subst h1 h3
      have hel : (0 : ℤ) ≤ (now - t0) / 1000 := Int.ediv_nonneg (by linarith) (by norm_num)
      simp only [applyOp, tick, if_true, Option.getD_some]
      by_cases hz : (n : ℚ) - (((now - t0) / 1000 : ℤ) : ℚ) ≤ 0
      · simp only [hz, if_true]
        cases ty
        · simp only [if_true, transitionToRest]
          exact ⟨⟨ks, hks, hks1, hks2⟩, ⟨kr, hkr, hkr1, hkr2⟩, hrestSecs,
            fun h => by cases h⟩
        · simp only [rest_ne_study, if_false, completeRestSession]
          split <;>
            exact ⟨⟨ks, hks, hks1, hks2⟩, ⟨kr, hkr, hkr1, hkr2⟩, hstudySecs,
              fun h => by cases h⟩
      · simp only [hz, if_false]
        have hpos : 0 < n - (now - t0) / 1000 := by
          have : ¬ (((n - (now - t0) / 1000 : ℤ) : ℚ) ≤ 0) := by
            push_cast
            exact hz
          by_contra hle0
          exact this (by exact_mod_cast (not_lt.1 hle0))
        exact ⟨⟨ks, hks, hks1, hks2⟩, ⟨kr, hkr, hkr1, hkr2⟩,
          ⟨n - (now - t0) / 1000, by push_cast; ring, hpos, by omega⟩,
          fun _ => ⟨t0, n, rfl, h2, rfl, h4⟩⟩

/-- C23, counterexample: `setStudyDuration(25.01)` is accepted on the fresh machine and
leaves `currentTime = 25.01 * 60 = 1500.6`, which is not an integer number of seconds. -/
theorem currentTime_not_whole_counterexample :
    run (useTimer ⟨.undefined, .undefined, .undefined⟩) 0
        [(.setStudyDuration (.number (.fin (2501 / 100))), 0)]
      = some ⟨2501 / 100, 5, 7503 / 5, false, .study, 1, 0, none, none⟩ ∧
    ¬ ∃ n : ℕ, (7503 / 5 : ℚ) = (n : ℚ) := by
  constructor
  · norm_num [run, runGuarded, applyOp, setStudyDuration, useTimer, JSValue.orDefault,
      JSValue.toRat, isValidStudyDuration, isValidRestDuration, isValidCycleCount,
      JSNumber.geConst, JSNumber.leConst, JSNumber.isInteger]
  · rintro ⟨n, hn⟩
    have h5 : (7503 : ℚ) = 5 * (n : ℚ) := by linarith
    have h6 : (7503 : ℕ) = 5 * n := by exact_mod_cast h5
    omega

/-- C23, amended: for every integer `s` with `0 ≤ s ≤ 5999`, `formatTime(s)` is the
5-character string `MM:SS` with `MM = floor(s/60)` and `SS = s mod 60` in two decimal
digits each, distinct `s` give distinct strings, and 125, 65 and 0 give `02:05`, `01:05`
and `00:00`; and in every state reached from a fresh machine whose durations are whole
minutes, by operations at non-decreasing times whose duration setters are given whole
minutes, `currentTime` is an integer between 1 and 5400, hence in that range. -/
theorem formatTime_spec (cfg : TimerConfig) (t0 : ℤ) (ops : List (TimerOp × ℤ))
    (r : TimerState) (s : ℕ) (hs : s ≤ 5999)
    (hstudy : (useTimer cfg).studyDuration.den = 1)
    (hrest : (useTimer cfg).restDuration.den = 1)
    (hrun : runGuarded wholeMinutes (useTimer cfg) t0 ops = some r) :
    formatTime s = mmss s ∧ (formatTime s).length = 5 ∧
    (∀ s' : ℕ, s' ≤ 5999 → formatTime s' = formatTime s → s' = s) ∧
    formatTime 125 = "02:05" ∧ formatTime 65 = "01:05" ∧ formatTime 0 = "00:00" ∧
    ∃ n : ℕ, r.currentTime = (n : ℚ) ∧ 1 ≤ n ∧ n ≤ 5400 := by
  refine ⟨formatTime_eq_mmss s hs, ?_, ?_, by decide, by decide, by decide, ?_⟩
  · rw [formatTime_eq_mmss s hs]
    rfl
  · intro s' hs' heq
    rw [formatTime_eq_mmss s hs, formatTime_eq_mmss s' hs'] at heq
    exact mmss_injective s' s hs' hs heq
  · obtain ⟨u, -, -, ⟨n, hn, hn0, hn1⟩, -⟩ :=
      runGuarded_induction wholeMinutes WholeInvariant wholeInvariant_step ops
        (useTimer cfg) t0 r (wholeInvariant_useTimer cfg t0 hstudy hrest) hrun
    refine ⟨n.toNat, ?_, by omega, by omega⟩
    rw [hn]
    have : ((n.toNat : ℤ) : ℚ) = (n : ℚ) := by
      rw [Int.toNat_of_nonneg (by omega)]
    exact_mod_cast this.symm

/-- Witness for C23 (amended): 125 seconds, and the default machine started at 0, ticked
after 10 seconds, paused and given a study duration of 30 minutes. -/
theorem formatTime_spec_witness :
    ∃ r, runGuarded wholeMinutes (useTimer ⟨.undefined, .undefined, .undefined⟩) 0
        [(.start, 0), (.tick, 10000), (.pause, 10500),
          (.setStudyDuration (.number (.fin 30)), 11000)] = some r ∧
      formatTime 125 = mmss 125 ∧ (formatTime 125).length = 5 ∧
      (∀ s' : ℕ, s' ≤ 5999 → formatTime s' = formatTime 125 → s' = 125) ∧
      formatTime 125 = "02:05" ∧ formatTime 65 = "01:05" ∧ formatTime 0 = "00:00" ∧
      ∃ n : ℕ, r.currentTime = (n : ℚ) ∧ 1 ≤ n ∧ n ≤ 5400 := by
  have h : runGuarded wholeMinutes (useTimer ⟨.undefined, .undefined, .undefined⟩) 0
        [(.start, 0), (.tick, 10000), (.pause, 10500),
          (.setStudyDuration (.number (.fin 30)), 11000)]
      = some ⟨30, 5, 1800, false, .study, 1, 0, some 0, some 1500⟩ := by
    norm_num [runGuarded, wholeMinutes, applyOp, start, tick, pause,
      setStudyDuration, useTimer, JSValue.orDefault,
      JSValue.toRat, isValidStudyDuration, isValidRestDuration, isValidCycleCount,
      JSNumber.geConst, JSNumber.leConst, JSNumber.isInteger]
  exact ⟨_, h, formatTime_spec _ 0 _ _ 125 (by norm_num)
    (by norm_num [useTimer, JSValue.orDefault, JSValue.toRat, isValidStudyDuration,
      JSNumber.geConst, JSNumber.leConst])
    (by norm_num [useTimer, JSValue.orDefault, JSValue.toRat, isValidRestDuration,
      JSNumber.geConst, JSNumber.leConst]) h⟩

/-! ## Theorems: the notification list of `useAchievements` -/

/-- One pass of `checkAchievements` keeps every unlocked flag. -/
theorem isUnlocked_checkAchievements_mono (tz : TimeZone) (now : ℤ) (d : AppData)
    (s : AchievementState) (id : String) (h : isUnlocked s id = true) :
    isUnlocked (checkAchievements tz now d s) id = true := by
  obtain ⟨e, he, hu⟩ := (isUnlocked_eq_true_iff s id).1 h
  exact (isUnlocked_eq_true_iff _ id).2
    ⟨e, checkAchievements_keeps_unlocked tz now d s id e he hu, hu⟩

/-- One pass of `checkAchievements` keeps the keys distinct. -/
theorem nodup_objectKeys_checkAchievements (tz : TimeZone) (now : ℤ) (d : AppData)
    (s : AchievementState) (hk : (objectKeys s).Nodup) :
    (objectKeys (checkAchievements tz now d s)).Nodup := by
  rw [objectKeys_checkAchievements]
  refine List.Nodup.append hk (nodup_ACHIEVEMENT_IDS.filter _) ?_
  intro k hk1 hk2
  have := (List.mem_filter.1 hk2).2
  simp only [decide_eq_true_eq] at this
  exact this hk1

/-- An id of `newUnlocks` was not unlocked before the pass and is unlocked after it. -/
theorem mem_newUnlocks (tz : TimeZone) (now : ℤ) (h : List Session) (m : ℤ)
    (hook : AchievementsHook) (id : String) (hid : id ∈ newUnlocks tz now h m hook) :
    isUnlocked hook.achievementState id = false ∧
      isUnlocked (checkAchievements tz now ⟨h, m⟩ hook.achievementState) id = true := by
  unfold newUnlocks getNewlyUnlockedAchievements at hid
  have := (List.mem_filter.1 hid).2
  simp only [Bool.and_eq_true, Bool.not_eq_true'] at this
  exact this

/-- The list `newUnlocks` has no repetition when the keys of the state are distinct. -/
theorem nodup_newUnlocks (tz : TimeZone) (now : ℤ) (h : List Session) (m : ℤ)
    (hook : AchievementsHook) (hk : (objectKeys hook.achievementState).Nodup) :
    (newUnlocks tz now h m hook).Nodup := by
  unfold newUnlocks getNewlyUnlockedAchievements
  exact (nodup_objectKeys_checkAchievements tz now _ _ hk).filter _

/-- The notification list after an evaluation pass: the list before, followed by
`newUnlocks`. -/
theorem newlyUnlocked_checkAndUpdate (tz : TimeZone) (now : ℤ) (h : List Session) (m : ℤ)
    (hook : AchievementsHook) :
    (checkAndUpdateAchievements tz now h m hook).newlyUnlocked =
      hook.newlyUnlocked ++ newUnlocks tz now h m hook := by
  unfold checkAndUpdateAchievements
  simp only
  split
  · rfl
  · rename_i hlen
    have : newUnlocks tz now h m hook = [] := by
      unfold newUnlocks
      exact List.length_eq_zero.1 (by omega)
    rw [this, List.append_nil]

/-- The achievement state after an evaluation pass: the result of `checkAchievements`
when something was newly unlocked, the state before otherwise. -/
theorem achievementState_checkAndUpdate (tz : TimeZone) (now : ℤ) (h : List Session) (m : ℤ)
    (hook : AchievementsHook) :
    (checkAndUpdateAchievements tz now h m hook).achievementState =
      if newUnlocks tz now h m hook = [] then hook.achievementState
      else checkAchievements tz now ⟨h, m⟩ hook.achievementState := by
  unfold checkAndUpdateAchievements
  simp only
  by_cases hnil : newUnlocks tz now h m hook = []
  · rw [if_pos hnil]
    unfold newUnlocks at hnil
    rw [hnil]
    rfl
  · rw [if_neg hnil]
    have hpos : 0 < (newUnlocks tz now h m hook).length := List.length_pos.2 hnil
    unfold newUnlocks at hpos
    rw [if_pos hpos]

/-- The notification list after one step: the list before, possibly filtered, followed by
the ids the step adds. -/
theorem newlyUnlocked_applyHookStep (tz : TimeZone) (hook : AchievementsHook)
    (step : HookStep) :
    ∃ kept : List String, kept.Sublist hook.newlyUnlocked ∧
      (applyHookStep tz hook step).newlyUnlocked = kept ++ addedBy tz hook step := by
  cases step with
  | evaluate h m now =>
    exact ⟨hook.newlyUnlocked, List.Sublist.refl _, newlyUnlocked_checkAndUpdate tz now h m hook⟩
  | clearNotification id =>
    exact ⟨hook.newlyUnlocked.filter (fun a => decide (a ≠ id)), List.filter_sublist _,
      by simp [applyHookStep, clearNotification, addedBy]⟩
  | clearAllNotifications =>
    exact ⟨[], List.nil_sublist _, by simp [applyHookStep, clearAllNotifications, addedBy]⟩

/-- No step locks an unlocked achievement. -/
theorem isUnlocked_applyHookStep_mono (tz : TimeZone) (hook : AchievementsHook)
    (step : HookStep) (id : String) (h : isUnlocked hook.achievementState id = true) :
    isUnlocked (applyHookStep tz hook step).achievementState id = true := by
  cases step with
  | evaluate hist m now =>
    simp only [applyHookStep]
    rw [achievementState_checkAndUpdate]
    split
    · exact h
    · exact isUnlocked_checkAchievements_mono tz now _ _ id h
  | clearNotification a => exact h
  | clearAllNotifications => exact h

/-- Every step keeps the keys of the achievement state distinct. -/
theorem nodup_keys_applyHookStep (tz : TimeZone) (hook : AchievementsHook) (step : HookStep)
    (hk : (objectKeys hook.achievementState).Nodup) :
    (objectKeys (applyHookStep tz hook step).achievementState).Nodup := by
  cases step with
  | evaluate hist m now =>
    simp only [applyHookStep]
    rw [achievementState_checkAndUpdate]
    split
    · exact hk
    · exact nodup_objectKeys_checkAchievements tz now _ _ hk
  | clearNotification a => exact hk
  | clearAllNotifications => exact hk

/-- An id a step adds was not unlocked before the step and is unlocked after it. -/
theorem mem_addedBy (tz : TimeZone) (hook : AchievementsHook) (step : HookStep) (id : String)
    (hid : id ∈ addedBy tz hook step) :
    isUnlocked hook.achievementState id = false ∧
      isUnlocked (applyHookStep tz hook step).achievementState id = true := by
  cases step with
  | evaluate hist m now =>
    simp only [addedBy] at hid
    have hne : newUnlocks tz now hist m hook ≠ [] := List.ne_nil_of_mem hid
    simp only [applyHookStep]
    rw [achievementState_checkAndUpdate, if_neg hne]
    exact mem_newUnlocks tz now hist m hook id hid
  | clearNotification a => simp [addedBy] at hid
  | clearAllNotifications => simp [addedBy] at hid

/-- The ids a step adds have no repetition. -/
theorem nodup_addedBy (tz : TimeZone) (hook : AchievementsHook) (step : HookStep)
    (hk : (objectKeys hook.achievementState).Nodup) : (addedBy tz hook step).Nodup := by
  cases step with
  | evaluate hist m now => exact nodup_newUnlocks tz now hist m hook hk
  | clearNotification a => simp [addedBy]
  | clearAllNotifications => simp [addedBy]

/-- Along a run, the ids added have no repetition, and none of them was unlocked at the
start of the run. -/
theorem addedAlong_nodup (tz : TimeZone) (steps : List HookStep) :
    ∀ hook : AchievementsHook, (objectKeys hook.achievementState).Nodup →
      (addedAlong tz hook steps).Nodup ∧
      ∀ id ∈ addedAlong tz hook steps, isUnlocked hook.achievementState id = false := by
  induction steps with
  | nil =>
    intro hook _
    simp [addedAlong]
  | cons step rest ih =>
    intro hook hk
    obtain ⟨hnd, hlocked⟩ := ih (applyHookStep tz hook step) (nodup_keys_applyHookStep tz hook step hk)
    simp only [addedAlong]
    refine ⟨List.Nodup.append (nodup_addedBy tz hook step hk) hnd ?_, ?_⟩
    · intro id h1 h2
      have := (mem_addedBy tz hook step id h1).2
      rw [hlocked id h2] at this
      cases this
    · intro id hid
      rcases List.mem_append.1 hid with h1 | h2
      · exact (mem_addedBy tz hook step id h1).1
      · cases hu : isUnlocked hook.achievementState id
        · rfl
        · have := isUnlocked_applyHookStep_mono tz hook step id hu
          rw [hlocked id h2] at this
          cases this

/-- Along a run, the notification list is drawn, in order, from the list at the start
followed by the ids added. -/
theorem newlyUnlocked_sublist (tz : TimeZone) (steps : List HookStep) :
    ∀ hook : AchievementsHook,
      (runHook tz hook steps).newlyUnlocked.Sublist
        (hook.newlyUnlocked ++ addedAlong tz hook steps) := by
  induction steps with
  | nil =>
    intro hook
    simp [runHook, addedAlong]
  | cons step rest ih =>
    intro hook
    obtain ⟨kept, hkept, heq⟩ := newlyUnlocked_applyHookStep tz hook step
    have h1 := ih (applyHookStep tz hook step)
    rw [heq] at h1
    simp only [addedAlong]
    have h2 : (kept ++ addedBy tz hook step ++ addedAlong tz (applyHookStep tz hook step) rest).Sublist
        (hook.newlyUnlocked ++ (addedBy tz hook step ++
          addedAlong tz (applyHookStep tz hook step) rest)) := by
      rw [List.append_assoc]
      exact List.Sublist.append hkept (List.Sublist.refl _)
    exact List.Sublist.trans h1 h2

/-- Along a run, every id of the notification list stays unlocked in the achievement
state. -/
theorem newlyUnlocked_unlocked (tz : TimeZone) (steps : List HookStep) :
    ∀ hook : AchievementsHook,
      (∀ a ∈ hook.newlyUnlocked, isUnlocked hook.achievementState a = true) →
      ∀ a ∈ (runHook tz hook steps).newlyUnlocked,
        isUnlocked (runHook tz hook steps).achievementState a = true := by
  induction steps with
  | nil =>
    intro hook h
    exact h
  | cons step rest ih =>
    intro hook h
    apply ih (applyHookStep tz hook step)
    intro a ha
    obtain ⟨kept, hkept, heq⟩ := newlyUnlocked_applyHookStep tz hook step
    rw [heq] at ha
    rcases List.mem_append.1 ha with h1 | h2
    · exact isUnlocked_applyHookStep_mono tz hook step a (h a (hkept.subset h1))
    · exact (mem_addedBy tz hook step a h2).2

/-- An unlocked id that is not in the notification list is never put there by a later
step. -/
theorem unlocked_stays_out (tz : TimeZone) (id : String) (steps : List HookStep) :
    ∀ hook : AchievementsHook, isUnlocked hook.achievementState id = true →
      id ∉ hook.newlyUnlocked →
      id ∉ (runHook tz hook steps).newlyUnlocked ∧ id ∉ addedAlong tz hook steps := by
  induction steps with
  | nil =>
    intro hook _ hout
    exact ⟨hout, by simp [addedAlong]⟩
  | cons step rest ih =>
    intro hook hu hout
    have hnot : id ∉ addedBy tz hook step := by
      intro hmem
      have := (mem_addedBy tz hook step id hmem).1
      rw [hu] at this
      cases this
    obtain ⟨kept, hkept, heq⟩ := newlyUnlocked_applyHookStep tz hook step
    have hout' : id ∉ (applyHookStep tz hook step).newlyUnlocked := by
      rw [heq]
      intro hmem
      rcases List.mem_append.1 hmem with h1 | h2
      · exact hout (hkept.subset h1)
      · exact hnot h2
    obtain ⟨h1, h2⟩ := ih (applyHookStep tz hook step)
      (isUnlocked_applyHookStep_mono tz hook step id hu) hout'
    refine ⟨h1, ?_⟩
    simp only [addedAlong]
    intro hmem
    rcases List.mem_append.1 hmem with h3 | h4
    · exact hnot h3
    · exact h2 h4

/-- C24: from the state of `useAchievements` with an empty notification list and any
achievement state with distinct keys, along any run of evaluation passes and dismissals:
no id is added to the notification list twice (so the list has no repetition); every id
in the list is unlocked in the achievement state; and an id of the list, once dismissed
with `clearNotification`, is not in the list after any later steps, nor added by them. -/
theorem newlyUnlocked_once (tz : TimeZone) (s0 : AchievementState)
    (hkeys : (objectKeys s0).Nodup) (steps later : List HookStep) (id : String) :
    (addedAlong tz ⟨s0, []⟩ steps).Nodup ∧
    (runHook tz ⟨s0, []⟩ steps).newlyUnlocked.Nodup ∧
    (∀ a ∈ (runHook tz ⟨s0, []⟩ steps).newlyUnlocked,
      isUnlocked (runHook tz ⟨s0, []⟩ steps).achievementState a = true) ∧
    (id ∈ (runHook tz ⟨s0, []⟩ steps).newlyUnlocked →
      id ∉ (runHook tz (clearNotification (runHook tz ⟨s0, []⟩ steps) id) later).newlyUnlocked ∧
      id ∉ addedAlong tz (clearNotification (runHook tz ⟨s0, []⟩ steps) id) later) := by
  have hadded := (addedAlong_nodup tz steps ⟨s0, []⟩ hkeys).1
  have hsub := newlyUnlocked_sublist tz steps ⟨s0, []⟩
  simp only [List.nil_append] at hsub
  have hunl := newlyUnlocked_unlocked tz steps ⟨s0, []⟩ (by simp)
  refine ⟨hadded, hsub.nodup hadded, hunl, ?_⟩
  intro hin
  apply unlocked_stays_out tz id later
  · exact hunl id hin
  · simp [clearNotification]

/-- Witness for C24: from the empty state, one pass with `mischiefCount = 5` puts
`mischievous-master` in the notification list; it is dismissed, and a later pass with
three `sleepy` sessions does not put it back. -/
theorem newlyUnlocked_once_witness :
    (objectKeys ([] : AchievementState)).Nodup ∧
    "mischievous-master" ∈
      (runHook (fixedOffsetZone 0) ⟨[], []⟩ [.evaluate [] 5 1800000000000]).newlyUnlocked ∧
    (addedAlong (fixedOffsetZone 0) ⟨[], []⟩ [.evaluate [] 5 1800000000000]).Nodup ∧
    (runHook (fixedOffsetZone 0) ⟨[], []⟩ [.evaluate [] 5 1800000000000]).newlyUnlocked.Nodup ∧
    (∀ a ∈ (runHook (fixedOffsetZone 0) ⟨[], []⟩ [.evaluate [] 5 1800000000000]).newlyUnlocked,
      isUnlocked (runHook (fixedOffsetZone 0) ⟨[], []⟩
        [.evaluate [] 5 1800000000000]).achievementState a = true) ∧
    "mischievous-master" ∉
      (runHook (fixedOffsetZone 0)
        (clearNotification
          (runHook (fixedOffsetZone 0) ⟨[], []⟩ [.evaluate [] 5 1800000000000])
          "mischievous-master")
        [.evaluate threeSleepySessions 5 1800000001000]).newlyUnlocked ∧
    "mischievous-master" ∉
      addedAlong (fixedOffsetZone 0)
        (clearNotification
          (runHook (fixedOffsetZone 0) ⟨[], []⟩ [.evaluate [] 5 1800000000000])
          "mischievous-master")
        [.evaluate threeSleepySessions 5 1800000001000] :=
  have key := newlyUnlocked_once (fixedOffsetZone 0) [] (by decide)
    [.evaluate [] 5 1800000000000] [.evaluate threeSleepySessions 5 1800000001000]
    "mischievous-master"
  have hin : "mischievous-master" ∈
      (runHook (fixedOffsetZone 0) ⟨[], []⟩ [.evaluate [] 5 1800000000000]).newlyUnlocked := by
    decide
  ⟨by decide, hin, key.1, key.2.1, key.2.2.1, (key.2.2.2 hin).1, (key.2.2.2 hin).2⟩

end SpookyStudy
